import Mathlib

/-!
# Dense matrix / sparse matrix subtraction expression of Blaze

A shallow embedding of `blaze/math/expressions/DMatSMatSubExpr.h`, of the
LAPACK wrapper `blaze/math/lapack/heev.h` and of the type trait
`blaze/math/traits/CrossExprTrait.h`.

* Concrete containers live in a `Memory`, addressed by `Addr`; an expression
  node refers to them by address (capture by const reference).
* An operand of an expression node is described by the capability contract
  the node uses: its compile-time traits, `rows()`, `columns()`,
  `operator()(i,j)`, `canAlias`, `isAliased` and its identity.
* `BLAZE_INTERNAL_ASSERT` and `BLAZE_THROW_INVALID_ARGUMENT` become errors of
  the `Except Exception` monad.
-/

namespace Blaze

/-- Raw identity (address) of an object. -/
abbrev Addr := Nat

/-- Failure conditions: the two exception kinds thrown by the library, a failed
internal assertion and a failed `boost::numeric_cast`. -/
inductive Exception where
  | invalid_argument (what : String)
  | runtime_error (what : String)
  | assertion (what : String)
  | bad_numeric_cast (what : String)
  deriving DecidableEq

/-- BLAZE_INTERNAL_ASSERT( expr, msg ): fails when the condition is false. -/
def BLAZE_INTERNAL_ASSERT (expr : Bool) (msg : String) : Except Exception Unit :=
  if expr then .ok () else .error (.assertion msg)

/-- Storage of a concrete (storage-backed) matrix: its extents and its elements. -/
structure Container (α : Type) where
  rows : Nat
  columns : Nat
  elem : Nat → Nat → α

/-- The memory: every address holds a container. -/
structure Memory (α : Type) where
  read : Addr → Container α

instance {α : Type} : CoeFun (Memory α) (fun _ => Addr → Container α) := ⟨Memory.read⟩

/-- Replace the container stored at address `a`. -/
def Memory.store {α : Type} (m : Memory α) (a : Addr) (c : Container α) : Memory α :=
  { read := fun b => if b = a then c else m b }

/-- Compile-time facts of a matrix type `MT`: `IsExpression<MT>::value`,
`MT::smpAssignable`, `Rows<MT>::value`, `Columns<MT>::value` (0 = dynamic),
the structural traits `IsSymmetric<MT>::value`, ... and the storage order
flag `SO` (`rowMajor = false`, `columnMajor = true`). -/
structure TypeTraits where
  isExpression : Bool := false
  smpAssignable : Bool := false
  Rows : Nat := 0
  Columns : Nat := 0
  IsSymmetric : Bool := false
  IsHermitian : Bool := false
  IsLower : Bool := false
  IsUniLower : Bool := false
  IsStrictlyLower : Bool := false
  IsUpper : Bool := false
  IsUniUpper : Bool := false
  IsStrictlyUpper : Bool := false
  storageOrder : Bool := false
  deriving DecidableEq

/-- An operand of an expression node, given by the capability contract the
node relies on. `rows`, `columns` and `access` read the current memory (the
operand may refer to concrete containers); `address` is the identity of a
concrete container operand (`none` for a temporary expression object). -/
structure Operand (α : Type) where
  traits : TypeTraits
  rows : Memory α → Nat
  columns : Memory α → Nat
  access : Memory α → Nat → Nat → α
  canAlias : Addr → Bool
  isAliased : Addr → Bool
  address : Option Addr

/-- Modelled from the spec: a concrete container (the storage classes such as
DynamicMatrix and CompressedMatrix are not part of the sources). It is not an
expression, its shape and elements are those stored at its address, and it
can alias / is aliased with exactly its own address. -/
def Operand.container {α : Type} (tr : TypeTraits) (a : Addr) : Operand α :=
  { traits := { tr with isExpression := false }
    rows := fun m => (m a).rows
    columns := fun m => (m a).columns
    access := fun m i j => (m a).elem i j
    canAlias := fun alias_ => decide (alias_ = a)
    isAliased := fun alias_ => decide (alias_ = a)
    address := some a }

/-- Expression object for dense matrix-sparse matrix subtractions: the two
operand handles `lhs_` (dense) and `rhs_` (sparse). -/
structure DMatSMatSubExpr (α : Type) where
  lhs_ : Operand α
  rhs_ : Operand α

namespace DMatSMatSubExpr

variable {α : Type}

/-- Constructor for the DMatSMatSubExpr class. -/
def new (m : Memory α) (lhs rhs : Operand α) : Except Exception (DMatSMatSubExpr α) := do
  BLAZE_INTERNAL_ASSERT (lhs.rows m == rhs.rows m) "Invalid number of rows"
  BLAZE_INTERNAL_ASSERT (lhs.columns m == rhs.columns m) "Invalid number of columns"
  pure { lhs_ := lhs, rhs_ := rhs }

/-- Returns the current number of rows of the matrix. -/
def rows (e : DMatSMatSubExpr α) (m : Memory α) : Nat :=
  e.lhs_.rows m

/-- Returns the current number of columns of the matrix. -/
def columns (e : DMatSMatSubExpr α) (m : Memory α) : Nat :=
  e.lhs_.columns m

/-- 2D-access to the matrix elements: `operator()( i, j )`. -/
def access [Sub α] (e : DMatSMatSubExpr α) (m : Memory α) (i j : Nat) : Except Exception α := do
  BLAZE_INTERNAL_ASSERT (decide (i < e.lhs_.rows m)) "Invalid row access index"
  BLAZE_INTERNAL_ASSERT (decide (j < e.lhs_.columns m)) "Invalid column access index"
  pure (e.lhs_.access m i j - e.rhs_.access m i j)

/-- Returns the left-hand side dense matrix operand. -/
def leftOperand (e : DMatSMatSubExpr α) : Operand α :=
  e.lhs_

/-- Returns the right-hand side sparse matrix operand. -/
def rightOperand (e : DMatSMatSubExpr α) : Operand α :=
  e.rhs_

/-- Returns whether the expression can alias with the given address. -/
def canAlias (e : DMatSMatSubExpr α) (alias_ : Addr) : Bool :=
  (e.lhs_.traits.isExpression && e.lhs_.canAlias alias_) || e.rhs_.canAlias alias_

/-- Returns whether the expression is aliased with the given address. -/
def isAliased (e : DMatSMatSubExpr α) (alias_ : Addr) : Bool :=
  e.lhs_.isAliased alias_ || e.rhs_.isAliased alias_

end DMatSMatSubExpr

/-- Subtraction operator for the subtraction of a dense matrix and a sparse
matrix with identical storage order: `operator-( lhs, rhs )`. -/
def operatorMinus {α : Type} (m : Memory α) (lhs rhs : Operand α) :
    Except Exception (DMatSMatSubExpr α) :=
  if lhs.rows m ≠ rhs.rows m ∨ lhs.columns m ≠ rhs.columns m then
    .error (.invalid_argument "Matrix sizes do not match")
  else
    DMatSMatSubExpr.new m lhs rhs

/-! ## Assignment kernels of the dense target -/

/-- Overwrite the element (i,j) of a container. -/
def Container.set {α : Type} (c : Container α) (i j : Nat) (v : α) : Container α :=
  { c with elem := fun a b => if a = i ∧ b = j then v else c.elem a b }

/-- Index pairs (i,j) of a container in row-major order. -/
def Container.cells {α : Type} (c : Container α) : List (Nat × Nat) :=
  List.product (List.range c.rows) (List.range c.columns)

/-- Modelled from the spec: the element-wise (compound) assignment kernels of
the concrete dense target, which are not part of the sources. Every index
(i,j) of the target at address `lhs` is written exactly once with
`op (target(i,j)) (rhs(i,j))`; the operand is read from the current memory,
so an operand that overlaps the target sees the elements already written. -/
def compoundAssign {α : Type} (op : α → α → α) (m : Memory α) (lhs : Addr) (rhs : Operand α) :
    Memory α :=
  (m lhs).cells.foldl
    (fun s ij => s.store lhs ((s lhs).set ij.1 ij.2 (op ((s lhs).elem ij.1 ij.2) (rhs.access s ij.1 ij.2))))
    m

/-- Modelled from the spec: kernel `assign( T, M )`, T(i,j) = M(i,j). -/
def assign {α : Type} (m : Memory α) (lhs : Addr) (rhs : Operand α) : Memory α :=
  compoundAssign (fun _ v => v) m lhs rhs

/-- Modelled from the spec: kernel `addAssign( T, M )`, T(i,j) += M(i,j). -/
def addAssign {α : Type} [Add α] (m : Memory α) (lhs : Addr) (rhs : Operand α) : Memory α :=
  compoundAssign (fun x v => x + v) m lhs rhs

/-- Modelled from the spec: kernel `subAssign( T, M )`, T(i,j) -= M(i,j). -/
def subAssign {α : Type} [Sub α] (m : Memory α) (lhs : Addr) (rhs : Operand α) : Memory α :=
  compoundAssign (fun x v => x - v) m lhs rhs

/-- Modelled from the spec: `isSame( T, M )` of the target at address `lhs`
and an operand: both are the very same object. -/
def isSame {α : Type} (lhs : Addr) (rhs : Operand α) : Bool :=
  rhs.address == some lhs

/-- Assignment of a dense matrix-sparse matrix subtraction to a dense matrix
(the target is the concrete dense matrix at address `lhs`). -/
def DMatSMatSubExpr.assign {α : Type} [Sub α] (m : Memory α) (lhs : Addr)
    (rhs : DMatSMatSubExpr α) : Except Exception (Memory α) := do
  BLAZE_INTERNAL_ASSERT ((m lhs).rows == rhs.rows m) "Invalid number of rows"
  BLAZE_INTERNAL_ASSERT ((m lhs).columns == rhs.columns m) "Invalid number of columns"
  if !rhs.lhs_.traits.isExpression && isSame lhs rhs.lhs_ then
    pure (Blaze.subAssign m lhs rhs.rhs_)
  else
    pure (Blaze.subAssign (Blaze.assign m lhs rhs.lhs_) lhs rhs.rhs_)

/-- Modelled from the spec: the universally safe fallback of the alias
analysis (performed by the concrete target, which is not part of the
sources): evaluate the expression into a fresh temporary at address `tmp`
with the shape of the expression, then copy the temporary into the target. -/
def assignViaTemporary {α : Type} [Sub α] (m : Memory α) (lhs tmp : Addr)
    (rhs : DMatSMatSubExpr α) : Except Exception (Memory α) := do
  let m0 := m.store tmp { rows := rhs.rows m, columns := rhs.columns m, elem := (m tmp).elem }
  let m1 ← rhs.assign m0 tmp
  pure (Blaze.assign m1 lhs (Operand.container {} tmp))

/-- The operand cannot be affected by writes to address `t`: it is not the
object at `t`, and its shape and elements do not depend on what is stored
at `t`. -/
def Operand.disjointFrom {α : Type} (op : Operand α) (t : Addr) : Prop :=
  op.address ≠ some t ∧
  ∀ (m : Memory α) (c : Container α),
    op.rows (m.store t c) = op.rows m ∧ op.columns (m.store t c) = op.columns m ∧
    ∀ i j, op.access (m.store t c) i j = op.access m i j

/-! ## Compound assignment, sparse targets and SMP assignment -/

/-- Addition assignment of a dense matrix-sparse matrix subtraction to a dense
matrix (the target is the concrete dense matrix at address `lhs`). -/
def DMatSMatSubExpr.addAssign {α : Type} [Add α] [Sub α] (m : Memory α) (lhs : Addr)
    (rhs : DMatSMatSubExpr α) : Except Exception (Memory α) := do
  BLAZE_INTERNAL_ASSERT ((m lhs).rows == rhs.rows m) "Invalid number of rows"
  BLAZE_INTERNAL_ASSERT ((m lhs).columns == rhs.columns m) "Invalid number of columns"
  pure (Blaze.subAssign (Blaze.addAssign m lhs rhs.lhs_) lhs rhs.rhs_)

/-- Subtraction assignment of a dense matrix-sparse matrix subtraction to a
dense matrix (the target is the concrete dense matrix at address `lhs`). -/
def DMatSMatSubExpr.subAssign {α : Type} [Add α] [Sub α] (m : Memory α) (lhs : Addr)
    (rhs : DMatSMatSubExpr α) : Except Exception (Memory α) := do
  BLAZE_INTERNAL_ASSERT ((m lhs).rows == rhs.rows m) "Invalid number of rows"
  BLAZE_INTERNAL_ASSERT ((m lhs).columns == rhs.columns m) "Invalid number of columns"
  pure (Blaze.addAssign (Blaze.subAssign m lhs rhs.lhs_) lhs rhs.rhs_)

/-- The SMP kernels `smpAssign`, `smpAddAssign` and `smpSubAssign` of the
concrete target for one operand. They are not part of the sources and are a
parameter of the SMP dispatch functions. -/
structure SmpKernels (α : Type) where
  smpAssign : Memory α → Addr → Operand α → Memory α
  smpAddAssign : Memory α → Addr → Operand α → Memory α
  smpSubAssign : Memory α → Addr → Operand α → Memory α

/-- Modelled from the spec: a data-parallel compound assignment step (the SMP
backend is not part of the sources). The index range of the target is
partitioned across workers, every index is written exactly once by exactly
one worker, and the order between partitions is not fixed: the writes of the
serial kernel are performed in the order `sched cells`, where `sched` is the
reordering of the index pairs chosen by the runtime. -/
def smpCompoundAssign {α : Type} (op : α → α → α) (sched : List (Nat × Nat) → List (Nat × Nat))
    (m : Memory α) (lhs : Addr) (rhs : Operand α) : Memory α :=
  (sched (m lhs).cells).foldl
    (fun s ij => s.store lhs ((s lhs).set ij.1 ij.2 (op ((s lhs).elem ij.1 ij.2) (rhs.access s ij.1 ij.2))))
    m

/-- Modelled from the spec: the SMP kernels obtained from the data-parallel
step for a given reordering `sched`. -/
def scheduledKernels {α : Type} [Add α] [Sub α] (sched : List (Nat × Nat) → List (Nat × Nat)) :
    SmpKernels α :=
  { smpAssign := smpCompoundAssign (fun _ v => v) sched
    smpAddAssign := smpCompoundAssign (fun x v => x + v) sched
    smpSubAssign := smpCompoundAssign (fun x v => x - v) sched }

/-- Helper structure `UseSMPAssign`: set when at least one of the two matrix
operands is not SMP assignable (selects the expression specific evaluation
strategy). -/
def DMatSMatSubExpr.UseSMPAssign (MT1 MT2 : TypeTraits) : Bool :=
  !MT1.smpAssignable || !MT2.smpAssignable

/-- SMP assignment of a dense matrix-sparse matrix subtraction to a dense matrix
(in the sources this overload and the two SMP compound assignments below can
only be selected when `UseSMPAssign` holds). -/
def DMatSMatSubExpr.smpAssign {α : Type} (K : SmpKernels α) (m : Memory α) (lhs : Addr)
    (rhs : DMatSMatSubExpr α) : Except Exception (Memory α) := do
  BLAZE_INTERNAL_ASSERT ((m lhs).rows == rhs.rows m) "Invalid number of rows"
  BLAZE_INTERNAL_ASSERT ((m lhs).columns == rhs.columns m) "Invalid number of columns"
  if !rhs.lhs_.traits.isExpression && isSame lhs rhs.lhs_ then
    pure (K.smpSubAssign m lhs rhs.rhs_)
  else
    pure (K.smpSubAssign (K.smpAssign m lhs rhs.lhs_) lhs rhs.rhs_)

/-- SMP addition assignment of a dense matrix-sparse matrix subtraction to a
dense matrix. -/
def DMatSMatSubExpr.smpAddAssign {α : Type} (K : SmpKernels α) (m : Memory α) (lhs : Addr)
    (rhs : DMatSMatSubExpr α) : Except Exception (Memory α) := do
  BLAZE_INTERNAL_ASSERT ((m lhs).rows == rhs.rows m) "Invalid number of rows"
  BLAZE_INTERNAL_ASSERT ((m lhs).columns == rhs.columns m) "Invalid number of columns"
  pure (K.smpSubAssign (K.smpAddAssign m lhs rhs.lhs_) lhs rhs.rhs_)

/-- SMP subtraction assignment of a dense matrix-sparse matrix subtraction to a
dense matrix. -/
def DMatSMatSubExpr.smpSubAssign {α : Type} (K : SmpKernels α) (m : Memory α) (lhs : Addr)
    (rhs : DMatSMatSubExpr α) : Except Exception (Memory α) := do
  BLAZE_INTERNAL_ASSERT ((m lhs).rows == rhs.rows m) "Invalid number of rows"
  BLAZE_INTERNAL_ASSERT ((m lhs).columns == rhs.columns m) "Invalid number of columns"
  pure (K.smpAddAssign (K.smpSubAssign m lhs rhs.lhs_) lhs rhs.rhs_)

/-- The two candidate types of the temporary of a sparse assignment: the
result type of the expression and the result type with opposite storage order. -/
inductive TmpKind where
  | ResultType
  | OppositeType
  deriving DecidableEq

/-- `SelectType< SO == SO2, ResultType, OppositeType >::Type`, for an expression
of storage order `SO` and a target of storage order `SO2`. -/
def TmpType (SO SO2 : Bool) : TmpKind :=
  if SO == SO2 then .ResultType else .OppositeType

/-- Storage order of the candidate types of an expression of storage order
`SO`: `ResultType` has storage order `SO`, `OppositeType` has `!SO` (the two
storage order constraints of the sparse assignment). -/
def TmpKind.storageOrder (SO : Bool) : TmpKind → Bool
  | .ResultType => SO
  | .OppositeType => !SO

/-- Modelled from the spec: construction of a dense temporary from the
expression (the dense matrix classes are not part of the sources). Fresh
storage with the shape of the expression is placed at address `tmp` and the
expression is evaluated into it by `eval`. -/
def constructTemporary {α : Type}
    (eval : Memory α → Addr → DMatSMatSubExpr α → Except Exception (Memory α))
    (m : Memory α) (tmp : Addr) (rhs : DMatSMatSubExpr α) : Except Exception (Memory α) :=
  eval (m.store tmp { rows := rhs.rows m, columns := rhs.columns m, elem := (m tmp).elem }) tmp rhs

/-- Assignment of a dense matrix-sparse matrix subtraction (storage order `SO`)
to a sparse matrix (storage order `SO2`, at address `lhs`):
`const TmpType tmp( serial( rhs ) ); assign( ~lhs, tmp );` with the temporary
at the fresh address `tmp`. -/
def DMatSMatSubExpr.assignSparse {α : Type} [Sub α] (SO SO2 : Bool) (m : Memory α)
    (lhs tmp : Addr) (rhs : DMatSMatSubExpr α) : Except Exception (Memory α) := do
  BLAZE_INTERNAL_ASSERT ((m lhs).rows == rhs.rows m) "Invalid number of rows"
  BLAZE_INTERNAL_ASSERT ((m lhs).columns == rhs.columns m) "Invalid number of columns"
  let m1 ← constructTemporary DMatSMatSubExpr.assign m tmp rhs
  pure (Blaze.assign m1 lhs
    (Operand.container { storageOrder := (TmpType SO SO2).storageOrder SO } tmp))

/-- SMP assignment of a dense matrix-sparse matrix subtraction (storage order
`SO`) to a sparse matrix (storage order `SO2`, at address `lhs`):
`const TmpType tmp( rhs ); smpAssign( ~lhs, tmp );`. The temporary is
constructed through the expression specific `smpAssign` when
`exprSpecific` is set and through the serial `assign` otherwise; which of the
two the constructor selects is decided by the SMP backend, which is not part
of the sources. -/
def DMatSMatSubExpr.smpAssignSparse {α : Type} [Sub α] (K : SmpKernels α) (exprSpecific : Bool)
    (SO SO2 : Bool) (m : Memory α) (lhs tmp : Addr) (rhs : DMatSMatSubExpr α) :
    Except Exception (Memory α) := do
  BLAZE_INTERNAL_ASSERT ((m lhs).rows == rhs.rows m) "Invalid number of rows"
  BLAZE_INTERNAL_ASSERT ((m lhs).columns == rhs.columns m) "Invalid number of columns"
  let m1 ← constructTemporary
    (if exprSpecific then DMatSMatSubExpr.smpAssign K else DMatSMatSubExpr.assign) m tmp rhs
  pure (K.smpAssign m1 lhs
    (Operand.container { storageOrder := (TmpType SO SO2).storageOrder SO } tmp))

/-! ## Compile-time extents and operand capture -/

/-- `Rows< DMatSMatSubExpr<MT1,MT2,SO> >`: `Max< Rows<MT1>, Rows<MT2> >`. -/
def DMatSMatSubExpr.Rows (MT1 MT2 : TypeTraits) : Nat :=
  max MT1.Rows MT2.Rows

/-- `Columns< DMatSMatSubExpr<MT1,MT2,SO> >`: `Max< Columns<MT1>, Columns<MT2> >`. -/
def DMatSMatSubExpr.Columns (MT1 MT2 : TypeTraits) : Nat :=
  max MT1.Columns MT2.Columns

/-- How an expression node holds an operand of type `MT`: as `const MT` (a
private copy) or as `const MT&` (a reference to the object of the caller). -/
inductive Capture where
  | byValue
  | byConstReference
  deriving DecidableEq

/-- Composite type of the left-hand side dense matrix expression:
`SelectType< IsExpression<MT1>::value, const MT1, const MT1& >::Type`. -/
def DMatSMatSubExpr.LeftOperand (MT1 : TypeTraits) : Capture :=
  if MT1.isExpression then .byValue else .byConstReference

/-- Composite type of the right-hand side sparse matrix expression:
`SelectType< IsExpression<MT2>::value, const MT2, const MT2& >::Type`. -/
def DMatSMatSubExpr.RightOperand (MT2 : TypeTraits) : Capture :=
  if MT2.isExpression then .byValue else .byConstReference

/-! ## Restructuring operators -/

/-- Modelled from the spec: the expression node of a dense matrix / dense
matrix addition (DMatDMatAddExpr is not part of the sources), seen as an
operand. Element access is `left(i,j) + right(i,j)`, the shape is that of
the left operand, it may alias whatever one of its operands may alias, and
the structural flags follow the composition rules given for `+`. -/
def DMatDMatAddExpr {α : Type} [Add α] (lhs rhs : Operand α) : Operand α :=
  { traits :=
      { isExpression := true
        smpAssignable := lhs.traits.smpAssignable && rhs.traits.smpAssignable
        Rows := max lhs.traits.Rows rhs.traits.Rows
        Columns := max lhs.traits.Columns rhs.traits.Columns
        IsSymmetric := lhs.traits.IsSymmetric && rhs.traits.IsSymmetric
        IsHermitian := lhs.traits.IsHermitian && rhs.traits.IsHermitian
        IsLower := lhs.traits.IsLower && rhs.traits.IsLower
        IsUpper := lhs.traits.IsUpper && rhs.traits.IsUpper
        IsStrictlyLower := lhs.traits.IsStrictlyLower && rhs.traits.IsStrictlyLower }
    rows := fun m => lhs.rows m
    columns := fun m => lhs.columns m
    access := fun m i j => lhs.access m i j + rhs.access m i j
    canAlias := fun alias_ => lhs.canAlias alias_ || rhs.canAlias alias_
    isAliased := fun alias_ => lhs.isAliased alias_ || rhs.isAliased alias_
    address := none }

/-- Modelled from the spec: the expression node of a dense matrix / dense
matrix subtraction (DMatDMatSubExpr is not part of the sources), seen as an
operand. Element access is `left(i,j) - right(i,j)`. -/
def DMatDMatSubExpr {α : Type} [Sub α] (lhs rhs : Operand α) : Operand α :=
  { traits :=
      { isExpression := true
        smpAssignable := lhs.traits.smpAssignable && rhs.traits.smpAssignable
        Rows := max lhs.traits.Rows rhs.traits.Rows
        Columns := max lhs.traits.Columns rhs.traits.Columns
        IsSymmetric := lhs.traits.IsSymmetric && rhs.traits.IsSymmetric
        IsHermitian := lhs.traits.IsHermitian && rhs.traits.IsHermitian
        IsLower := lhs.traits.IsLower && rhs.traits.IsLower
        IsUniLower := lhs.traits.IsUniLower && rhs.traits.IsStrictlyLower
        IsUpper := lhs.traits.IsUpper && rhs.traits.IsUpper
        IsUniUpper := lhs.traits.IsUniUpper && rhs.traits.IsStrictlyUpper
        IsStrictlyLower := lhs.traits.IsStrictlyLower && rhs.traits.IsStrictlyLower }
    rows := fun m => lhs.rows m
    columns := fun m => lhs.columns m
    access := fun m i j => lhs.access m i j - rhs.access m i j
    canAlias := fun alias_ => lhs.canAlias alias_ || rhs.canAlias alias_
    isAliased := fun alias_ => lhs.isAliased alias_ || rhs.isAliased alias_
    address := none }

/-- Modelled from the spec: the addition operator of two dense matrices
(not part of the sources); construction validates the shapes and signals an
invalid-argument failure when they disagree. -/
def operatorPlusDense {α : Type} [Add α] (m : Memory α) (lhs rhs : Operand α) :
    Except Exception (Operand α) :=
  if lhs.rows m ≠ rhs.rows m ∨ lhs.columns m ≠ rhs.columns m then
    .error (.invalid_argument "Matrix sizes do not match")
  else
    .ok (DMatDMatAddExpr lhs rhs)

/-- Modelled from the spec: the subtraction operator of two dense matrices
(not part of the sources); construction validates the shapes and signals an
invalid-argument failure when they disagree. -/
def operatorMinusDense {α : Type} [Sub α] (m : Memory α) (lhs rhs : Operand α) :
    Except Exception (Operand α) :=
  if lhs.rows m ≠ rhs.rows m ∨ lhs.columns m ≠ rhs.columns m then
    .error (.invalid_argument "Matrix sizes do not match")
  else
    .ok (DMatDMatSubExpr lhs rhs)

/-- Addition operator for the addition of a dense matrix-sparse matrix
subtraction expression and a dense matrix, `(B-C)+D`:
`( lhs.leftOperand() + rhs ) - lhs.rightOperand()`. -/
def DMatSMatSubExpr.operatorPlus {α : Type} [Add α] (m : Memory α) (lhs : DMatSMatSubExpr α)
    (rhs : Operand α) : Except Exception (DMatSMatSubExpr α) := do
  let s ← operatorPlusDense m lhs.leftOperand rhs
  operatorMinus m s lhs.rightOperand

/-- Subtraction operator for the subtraction of a dense matrix-sparse matrix
subtraction expression and a dense matrix, `(B-C)-D`:
`( lhs.leftOperand() - rhs ) - lhs.rightOperand()`. -/
def DMatSMatSubExpr.operatorMinus {α : Type} [Sub α] (m : Memory α) (lhs : DMatSMatSubExpr α)
    (rhs : Operand α) : Except Exception (DMatSMatSubExpr α) := do
  let s ← operatorMinusDense m lhs.leftOperand rhs
  Blaze.operatorMinus m s lhs.rightOperand

/-! ## Structural trait specializations for `DMatSMatSubExpr<MT1,MT2,SO>` -/

namespace DMatSMatSubExpr

/-- `IsSymmetric< DMatSMatSubExpr<MT1,MT2,SO> >`. -/
def IsSymmetric (MT1 MT2 : TypeTraits) : Bool :=
  MT1.IsSymmetric && MT2.IsSymmetric

/-- `IsHermitian< DMatSMatSubExpr<MT1,MT2,SO> >`. -/
def IsHermitian (MT1 MT2 : TypeTraits) : Bool :=
  MT1.IsHermitian && MT2.IsHermitian

/-- `IsLower< DMatSMatSubExpr<MT1,MT2,SO> >`. -/
def IsLower (MT1 MT2 : TypeTraits) : Bool :=
  MT1.IsLower && MT2.IsLower

/-- `IsUniLower< DMatSMatSubExpr<MT1,MT2,SO> >`. -/
def IsUniLower (MT1 MT2 : TypeTraits) : Bool :=
  MT1.IsUniLower && MT2.IsStrictlyLower

/-- `IsStrictlyLower< DMatSMatSubExpr<MT1,MT2,SO> >`. -/
def IsStrictlyLower (MT1 MT2 : TypeTraits) : Bool :=
  MT1.IsStrictlyLower && MT2.IsStrictlyLower

/-- `IsUpper< DMatSMatSubExpr<MT1,MT2,SO> >`. -/
def IsUpper (MT1 MT2 : TypeTraits) : Bool :=
  MT1.IsUpper && MT2.IsUpper

/-- `IsUniUpper< DMatSMatSubExpr<MT1,MT2,SO> >`. -/
def IsUniUpper (MT1 MT2 : TypeTraits) : Bool :=
  MT1.IsUniUpper && MT2.IsStrictlyUpper

/-- `IsStrictlyUpper< DMatSMatSubExpr<MT1,MT2,SO> >`. -/
def IsStrictlyUpper (MT1 MT2 : TypeTraits) : Bool :=
  MT1.IsStrictlyUpper && MT2.IsStrictlyUpper

end DMatSMatSubExpr

/-! ## Structural properties of the elements of a square matrix

The properties are stated on the (checked) element access of a matrix of
order `n`. -/

/-- Checked element access: index pair to element or failure. -/
abbrev Elements (α : Type) := Nat → Nat → Except Exception α

/-- Elements of an operand in the current memory. -/
def Operand.elements {α : Type} (op : Operand α) (m : Memory α) : Elements α :=
  fun i j => .ok (op.access m i j)

/-- Lower triangular: every element above the diagonal is zero. -/
def isLower {α : Type} [Zero α] (n : Nat) (A : Elements α) : Prop :=
  ∀ i, i < n → ∀ j, j < n → i < j → A i j = .ok 0

/-- Upper triangular: every element below the diagonal is zero. -/
def isUpper {α : Type} [Zero α] (n : Nat) (A : Elements α) : Prop :=
  ∀ i, i < n → ∀ j, j < n → j < i → A i j = .ok 0

/-- Strictly lower triangular: lower triangular with a zero diagonal. -/
def isStrictlyLower {α : Type} [Zero α] (n : Nat) (A : Elements α) : Prop :=
  ∀ i, i < n → ∀ j, j < n → i ≤ j → A i j = .ok 0

/-- Strictly upper triangular: upper triangular with a zero diagonal. -/
def isStrictlyUpper {α : Type} [Zero α] (n : Nat) (A : Elements α) : Prop :=
  ∀ i, i < n → ∀ j, j < n → j ≤ i → A i j = .ok 0

/-- Unit lower triangular: lower triangular with every diagonal element 1. -/
def isUniLower {α : Type} [Zero α] [One α] (n : Nat) (A : Elements α) : Prop :=
  isLower n A ∧ ∀ i, i < n → A i i = .ok 1

/-- Unit upper triangular: upper triangular with every diagonal element 1. -/
def isUniUpper {α : Type} [Zero α] [One α] (n : Nat) (A : Elements α) : Prop :=
  isUpper n A ∧ ∀ i, i < n → A i i = .ok 1

/-- Symmetric: M(i,j) = M(j,i). -/
def isSymmetric {α : Type} (n : Nat) (A : Elements α) : Prop :=
  ∀ i, i < n → ∀ j, j < n → ∃ v, A i j = .ok v ∧ A j i = .ok v

/-- Hermitian: M(i,j) = conj( M(j,i) ). -/
def isHermitian {α : Type} [Star α] (n : Nat) (A : Elements α) : Prop :=
  ∀ i, i < n → ∀ j, j < n → ∃ v, A j i = .ok v ∧ A i j = .ok (star v)

/-! ## LAPACK Hermitian matrix eigenvalue function `heev`

The matrix `A`, the vector `w` and the sequence of effects (resizing `w`,
allocating a workspace, calling the LAPACK kernel) form the state; the
outcome of a call is the final state together with the exception thrown, if
any. The LAPACK kernel is external and is a parameter. -/

/-- The dense matrix argument `A`: storage order, extents, spacing between the
beginning of two rows/columns and the element storage by offset. -/
structure HeevMatrix (CT : Type) where
  rowMajor : Bool
  rows : Nat
  columns : Nat
  spacing : Nat
  data : Nat → CT

/-- The dense vector argument `w`: whether its type is resizable, its size and
its element storage. -/
structure HeevVector (BT : Type) where
  resizable : Bool
  size : Nat
  data : Nat → BT

/-- Arguments of a call of the LAPACK kernel
`heev( jobz, uplo, n, A, lda, w, work, lwork, rwork, &info )`. -/
structure KernelCall where
  jobz : Char
  uplo : Char
  n : Int
  lda : Int
  lwork : Int
  deriving DecidableEq

/-- What the LAPACK kernel leaves behind: the storage of `A` and `w` and `info`. -/
structure KernelResult (CT BT : Type) where
  A : Nat → CT
  w : Nat → BT
  info : Int

/-- The LAPACK kernel (`cheev` / `zheev`), external to the library. -/
abbrev Kernel (CT BT : Type) := KernelCall → (Nat → CT) → (Nat → BT) → KernelResult CT BT

/-- Effects of `heev`, in the order in which they happen. -/
inductive HeevEvent where
  | resize (n : Nat)
  | allocate (length : Int)
  | kernel (call : KernelCall)
  deriving DecidableEq

/-- State of a call of `heev`: the two arguments and the effects so far. -/
structure HeevState (CT BT : Type) where
  A : HeevMatrix CT
  w : HeevVector BT
  trace : List HeevEvent

/-- Outcome of a call: the exception thrown (`none` on normal return) and the final state. -/
structure Outcome (σ : Type) where
  exception : Option Exception
  state : σ

/-- Two's complement value of a 32-bit `int` computation. -/
def wrapInt32 (x : Int) : Int :=
  (x + 2147483648) % 4294967296 - 2147483648

/-- `boost::numeric_cast<int>( x )` of a `size_t` value: fails when the value is
not representable as `int`. -/
def numeric_cast (x : Nat) : Except Exception Int :=
  if x ≤ 2147483647 then .ok (x : Int)
  else .error (.bad_numeric_cast "bad numeric conversion: positive overflow")

/-- Modelled from the spec: `isSquare( A )` (not part of the sources): the
matrix is square. -/
def isSquare {CT : Type} (A : HeevMatrix CT) : Bool :=
  A.rows == A.columns

/-- Modelled from the spec: `resize( w, n, false )` (not part of the sources),
following the documentation of `heev`: `w` is resized to the correct size if
possible and necessary, and the call fails with an invalid-argument error if
`w` is a fixed size vector and the size does not match. -/
def resize {BT : Type} (w : HeevVector BT) (n : Nat) : Except Exception (HeevVector BT) :=
  if w.resizable then .ok { w with size := n }
  else if w.size ≠ n then .error (.invalid_argument "Vector cannot be resized")
  else .ok w

/-- Modelled from the spec: `BLAZE_THROW_LAPACK_ERROR` (the exception macros
are not part of the sources): the computation-failed condition, which `heev`
documents as `std::runtime_error`. -/
def BLAZE_THROW_LAPACK_ERROR (msg : String) : Exception :=
  .runtime_error msg

/-- LAPACK kernel for computing the eigenvalues of the given dense Hermitian
matrix: `heev( A, w, jobz, uplo )`. Signed overflow of the `int` workspace
lengths is modelled as two's complement wrap-around. -/
def heev {CT BT : Type} (kernel : Kernel CT BT) (s : HeevState CT BT) (jobz uplo : Char) :
    Outcome (HeevState CT BT) :=
  if !isSquare s.A then
    { exception := some (.invalid_argument "Invalid non-square matrix provided"), state := s }
  else if jobz ≠ 'V' ∧ jobz ≠ 'N' then
    { exception := some (.invalid_argument "Invalid jobz argument provided"), state := s }
  else if uplo ≠ 'L' ∧ uplo ≠ 'U' then
    { exception := some (.invalid_argument "Invalid uplo argument provided"), state := s }
  else
    match resize s.w s.A.rows with
    | .error ex => { exception := some ex, state := s }
    | .ok w1 =>
      let s1 : HeevState CT BT := { s with w := w1, trace := s.trace ++ [.resize s.A.rows] }
      match numeric_cast s.A.rows with
      | .error ex => { exception := some ex, state := s1 }
      | .ok n =>
        match numeric_cast s.A.spacing with
        | .error ex => { exception := some ex, state := s1 }
        | .ok lda =>
          if n = 0 then
            { exception := none, state := s1 }
          else
            let lwork := wrapInt32 (10 * n + 2)
            let s2 : HeevState CT BT :=
              { s1 with trace := s1.trace ++ [.allocate lwork, .allocate (wrapInt32 (3 * n - 2))] }
            let uplo' := if s.A.rowMajor then (if uplo = 'L' then 'U' else 'L') else uplo
            let call : KernelCall :=
              { jobz := jobz, uplo := uplo', n := n, lda := lda, lwork := lwork }
            let r := kernel call s2.A.data s2.w.data
            let s3 : HeevState CT BT :=
              { A := { s2.A with data := r.A }, w := { s2.w with data := r.w },
                trace := s2.trace ++ [.kernel call] }
            if r.info < 0 then
              { exception := some (.assertion "Invalid argument for eigenvalue computation"),
                state := s3 }
            else if r.info > 0 then
              { exception := some (BLAZE_THROW_LAPACK_ERROR "Eigenvalue computation failed"),
                state := s3 }
            else
              { exception := none, state := s3 }

/-- Index pairs of the triangle of a matrix of order `n` named by `uplo`:
`'L'` is the lower part (`j ≤ i`), `'U'` the upper part (`i ≤ j`). -/
def inTriangle (uplo : Char) (n i j : Nat) : Prop :=
  i < n ∧ j < n ∧ if uplo = 'L' then j ≤ i else i ≤ j

/-- Storage offset of element `(i,j)` of a row-major matrix with spacing `lda`. -/
def rowMajorOffset (lda i j : Nat) : Nat :=
  i * lda + j

/-- Storage offset of element `(r,c)` of a column-major matrix with leading
dimension `lda` (the view of the LAPACK kernel). -/
def columnMajorOffset (lda r c : Nat) : Nat :=
  r + c * lda

/-- The storage offsets the column-major LAPACK kernel reads when called with
the flag `uplo`, order `n` and leading dimension `lda`. -/
def kernelReads (uplo : Char) (n lda off : Nat) : Prop :=
  ∃ r c, inTriangle uplo n r c ∧ off = columnMajorOffset lda r c

/-- The storage offsets of the triangle `uplo` of the matrix `A` as the caller
sees it, in the storage order of `A`. -/
def requestedTriangle (rowMajor : Bool) (uplo : Char) (n lda off : Nat) : Prop :=
  ∃ i j, inTriangle uplo n i j ∧
    off = if rowMajor then rowMajorOffset lda i j else columnMajorOffset lda i j

/-- The kernel call that `heev( A, w, jobz, uplo )` is expected to make: `jobz`
as given, `uplo` as given for a column-major `A` and exchanged for a row-major
`A`, the order and the spacing of `A`, and the complex workspace length. -/
def heevKernelCall {CT : Type} (A : HeevMatrix CT) (jobz uplo : Char) : KernelCall :=
  { jobz := jobz
    uplo := if A.rowMajor then (if uplo = 'L' then 'U' else 'L') else uplo
    n := (A.rows : Int)
    lda := (A.spacing : Int)
    lwork := wrapInt32 (10 * (A.rows : Int) + 2) }

/-- The state `heev` is expected to leave behind after a kernel call: `w` has
the size of `A`, the storage of `A` and `w` is what the kernel left, and the
effects are one resize, the two workspace allocations and the kernel call. -/
def heevFinalState {CT BT : Type} (kernel : Kernel CT BT) (s : HeevState CT BT)
    (jobz uplo : Char) : HeevState CT BT :=
  { A := { s.A with data := (kernel (heevKernelCall s.A jobz uplo) s.A.data s.w.data).A }
    w := { s.w with size := s.A.rows,
                    data := (kernel (heevKernelCall s.A jobz uplo) s.A.data s.w.data).w }
    trace := s.trace ++ [.resize s.A.rows] ++
      [.allocate (wrapInt32 (10 * (s.A.rows : Int) + 2)),
       .allocate (wrapInt32 (3 * (s.A.rows : Int) - 2))] ++
      [.kernel (heevKernelCall s.A jobz uplo)] }

/-! ## Return type of a cross product expression: `CrossExprTrait` -/

/-- Compile-time facts of an operand type `T` of a cross product, taken after
removing a reference: `IsColumnVector< RemoveReference_<T> >::value` and
`IsRowVector< RemoveReference_<T> >::value`. -/
structure CrossOperand where
  IsColumnVector : Bool
  IsRowVector : Bool
  deriving DecidableEq

/-- The nested `Type` of a trait: `INVALID_TYPE` or a proper type. -/
inductive TraitType (τ : Type) where
  | INVALID_TYPE
  | valid (T : τ)
  deriving DecidableEq

/-- `CrossExprTrait<T1,T2>::Type`; `Result` is the type of the cross product
expression, `decltype( std::declval<T1>() % std::declval<T2>() )`. -/
def CrossExprTrait {τ : Type} (Result : τ) (T1 T2 : CrossOperand) : TraitType τ :=
  if (T1.IsColumnVector && T2.IsColumnVector) || (T1.IsRowVector && T2.IsRowVector) then
    .valid Result
  else
    .INVALID_TYPE

/-! ## Result type of a `declsym()` operation: `DeclSymTrait` -/

/-- An unqualified object type: a (dense or sparse) matrix type or any other type. -/
inductive BaseType where
  | matrix (name : String)
  | nonMatrix (name : String)
  deriving DecidableEq

/-- Reference modifier of a type. -/
inductive RefKind where
  | none
  | lvalue
  | rvalue
  deriving DecidableEq

/-- A type `MT` as a template argument: an unqualified object type with its
`const` / `volatile` qualifiers and its reference modifier; the qualifiers of
a reference type are those of the type referred to. -/
structure CxxType where
  base : BaseType
  isConst : Bool := false
  isVolatile : Bool := false
  ref : RefKind := .none
  deriving DecidableEq

/-- Modelled from the spec: `IsConst<T>` (the utility type traits are not part of
the sources): `T` is a `const` qualified non-reference type. -/
def IsConst (T : CxxType) : Bool :=
  T.ref == .none && T.isConst

/-- Modelled from the spec: `IsVolatile<T>` (the utility type traits are not part
of the sources): `T` is a `volatile` qualified non-reference type. -/
def IsVolatile (T : CxxType) : Bool :=
  T.ref == .none && T.isVolatile

/-- Modelled from the spec: `IsReference<T>` (the utility type traits are not part
of the sources): `T` is an lvalue or rvalue reference type. -/
def IsReference (T : CxxType) : Bool :=
  T.ref != .none

/-- Modelled from the spec: `Decay_<T>` (the utility type traits are not part of
the sources), for object types: the reference modifier and then the
`const` / `volatile` qualifiers are removed. -/
def Decay_ (T : CxxType) : CxxType :=
  { base := T.base }

/-- Modelled from the spec: `IsMatrix<T>` (the type traits are not part of the
sources): `T` is a dense or sparse matrix type. -/
def IsMatrix (T : CxxType) : Bool :=
  match T.base with
  | .matrix _ => T.ref == .none
  | .nonMatrix _ => false

/-- The adaptor type `SymmetricMatrix<MT>`. -/
structure SymmetricMatrix where
  MT : CxxType
  deriving DecidableEq

/-- `DeclSymTrait<MT>::Type`. The trait refers to itself for the decayed type;
`depth` bounds the number of nested instantiations of the trait (`none` if the
bound is exhausted). -/
def DeclSymTrait : Nat → CxxType → Option (TraitType SymmetricMatrix)
  | 0, _ => none
  | depth + 1, MT =>
    if IsConst MT || IsVolatile MT || IsReference MT then
      DeclSymTrait depth (Decay_ MT)
    else if IsMatrix MT then
      some (.valid { MT := MT })
    else
      some .INVALID_TYPE

/-! ## The `StrictlyLowerMatrix` adaptor

The adaptor itself is not part of the sources, only its tests are
(`DenseTest1.cpp`, `RowTest.h`). It is modelled as an adaptor that enforces
the strictly lower structure of the adapted matrix: an operation whose result
would not be strictly lower is reported as an invalid argument. -/

/-- Modelled from the spec: `isStrictlyLower( M )` (not part of the sources):
the matrix is square and every element on and above the diagonal is zero. -/
def Container.isStrictlyLower {α : Type} [Zero α] [DecidableEq α] (M : Container α) : Bool :=
  M.rows == M.columns &&
    decide (∀ i, i < M.rows → ∀ j, j < M.columns → i ≤ j → M.elem i j = 0)

/-- A dense or sparse row vector: its size and its elements. -/
structure RowVector (α : Type) where
  size : Nat
  elem : Nat → α

/-- Modelled from the spec: the adaptor `StrictlyLowerMatrix<MT>` (not part of
the sources), holding the adapted matrix `matrix_`. -/
structure StrictlyLowerMatrix (α : Type) where
  matrix_ : Container α

namespace StrictlyLowerMatrix

variable {α : Type}

/-- Modelled from the spec: enforcement of the structure (not part of the
sources): the matrix `M` becomes the content of the adaptor only if it is
strictly lower; otherwise the invalid-argument error `what` is raised. -/
def restricted [Zero α] [DecidableEq α] (M : Container α) (what : String) :
    Except Exception (StrictlyLowerMatrix α) :=
  if M.isStrictlyLower then .ok { matrix_ := M } else .error (.invalid_argument what)

/-- Modelled from the spec: construction of the adaptor from a dense or sparse
matrix `M` (not part of the sources). -/
def construct [Zero α] [DecidableEq α] (M : Container α) :
    Except Exception (StrictlyLowerMatrix α) :=
  restricted M "Invalid setup of strictly lower matrix"

/-- Modelled from the spec: assignment `lower = M` of a dense or sparse matrix
(not part of the sources). -/
def assignMatrix [Zero α] [DecidableEq α] (_lower : StrictlyLowerMatrix α) (M : Container α) :
    Except Exception (StrictlyLowerMatrix α) :=
  restricted M "Invalid assignment to strictly lower matrix"

/-- Modelled from the spec: addition assignment `lower += M` (not part of the
sources): the sizes have to match and the sum has to be strictly lower. -/
def addAssignMatrix [Zero α] [Add α] [DecidableEq α] (lower : StrictlyLowerMatrix α)
    (M : Container α) : Except Exception (StrictlyLowerMatrix α) :=
  if lower.matrix_.rows ≠ M.rows ∨ lower.matrix_.columns ≠ M.columns then
    .error (.invalid_argument "Matrix sizes do not match")
  else
    restricted { lower.matrix_ with elem := fun i j => lower.matrix_.elem i j + M.elem i j }
      "Invalid assignment to strictly lower matrix"

/-- Modelled from the spec: subtraction assignment `lower -= M` (not part of the
sources): the sizes have to match and the difference has to be strictly lower. -/
def subAssignMatrix [Zero α] [Sub α] [DecidableEq α] (lower : StrictlyLowerMatrix α)
    (M : Container α) : Except Exception (StrictlyLowerMatrix α) :=
  if lower.matrix_.rows ≠ M.rows ∨ lower.matrix_.columns ≠ M.columns then
    .error (.invalid_argument "Matrix sizes do not match")
  else
    restricted { lower.matrix_ with elem := fun i j => lower.matrix_.elem i j - M.elem i j }
      "Invalid assignment to strictly lower matrix"

/-- Modelled from the spec: assignment `row( lower, i ) = v` of a dense or sparse
vector to a row of the adaptor (not part of the sources): the row index has to
be valid, the sizes have to match and the matrix with row `i` replaced by `v`
has to be strictly lower. -/
def assignRow [Zero α] [DecidableEq α] (lower : StrictlyLowerMatrix α) (i : Nat)
    (v : RowVector α) : Except Exception (StrictlyLowerMatrix α) :=
  if lower.matrix_.rows ≤ i then
    .error (.invalid_argument "Invalid row access index")
  else if v.size ≠ lower.matrix_.columns then
    .error (.invalid_argument "Vector sizes do not match")
  else
    restricted
      { lower.matrix_ with elem := fun a b => if a = i then v.elem b else lower.matrix_.elem a b }
      "Invalid assignment to restricted matrix"

end StrictlyLowerMatrix

/-! ## Contracts of the assignment kernels -/

/-- Only the container at address `t` may differ between the memories `m` and
`m'`, and it keeps its shape. -/
def changesOnly {α : Type} (t : Addr) (m m' : Memory α) : Prop :=
  (∀ a, a ≠ t → m' a = m a) ∧ (m' t).rows = (m t).rows ∧ (m' t).columns = (m t).columns

/-- The operand reads the same shape and elements in the memories `m` and `m'`. -/
def Operand.readsSame {α : Type} (op : Operand α) (m m' : Memory α) : Prop :=
  op.rows m' = op.rows m ∧ op.columns m' = op.columns m ∧
    ∀ i j, op.access m' i j = op.access m i j

/-- Contract of a compound assignment kernel `k` with element operation `op`:
it changes only the target, and for an operand that is disjoint from the target
or is the target container itself every element in range becomes
`op (target(i,j)) (operand(i,j))`. -/
def KernelSpec {α : Type} (op : α → α → α) (k : Memory α → Addr → Operand α → Memory α) : Prop :=
  ∀ (m : Memory α) (t : Addr) (rhs : Operand α),
    changesOnly t m (k m t rhs) ∧
      ((rhs.disjointFrom t ∨ ∃ tr, rhs = Operand.container tr t) →
        ∀ i j, ((k m t rhs) t).elem i j =
          if i < (m t).rows ∧ j < (m t).columns then op ((m t).elem i j) (rhs.access m i j)
          else (m t).elem i j)

/-- The call changed only the target at address `t`: every other container is
the same, the target keeps its shape, and every operand that is disjoint from
the target reads the same shape and elements as before. -/
def onlyTargetChanged {α : Type} (t : Addr) (m m' : Memory α) : Prop :=
  changesOnly t m m' ∧ ∀ op : Operand α, op.disjointFrom t → op.readsSame m m'

/-! ## Type-level facts of the subtraction expression -/

/-- Compilation switch for the expression template assignment strategy:
`enum { smpAssignable = 0 }`. -/
def DMatSMatSubExpr.smpAssignable : Bool :=
  false

/-- The compile-time facts of the type `DMatSMatSubExpr<MT1,MT2,SO>`, collected
from its compilation switches and trait specializations; it is an expression
(a `Computation`). -/
def DMatSMatSubExpr.traits (MT1 MT2 : TypeTraits) (SO : Bool) : TypeTraits :=
  { isExpression := true
    smpAssignable := DMatSMatSubExpr.smpAssignable
    Rows := DMatSMatSubExpr.Rows MT1 MT2
    Columns := DMatSMatSubExpr.Columns MT1 MT2
    IsSymmetric := DMatSMatSubExpr.IsSymmetric MT1 MT2
    IsHermitian := DMatSMatSubExpr.IsHermitian MT1 MT2
    IsLower := DMatSMatSubExpr.IsLower MT1 MT2
    IsUniLower := DMatSMatSubExpr.IsUniLower MT1 MT2
    IsStrictlyLower := DMatSMatSubExpr.IsStrictlyLower MT1 MT2
    IsUpper := DMatSMatSubExpr.IsUpper MT1 MT2
    IsUniUpper := DMatSMatSubExpr.IsUniUpper MT1 MT2
    IsStrictlyUpper := DMatSMatSubExpr.IsStrictlyUpper MT1 MT2
    storageOrder := SO }

/-- Consistency of the triangular flags of a matrix type: strictly lower and
unit lower types are lower, no type is both unit lower and strictly lower, and
the same for the upper variants. -/
def TypeTraits.triangularConsistent (MT : TypeTraits) : Prop :=
  (MT.IsStrictlyLower = true → MT.IsLower = true) ∧
    (MT.IsUniLower = true → MT.IsLower = true) ∧
    ¬ (MT.IsUniLower = true ∧ MT.IsStrictlyLower = true) ∧
    (MT.IsStrictlyUpper = true → MT.IsUpper = true) ∧
    (MT.IsUniUpper = true → MT.IsUpper = true) ∧
    ¬ (MT.IsUniUpper = true ∧ MT.IsStrictlyUpper = true)

/-- Selection between the expression specific SMP function of `Sub(L,R)` and
the default strategy: the expression specific overloads are declared with
`EnableIf< UseSMPAssign<MT> >`, so they take part only if `UseSMPAssign`
holds; otherwise the default strategy is chosen. -/
def DMatSMatSubExpr.selectSMP {β : Type} (MT1 MT2 : TypeTraits) (exprSpecific default : β) : β :=
  if DMatSMatSubExpr.UseSMPAssign MT1 MT2 then exprSpecific else default

/-- The serial kernels `assign`, `addAssign` and `subAssign` in the place of the
SMP kernels, to compare the SMP dispatch with the serial one. -/
def serialKernels {α : Type} [Add α] [Sub α] : SmpKernels α :=
  { smpAssign := assign, smpAddAssign := addAssign, smpSubAssign := subAssign }

/-- Every SMP kernel writes only the target and computes the same target as
its serial kernel. -/
def SmpKernels.sameTargetAsSerial {α : Type} [Add α] [Sub α] (K : SmpKernels α) : Prop :=
  ∀ (m : Memory α) (t : Addr) (op : Operand α),
    (changesOnly t m (K.smpAssign m t op) ∧ (K.smpAssign m t op) t = (assign m t op) t) ∧
      (changesOnly t m (K.smpAddAssign m t op) ∧
        (K.smpAddAssign m t op) t = (addAssign m t op) t) ∧
      (changesOnly t m (K.smpSubAssign m t op) ∧
        (K.smpSubAssign m t op) t = (subAssign m t op) t)

/-! ## Sample data -/

/-- A memory holding a 3x3 dense matrix at address 1, a 3x3 sparse matrix at
address 2, a 2x2 matrix at address 3, a unit lower 3x3 matrix at address 6,
two symmetric 3x3 matrices at addresses 7 and 8 and empty containers elsewhere. -/
def sampleMemory : Memory Int := Memory.mk fun a =>
  match a with
  | 1 => { rows := 3, columns := 3,
           elem := fun i j => match i, j with
             | 1, 0 => -4
             | 2, 0 => 7
             | _, _ => 0 }
  | 2 => { rows := 3, columns := 3,
           elem := fun i j => match i, j with
             | 1, 0 => 2
             | 2, 0 => 3
             | _, _ => 0 }
  | 3 => { rows := 2, columns := 2, elem := fun _ _ => 5 }
  | 6 => { rows := 3, columns := 3,
           elem := fun i j => match i, j with
             | 0, 0 => 1
             | 1, 0 => 5
             | 1, 1 => 1
             | 2, 1 => 2
             | 2, 2 => 1
             | _, _ => 0 }
  | 7 => { rows := 3, columns := 3, elem := fun i j => (i : Int) + (j : Int) }
  | 8 => { rows := 3, columns := 3, elem := fun i j => (i : Int) * (j : Int) }
  | _ => { rows := 0, columns := 0, elem := fun _ _ => 0 }

/-- The strictly lower dense 3x3 matrix `L = [[0,0,0],[-4,0,0],[7,0,0]]` stored at address 1. -/
def sampleL : Operand Int :=
  Operand.container { smpAssignable := true, IsLower := true, IsStrictlyLower := true } 1

/-- The strictly lower sparse 3x3 matrix `R = [[0,0,0],[2,0,0],[3,0,0]]` stored at address 2. -/
def sampleR : Operand Int :=
  Operand.container { IsLower := true, IsStrictlyLower := true } 2

/-- The unit lower dense 3x3 matrix `[[1,0,0],[5,1,0],[0,2,1]]` stored at address 6. -/
def sampleUni : Operand Int :=
  Operand.container { smpAssignable := true, IsLower := true, IsUniLower := true } 6

/-- The symmetric dense 3x3 matrix with elements `i + j` stored at address 7. -/
def sampleSymL : Operand Int :=
  Operand.container { smpAssignable := true, IsSymmetric := true, IsHermitian := true } 7

/-- The symmetric sparse 3x3 matrix with elements `i * j` stored at address 8. -/
def sampleSymR : Operand Int :=
  Operand.container { IsSymmetric := true, IsHermitian := true } 8

/-- The 2x2 matrix stored at address 3. -/
def sampleSmall : Operand Int :=
  Operand.container {} 3

/-- The sample memory with an additional 3x3 dense target, filled with 9, at address 4. -/
def sampleTargetMemory : Memory Int :=
  sampleMemory.store 4 { rows := 3, columns := 3, elem := fun _ _ => 9 }

/-- The subtraction expression `L - R` of the two 3x3 sample matrices. -/
def sampleSub : DMatSMatSubExpr Int :=
  { lhs_ := sampleL, rhs_ := sampleR }

/-- A kernel that leaves the data alone and reports the given `info`. -/
def sampleKernel (info : Int) : Kernel Int Int :=
  fun _ A w => { A := A, w := w, info := info }

/-- A row-major 2x2 matrix with spacing 2 and a resizable vector of size 0, no
effects so far. -/
def sampleHeevState : HeevState Int Int :=
  { A := { rowMajor := true, rows := 2, columns := 2, spacing := 2,
           data := fun k => if k = 0 ∨ k = 3 then 1 else 0 },
    w := { resizable := true, size := 0, data := fun _ => 0 },
    trace := [] }

/-- A 2x3 matrix and a resizable vector, no effects so far. -/
def sampleHeevNonSquare : HeevState Int Int :=
  { A := { rowMajor := false, rows := 2, columns := 3, spacing := 2, data := fun _ => 0 },
    w := { resizable := true, size := 0, data := fun _ => 0 },
    trace := [] }

/-- A column vector type such as `DynamicVector<double,columnVector>`. -/
def sampleColumnVector : CrossOperand :=
  { IsColumnVector := true, IsRowVector := false }

/-- A row vector type such as `DynamicVector<double,rowVector>`. -/
def sampleRowVector : CrossOperand :=
  { IsColumnVector := false, IsRowVector := true }

/-- A dense matrix type that reports `smpAssignable`. -/
def sampleSmpDense : TypeTraits :=
  { smpAssignable := true }

/-- A sparse matrix type that reports `smpAssignable`. -/
def sampleSmpSparse : TypeTraits :=
  { smpAssignable := true }

/-- The type `const DynamicMatrix<int,rowMajor>&`. -/
def sampleConstRefMatrix : CxxType :=
  { base := .matrix "DynamicMatrix<int,rowMajor>", isConst := true, ref := .lvalue }

/-- The type `volatile int`. -/
def sampleVolatileInt : CxxType :=
  { base := .nonMatrix "int", isVolatile := true }

/-- The 3x3 matrix with `M(1,0) = -4`, `M(2,0) = 7` of the adaptor tests. -/
def sampleLowerContent : Container Int :=
  { rows := 3, columns := 3,
    elem := fun i j => match i, j with
      | 1, 0 => -4
      | 2, 0 => 7
      | _, _ => 0 }

/-- The same matrix with the additional element `M(0,2) = 5`. -/
def sampleNonLowerContent : Container Int :=
  { rows := 3, columns := 3,
    elem := fun i j => match i, j with
      | 0, 2 => 5
      | 1, 0 => -4
      | 2, 0 => 7
      | _, _ => 0 }

/-- The strictly lower matrix `[[0,0,0],[-4,0,0],[7,0,0]]` of the adaptor tests. -/
def sampleLower : StrictlyLowerMatrix Int :=
  { matrix_ := sampleLowerContent }

/-- The strictly lower 3x3 matrix with `M(1,0) = 2`, `M(2,0) = -7`, `M(2,1) = 5`. -/
def sampleAddend : Container Int :=
  { rows := 3, columns := 3,
    elem := fun i j => match i, j with
      | 1, 0 => 2
      | 2, 0 => -7
      | 2, 1 => 5
      | _, _ => 0 }

/-- The 3x3 matrix whose only non-zero element is `M(2,2) = 6`. -/
def sampleDiagonalAddend : Container Int :=
  { rows := 3, columns := 3,
    elem := fun i j => match i, j with
      | 2, 2 => 6
      | _, _ => 0 }

/-- The row vector `(2,0,0)`. -/
def sampleRow200 : RowVector Int :=
  { size := 3, elem := fun j => if j = 0 then 2 else 0 }

/-- The row vector `(2,1,0)`. -/
def sampleRow210 : RowVector Int :=
  { size := 3, elem := fun j => if j = 0 then 2 else if j = 1 then 1 else 0 }

/-- The row vector `(2,0,9)`. -/
def sampleRow209 : RowVector Int :=
  { size := 3, elem := fun j => if j = 0 then 2 else if j = 2 then 9 else 0 }

/-- The strictly lower 3x3 matrix with `M(1,0) = -2`, `M(2,0) = 7`, `M(2,1) = 5`. -/
def sampleSubtrahend : Container Int :=
  { rows := 3, columns := 3,
    elem := fun i j => match i, j with
      | 1, 0 => -2
      | 2, 0 => 7
      | 2, 1 => 5
      | _, _ => 0 }

/-! ## Basic lemmas -/

section Lemmas

variable {α : Type}

theorem assert_true (msg : String) : BLAZE_INTERNAL_ASSERT true msg = .ok () := rfl

theorem operatorMinus_ok (m : Memory α) (L R : Operand α)
    (hr : L.rows m = R.rows m) (hc : L.columns m = R.columns m) :
    operatorMinus m L R = .ok { lhs_ := L, rhs_ := R } := by
  simp [operatorMinus, DMatSMatSubExpr.new, hr, hc, BLAZE_INTERNAL_ASSERT, bind, Except.bind, pure,
    Except.pure]

theorem operatorMinus_error (m : Memory α) (L R : Operand α)
    (h : L.rows m ≠ R.rows m ∨ L.columns m ≠ R.columns m) :
    operatorMinus m L R = .error (.invalid_argument "Matrix sizes do not match") := by
  simp [operatorMinus, h]

theorem operatorMinus_inv (m : Memory α) (L R : Operand α) (e : DMatSMatSubExpr α)
    (he : operatorMinus m L R = .ok e) :
    e = { lhs_ := L, rhs_ := R } ∧ L.rows m = R.rows m ∧ L.columns m = R.columns m := by
  by_cases h : L.rows m ≠ R.rows m ∨ L.columns m ≠ R.columns m
  · rw [operatorMinus_error m L R h] at he
    cases he
  · push_neg at h
    rw [operatorMinus_ok m L R h.1 h.2] at he
    cases he
    exact ⟨rfl, h.1, h.2⟩

theorem access_ok [Sub α] (e : DMatSMatSubExpr α) (m : Memory α) (i j : Nat)
    (hi : i < e.lhs_.rows m) (hj : j < e.lhs_.columns m) :
    e.access m i j = .ok (e.lhs_.access m i j - e.rhs_.access m i j) := by
  simp [DMatSMatSubExpr.access, hi, hj, BLAZE_INTERNAL_ASSERT, bind, Except.bind, pure,
    Except.pure]

theorem store_same (m : Memory α) (a : Addr) (c : Container α) : (m.store a c) a = c := by
  simp [Memory.store]

theorem store_other (m : Memory α) (a b : Addr) (c : Container α) (h : b ≠ a) :
    (m.store a c) b = m b := by
  simp [Memory.store, h]

/-- A memory that agrees with `m` outside `t` is `m` with a new container at `t`. -/
theorem eq_store_of_frame (m m' : Memory α) (t : Addr) (h : ∀ a, a ≠ t → m' a = m a) :
    m' = m.store t (m' t) := by
  cases m with
  | mk f =>
    cases m' with
    | mk g =>
      simp only [Memory.store, Memory.mk.injEq]
      funext b
      by_cases hb : b = t
      · subst hb; simp
      · simpa [hb] using h b hb

/-- An operand disjoint from `t` reads the same in every memory that agrees outside `t`. -/
theorem disjoint_frame (op : Operand α) (t : Addr) (hd : op.disjointFrom t) (m m' : Memory α)
    (h : ∀ a, a ≠ t → m' a = m a) :
    op.rows m' = op.rows m ∧ op.columns m' = op.columns m ∧
      ∀ i j, op.access m' i j = op.access m i j := by
  rw [eq_store_of_frame m m' t h]
  exact hd.2 m (m' t)

/-- The fold behind the kernels, over an arbitrary list of index pairs. -/
theorem foldl_step_frame (op : α → α → α) (t : Addr) (rhs : Operand α) (l : List (Nat × Nat)) :
    ∀ m : Memory α,
      (∀ a, a ≠ t → (l.foldl (fun s ij => s.store t ((s t).set ij.1 ij.2
          (op ((s t).elem ij.1 ij.2) (rhs.access s ij.1 ij.2)))) m) a = m a) ∧
      ((l.foldl (fun s ij => s.store t ((s t).set ij.1 ij.2
          (op ((s t).elem ij.1 ij.2) (rhs.access s ij.1 ij.2)))) m) t).rows = (m t).rows ∧
      ((l.foldl (fun s ij => s.store t ((s t).set ij.1 ij.2
          (op ((s t).elem ij.1 ij.2) (rhs.access s ij.1 ij.2)))) m) t).columns = (m t).columns := by
  induction l with
  | nil => intro m; simp
  | cons c cs ih =>
    intro m
    simp only [List.foldl_cons]
    obtain ⟨h1, h2, h3⟩ := ih (m.store t ((m t).set c.1 c.2
      (op ((m t).elem c.1 c.2) (rhs.access m c.1 c.2))))
    refine ⟨?_, ?_, ?_⟩
    · intro a ha
      rw [h1 a ha, store_other _ _ _ _ ha]
    · rw [h2, store_same]; rfl
    · rw [h3, store_same]; rfl

theorem foldl_step_elem (op : α → α → α) (t : Addr) (rhs : Operand α)
    (hd : ∀ (m : Memory α) (c : Container α) i j, rhs.access (m.store t c) i j = rhs.access m i j)
    (l : List (Nat × Nat)) (hl : l.Nodup) :
    ∀ (m : Memory α) (i j : Nat),
      ((l.foldl (fun s ij => s.store t ((s t).set ij.1 ij.2
          (op ((s t).elem ij.1 ij.2) (rhs.access s ij.1 ij.2)))) m) t).elem i j =
        if (i, j) ∈ l then op ((m t).elem i j) (rhs.access m i j) else (m t).elem i j := by
  induction l with
  | nil => intro m i j; simp
  | cons c cs ih =>
    intro m i j
    obtain ⟨hc, hcs⟩ := List.nodup_cons.mp hl
    simp only [List.foldl_cons]
    rw [ih hcs, store_same, hd]
    obtain ⟨a, b⟩ := c
    by_cases hab : (i, j) = (a, b)
    · have hcs' : (i, j) ∉ cs := hab ▸ hc
      obtain ⟨rfl, rfl⟩ := Prod.mk.inj hab
      simp [hcs', Container.set]
    · have hne : ¬ (i = a ∧ j = b) := fun h => hab (by rw [h.1, h.2])
      by_cases hmem : (i, j) ∈ cs
      · simp [hmem, Container.set, hne]
      · simp [hmem, hab, Container.set, hne]

theorem mem_cells (c : Container α) (i j : Nat) :
    (i, j) ∈ c.cells ↔ i < c.rows ∧ j < c.columns := by
  simp [Container.cells]

theorem nodup_cells (c : Container α) : c.cells.Nodup :=
  List.Nodup.product (List.nodup_range _) (List.nodup_range _)

/-- Frame of the kernels: only the target address changes, and the target keeps its shape. -/
theorem compoundAssign_frame (op : α → α → α) (m : Memory α) (t : Addr) (rhs : Operand α) :
    (∀ a, a ≠ t → (compoundAssign op m t rhs) a = m a) ∧
      ((compoundAssign op m t rhs) t).rows = (m t).rows ∧
      ((compoundAssign op m t rhs) t).columns = (m t).columns :=
  foldl_step_frame op t rhs (m t).cells m

/-- Elements written by a kernel whose operand does not overlap the target. -/
theorem compoundAssign_elem (op : α → α → α) (m : Memory α) (t : Addr) (rhs : Operand α)
    (hd : rhs.disjointFrom t) (i j : Nat) :
    ((compoundAssign op m t rhs) t).elem i j =
      if i < (m t).rows ∧ j < (m t).columns then op ((m t).elem i j) (rhs.access m i j)
      else (m t).elem i j := by
  unfold compoundAssign
  rw [foldl_step_elem op t rhs (fun m c i j => (hd.2 m c).2.2 i j) _ (nodup_cells _) m i j]
  simp only [mem_cells]

theorem assign_frame (m : Memory α) (t : Addr) (rhs : Operand α) :
    (∀ a, a ≠ t → (assign m t rhs) a = m a) ∧ ((assign m t rhs) t).rows = (m t).rows ∧
      ((assign m t rhs) t).columns = (m t).columns :=
  compoundAssign_frame (fun _ v => v) m t rhs

theorem subAssign_frame [Sub α] (m : Memory α) (t : Addr) (rhs : Operand α) :
    (∀ a, a ≠ t → (subAssign m t rhs) a = m a) ∧ ((subAssign m t rhs) t).rows = (m t).rows ∧
      ((subAssign m t rhs) t).columns = (m t).columns :=
  compoundAssign_frame (fun x v => x - v) m t rhs

theorem assign_elem (m : Memory α) (t : Addr) (rhs : Operand α) (hd : rhs.disjointFrom t)
    (i j : Nat) :
    ((assign m t rhs) t).elem i j =
      if i < (m t).rows ∧ j < (m t).columns then rhs.access m i j else (m t).elem i j :=
  compoundAssign_elem (fun _ v => v) m t rhs hd i j

theorem subAssign_elem [Sub α] (m : Memory α) (t : Addr) (rhs : Operand α)
    (hd : rhs.disjointFrom t) (i j : Nat) :
    ((subAssign m t rhs) t).elem i j =
      if i < (m t).rows ∧ j < (m t).columns then (m t).elem i j - rhs.access m i j
      else (m t).elem i j :=
  compoundAssign_elem (fun x v => x - v) m t rhs hd i j

theorem container_access (tr : TypeTraits) (a : Addr) (m : Memory α) (i j : Nat) :
    (Operand.container tr a : Operand α).access m i j = (m a).elem i j := rfl

/-- The fold behind the kernels when the operand is the target container itself:
every index reads its own, not yet written, element. -/
theorem foldl_step_elem_self (op : α → α → α) (t : Addr) (rhs : Operand α)
    (hself : ∀ (s : Memory α) i j, rhs.access s i j = (s t).elem i j)
    (l : List (Nat × Nat)) (hl : l.Nodup) :
    ∀ (m : Memory α) (i j : Nat),
      ((l.foldl (fun s ij => s.store t ((s t).set ij.1 ij.2
          (op ((s t).elem ij.1 ij.2) (rhs.access s ij.1 ij.2)))) m) t).elem i j =
        if (i, j) ∈ l then op ((m t).elem i j) ((m t).elem i j) else (m t).elem i j := by
  induction l with
  | nil => intro m i j; simp
  | cons c cs ih =>
    intro m i j
    obtain ⟨hc, hcs⟩ := List.nodup_cons.mp hl
    simp only [List.foldl_cons]
    rw [ih hcs, store_same, hself]
    obtain ⟨a, b⟩ := c
    by_cases hab : (i, j) = (a, b)
    · have hcs' : (i, j) ∉ cs := hab ▸ hc
      obtain ⟨rfl, rfl⟩ := Prod.mk.inj hab
      simp [hcs', Container.set]
    · have hne : ¬ (i = a ∧ j = b) := fun h => hab (by rw [h.1, h.2])
      by_cases hmem : (i, j) ∈ cs
      · simp [hmem, Container.set, hne]
      · simp [hmem, hab, Container.set, hne]

/-- The data-parallel step satisfies the kernel contract for every reordering
of the index pairs. -/
theorem smpCompoundAssign_spec (op : α → α → α) (sched : List (Nat × Nat) → List (Nat × Nat))
    (hperm : ∀ l, (sched l).Perm l) : KernelSpec op (smpCompoundAssign op sched) := by
  intro m t rhs
  refine ⟨foldl_step_frame op t rhs (sched (m t).cells) m, ?_⟩
  intro h i j
  have hnd : (sched (m t).cells).Nodup := (hperm _).nodup_iff.mpr (nodup_cells _)
  have hmem : (i, j) ∈ sched (m t).cells ↔ i < (m t).rows ∧ j < (m t).columns := by
    rw [(hperm _).mem_iff, mem_cells]
  unfold smpCompoundAssign
  rcases h with hd | ⟨tr, rfl⟩
  · rw [foldl_step_elem op t rhs (fun m c i j => (hd.2 m c).2.2 i j) _ hnd m i j]
    simp only [hmem]
  · rw [foldl_step_elem_self op t _ (fun s i j => rfl) _ hnd m i j]
    simp only [hmem]
    rfl

/-- The serial kernels satisfy the kernel contract. -/
theorem compoundAssign_spec (op : α → α → α) : KernelSpec op (compoundAssign op) :=
  smpCompoundAssign_spec op id (fun _ => List.Perm.refl _)

theorem assign_spec : KernelSpec (fun (_ : α) v => v) assign :=
  compoundAssign_spec _

theorem addAssign_spec [Add α] : KernelSpec (fun (x : α) v => x + v) addAssign :=
  compoundAssign_spec _

theorem subAssign_spec [Sub α] : KernelSpec (fun (x : α) v => x - v) subAssign :=
  compoundAssign_spec _

theorem changesOnly_refl (t : Addr) (m : Memory α) : changesOnly t m m :=
  ⟨fun _ _ => rfl, rfl, rfl⟩

theorem changesOnly_trans (t : Addr) (m m1 m2 : Memory α) (h1 : changesOnly t m m1)
    (h2 : changesOnly t m1 m2) : changesOnly t m m2 :=
  ⟨fun a ha => (h2.1 a ha).trans (h1.1 a ha), h2.2.1.trans h1.2.1, h2.2.2.trans h1.2.2⟩

/-- An operand disjoint from `t` is not affected by a change of the container at `t`. -/
theorem readsSame_of_changesOnly (op : Operand α) (t : Addr) (hd : op.disjointFrom t)
    (m m' : Memory α) (h : changesOnly t m m') : op.readsSame m m' :=
  disjoint_frame op t hd m m' h.1

/-- Two kernel steps on the same target: a first operand that is disjoint from the
target or is the target itself, then a second operand disjoint from the target. -/
theorem two_step_elem (op1 op2 : α → α → α) (k1 k2 : Memory α → Addr → Operand α → Memory α)
    (h1 : KernelSpec op1 k1) (h2 : KernelSpec op2 k2) (m : Memory α) (t : Addr)
    (A B : Operand α) (hA : A.disjointFrom t ∨ ∃ tr, A = Operand.container tr t)
    (hB : B.disjointFrom t) (i j : Nat) :
    ((k2 (k1 m t A) t B) t).elem i j =
      if i < (m t).rows ∧ j < (m t).columns then
        op2 (op1 ((m t).elem i j) (A.access m i j)) (B.access m i j)
      else (m t).elem i j := by
  have hf := (h1 m t A).1
  have hB' := readsSame_of_changesOnly B t hB m (k1 m t A) hf
  rw [(h2 (k1 m t A) t B).2 (Or.inl hB) i j, hf.2.1, hf.2.2, (h1 m t A).2 hA i j, hB'.2.2 i j]
  split <;> rfl

theorem two_step_changesOnly (op1 op2 : α → α → α)
    (k1 k2 : Memory α → Addr → Operand α → Memory α)
    (h1 : KernelSpec op1 k1) (h2 : KernelSpec op2 k2) (m : Memory α) (t : Addr)
    (A B : Operand α) : changesOnly t m (k2 (k1 m t A) t B) :=
  changesOnly_trans t m _ _ (h1 m t A).1 (h2 (k1 m t A) t B).1

theorem container_disjoint (tr : TypeTraits) (a t : Addr) (h : a ≠ t) :
    (Operand.container tr a : Operand α).disjointFrom t := by
  refine ⟨?_, ?_⟩
  · simp [Operand.container, h]
  · intro m c
    simp [Operand.container, store_other m t a c h]

/-- The two shape assertions of the dense assignment pass when the target has the
shape of the expression; the branch taken is the one selected by `isSame`. -/
theorem assign_ok [Sub α] (m : Memory α) (t : Addr) (e : DMatSMatSubExpr α)
    (hrows : (m t).rows = e.rows m) (hcols : (m t).columns = e.columns m) :
    e.assign m t = .ok
      (if (!e.lhs_.traits.isExpression && isSame t e.lhs_) = true then subAssign m t e.rhs_
       else subAssign (assign m t e.lhs_) t e.rhs_) := by
  unfold DMatSMatSubExpr.assign
  simp only [hrows, hcols, beq_self_eq_true, assert_true, bind, Except.bind, pure, Except.pure]
  split <;> rfl

/-- Result of the general path: assign the left operand, then subtract the right one. -/
theorem assign_then_subAssign [Sub α] (m : Memory α) (t : Addr) (L R : Operand α)
    (hL : L.disjointFrom t) (hR : R.disjointFrom t) (i j : Nat) :
    ((subAssign (assign m t L) t R) t).elem i j =
      if i < (m t).rows ∧ j < (m t).columns then L.access m i j - R.access m i j
      else (m t).elem i j := by
  have hf := assign_frame m t L
  have hR' := disjoint_frame R t hR m (assign m t L) hf.1
  rw [subAssign_elem _ t R hR, hf.2.1, hf.2.2, assign_elem m t L hL, hR'.2.2 i j]
  split <;> rfl

theorem operatorPlusDense_ok [Add α] (m : Memory α) (L X : Operand α)
    (hr : L.rows m = X.rows m) (hc : L.columns m = X.columns m) :
    operatorPlusDense m L X = .ok (DMatDMatAddExpr L X) := by
  simp [operatorPlusDense, hr, hc]

theorem operatorMinusDense_ok [Sub α] (m : Memory α) (L X : Operand α)
    (hr : L.rows m = X.rows m) (hc : L.columns m = X.columns m) :
    operatorMinusDense m L X = .ok (DMatDMatSubExpr L X) := by
  simp [operatorMinusDense, hr, hc]

/-- Zero pattern of a difference: where both operands of a square subtraction
expression of order `n` are zero, the expression is zero. -/
theorem sub_zero_pattern [Ring α] (P : Nat → Nat → Prop) (m : Memory α) (L R : Operand α)
    (n : Nat) (hr : L.rows m = n) (hc : L.columns m = n)
    (hL : ∀ i, i < n → ∀ j, j < n → P i j → L.elements m i j = .ok 0)
    (hR : ∀ i, i < n → ∀ j, j < n → P i j → R.elements m i j = .ok 0) :
    ∀ i, i < n → ∀ j, j < n → P i j →
      (DMatSMatSubExpr.mk L R).access m i j = .ok 0 := by
  intro i hi j hj hP
  have h1 : L.access m i j = 0 := by
    have := hL i hi j hj hP
    simpa [Operand.elements] using this
  have h2 : R.access m i j = 0 := by
    have := hR i hi j hj hP
    simpa [Operand.elements] using this
  rw [access_ok _ m i j (by rw [hr]; exact hi) (by rw [hc]; exact hj)]
  simp [h1, h2]

/-- Diagonal of a difference: a unit diagonal minus a zero diagonal is a unit diagonal. -/
theorem sub_unit_diagonal [Ring α] (m : Memory α) (L R : Operand α)
    (n : Nat) (hr : L.rows m = n) (hc : L.columns m = n)
    (hL : ∀ i, i < n → L.elements m i i = .ok 1)
    (hR : ∀ i, i < n → R.elements m i i = .ok 0) :
    ∀ i, i < n → (DMatSMatSubExpr.mk L R).access m i i = .ok 1 := by
  intro i hi
  have h1 : L.access m i i = 1 := by
    have := hL i hi
    simpa [Operand.elements] using this
  have h2 : R.access m i i = 0 := by
    have := hR i hi
    simpa [Operand.elements] using this
  rw [access_ok _ m i i (by rw [hr]; exact hi) (by rw [hc]; exact hi)]
  simp [h1, h2]

theorem sampleL_isStrictlyLower : isStrictlyLower 3 (sampleL.elements sampleMemory) := by
  intro i hi j hj hij
  interval_cases i <;> interval_cases j <;> rfl

theorem sampleR_isStrictlyLower : isStrictlyLower 3 (sampleR.elements sampleMemory) := by
  intro i hi j hj hij
  interval_cases i <;> interval_cases j <;> rfl

theorem sampleUni_isUniLower : isUniLower 3 (sampleUni.elements sampleMemory) := by
  refine ⟨?_, ?_⟩
  · intro i hi j hj hij
    interval_cases i <;> interval_cases j <;> rfl
  · intro i hi
    interval_cases i <;> rfl

theorem sampleSymL_isSymmetric : isSymmetric 3 (sampleSymL.elements sampleMemory) := by
  intro i hi j hj
  refine ⟨_, rfl, ?_⟩
  interval_cases i <;> interval_cases j <;> rfl

theorem sampleSymR_isSymmetric : isSymmetric 3 (sampleSymR.elements sampleMemory) := by
  intro i hi j hj
  refine ⟨_, rfl, ?_⟩
  interval_cases i <;> interval_cases j <;> rfl

theorem asserts_inv {β : Type} (c1 c2 : Bool) (msg1 msg2 : String) (body : Except Exception β)
    (r : β)
    (h : (do BLAZE_INTERNAL_ASSERT c1 msg1; BLAZE_INTERNAL_ASSERT c2 msg2; body) = .ok r) :
    c1 = true ∧ c2 = true ∧ body = .ok r := by
  cases c1 <;> cases c2 <;> first | exact ⟨rfl, rfl, h⟩ | cases h

theorem asserts_ok {β : Type} (c1 c2 : Bool) (msg1 msg2 : String) (body : Except Exception β)
    (h1 : c1 = true) (h2 : c2 = true) :
    (do BLAZE_INTERNAL_ASSERT c1 msg1; BLAZE_INTERNAL_ASSERT c2 msg2; body) = body := by
  subst h1; subst h2; rfl

theorem assign_inv [Sub α] (m m' : Memory α) (t : Addr) (e : DMatSMatSubExpr α)
    (h : e.assign m t = .ok m') :
    m' = subAssign m t e.rhs_ ∨ m' = subAssign (assign m t e.lhs_) t e.rhs_ := by
  obtain ⟨-, -, hb⟩ := asserts_inv _ _ _ _ _ _ h
  split at hb
  · cases hb; exact Or.inl rfl
  · cases hb; exact Or.inr rfl

theorem addAssign_inv [Add α] [Sub α] (m m' : Memory α) (t : Addr) (e : DMatSMatSubExpr α)
    (h : e.addAssign m t = .ok m') :
    m' = subAssign (addAssign m t e.lhs_) t e.rhs_ := by
  obtain ⟨-, -, hb⟩ := asserts_inv _ _ _ _ _ _ h
  cases hb
  rfl

theorem subAssign_inv [Add α] [Sub α] (m m' : Memory α) (t : Addr) (e : DMatSMatSubExpr α)
    (h : e.subAssign m t = .ok m') :
    m' = addAssign (subAssign m t e.lhs_) t e.rhs_ := by
  obtain ⟨-, -, hb⟩ := asserts_inv _ _ _ _ _ _ h
  cases hb
  rfl

theorem smpAssign_inv (K : SmpKernels α) (m m' : Memory α) (t : Addr) (e : DMatSMatSubExpr α)
    (h : e.smpAssign K m t = .ok m') :
    m' = K.smpSubAssign m t e.rhs_ ∨ m' = K.smpSubAssign (K.smpAssign m t e.lhs_) t e.rhs_ := by
  obtain ⟨-, -, hb⟩ := asserts_inv _ _ _ _ _ _ h
  split at hb
  · cases hb; exact Or.inl rfl
  · cases hb; exact Or.inr rfl

theorem smpAddAssign_inv (K : SmpKernels α) (m m' : Memory α) (t : Addr)
    (e : DMatSMatSubExpr α) (h : e.smpAddAssign K m t = .ok m') :
    m' = K.smpSubAssign (K.smpAddAssign m t e.lhs_) t e.rhs_ := by
  obtain ⟨-, -, hb⟩ := asserts_inv _ _ _ _ _ _ h
  cases hb
  rfl

theorem smpSubAssign_inv (K : SmpKernels α) (m m' : Memory α) (t : Addr)
    (e : DMatSMatSubExpr α) (h : e.smpSubAssign K m t = .ok m') :
    m' = K.smpAddAssign (K.smpSubAssign m t e.lhs_) t e.rhs_ := by
  obtain ⟨-, -, hb⟩ := asserts_inv _ _ _ _ _ _ h
  cases hb
  rfl

theorem addAssign_ok [Add α] [Sub α] (m : Memory α) (t : Addr) (e : DMatSMatSubExpr α)
    (hrows : (m t).rows = e.rows m) (hcols : (m t).columns = e.columns m) :
    e.addAssign m t = .ok (subAssign (addAssign m t e.lhs_) t e.rhs_) :=
  asserts_ok _ _ _ _ _ (by rw [hrows]; exact beq_self_eq_true _)
    (by rw [hcols]; exact beq_self_eq_true _)

theorem subAssign_ok [Add α] [Sub α] (m : Memory α) (t : Addr) (e : DMatSMatSubExpr α)
    (hrows : (m t).rows = e.rows m) (hcols : (m t).columns = e.columns m) :
    e.subAssign m t = .ok (addAssign (subAssign m t e.lhs_) t e.rhs_) :=
  asserts_ok _ _ _ _ _ (by rw [hrows]; exact beq_self_eq_true _)
    (by rw [hcols]; exact beq_self_eq_true _)

theorem onlyTargetChanged_of_changesOnly (t : Addr) (m m' : Memory α)
    (h : changesOnly t m m') : onlyTargetChanged t m m' :=
  ⟨h, fun op hd => readsSame_of_changesOnly op t hd m m' h⟩

theorem scheduled_changesOnly [Add α] [Sub α] (sched : List (Nat × Nat) → List (Nat × Nat))
    (m : Memory α) (t : Addr) (rhs : Operand α) :
    changesOnly t m ((scheduledKernels sched).smpAssign m t rhs) ∧
      changesOnly t m ((scheduledKernels sched).smpAddAssign m t rhs) ∧
      changesOnly t m ((scheduledKernels sched).smpSubAssign m t rhs) :=
  ⟨foldl_step_frame (fun _ v => v) t rhs (sched (m t).cells) m,
    foldl_step_frame (fun x v => x + v) t rhs (sched (m t).cells) m,
    foldl_step_frame (fun x v => x - v) t rhs (sched (m t).cells) m⟩

theorem smpAssign_ok (K : SmpKernels α) (m : Memory α) (t : Addr) (e : DMatSMatSubExpr α)
    (hrows : (m t).rows = e.rows m) (hcols : (m t).columns = e.columns m) :
    e.smpAssign K m t = .ok
      (if (!e.lhs_.traits.isExpression && isSame t e.lhs_) = true then K.smpSubAssign m t e.rhs_
       else K.smpSubAssign (K.smpAssign m t e.lhs_) t e.rhs_) := by
  unfold DMatSMatSubExpr.smpAssign
  simp only [hrows, hcols, beq_self_eq_true, assert_true, bind, Except.bind, pure, Except.pure]
  split <;> rfl

theorem isSame_of_disjoint (op : Operand α) (t : Addr) (h : op.disjointFrom t) :
    isSame t op = false := by
  simp only [isSame, beq_eq_false_iff_ne]
  exact h.1

/-- Evaluation of `L - R` into a fresh container `c0` at address `tmp` by an
assignment step followed by a subtraction assignment step. -/
theorem tmp_eval [Sub α] (k1 k2 : Memory α → Addr → Operand α → Memory α)
    (h1 : KernelSpec (fun _ v => v) k1) (h2 : KernelSpec (fun x v => x - v) k2)
    (m : Memory α) (tmp : Addr) (L R : Operand α)
    (hL : L.disjointFrom tmp) (hR : R.disjointFrom tmp) (c0 : Container α) :
    changesOnly tmp (m.store tmp c0) (k2 (k1 (m.store tmp c0) tmp L) tmp R) ∧
      ∀ i j, ((k2 (k1 (m.store tmp c0) tmp L) tmp R) tmp).elem i j =
        if i < c0.rows ∧ j < c0.columns then L.access m i j - R.access m i j
        else c0.elem i j := by
  refine ⟨two_step_changesOnly _ _ k1 k2 h1 h2 _ tmp L R, ?_⟩
  intro i j
  rw [two_step_elem _ _ k1 k2 h1 h2 (m.store tmp c0) tmp L R (Or.inl hL) hR i j,
    store_same, (hL.2 m c0).2.2 i j, (hR.2 m c0).2.2 i j]

/-- Copying a temporary at address `tmp` into the target at address `t`. -/
theorem copy_from_tmp (k3 : Memory α → Addr → Operand α → Memory α)
    (h3 : KernelSpec (fun _ v => v) k3) (m m1 : Memory α) (t tmp : Addr) (tr : TypeTraits)
    (c0 : Container α) (htmp : tmp ≠ t) (hch : changesOnly tmp (m.store tmp c0) m1)
    (hc0r : c0.rows = (m t).rows) (hc0c : c0.columns = (m t).columns) (f : Nat → Nat → α)
    (hel : ∀ i j, (m1 tmp).elem i j =
      if i < c0.rows ∧ j < c0.columns then f i j else c0.elem i j) :
    ∀ i j, i < (m t).rows → j < (m t).columns →
      ((k3 m1 t (Operand.container tr tmp)) t).elem i j = f i j := by
  intro i j hi hj
  have hne : t ≠ tmp := fun h => htmp h.symm
  have hm1t : m1 t = m t := by rw [hch.1 t hne, store_other m tmp t c0 hne]
  rw [(h3 m1 t _).2 (Or.inl (container_disjoint tr tmp t htmp)) i j, hm1t, if_pos ⟨hi, hj⟩,
    container_access, hel i j, hc0r, hc0c, if_pos ⟨hi, hj⟩]

/-- The sparse assignment runs its two steps once the shape assertions pass. -/
theorem assignSparse_ok [Sub α] (SO SO2 : Bool) (m m1 : Memory α) (t tmp : Addr)
    (e : DMatSMatSubExpr α)
    (hrows : (m t).rows = e.rows m) (hcols : (m t).columns = e.columns m)
    (h1 : constructTemporary DMatSMatSubExpr.assign m tmp e = .ok m1) :
    e.assignSparse SO SO2 m t tmp = .ok (assign m1 t
      (Operand.container { storageOrder := (TmpType SO SO2).storageOrder SO } tmp)) := by
  unfold DMatSMatSubExpr.assignSparse
  rw [asserts_ok _ _ _ _ _ (by rw [hrows]; exact beq_self_eq_true _)
    (by rw [hcols]; exact beq_self_eq_true _), h1]
  rfl

theorem smpAssignSparse_ok [Sub α] (K : SmpKernels α) (exprSpecific : Bool) (SO SO2 : Bool)
    (m m1 : Memory α) (t tmp : Addr) (e : DMatSMatSubExpr α)
    (hrows : (m t).rows = e.rows m) (hcols : (m t).columns = e.columns m)
    (h1 : constructTemporary
      (if exprSpecific then DMatSMatSubExpr.smpAssign K else DMatSMatSubExpr.assign) m tmp e =
        .ok m1) :
    e.smpAssignSparse K exprSpecific SO SO2 m t tmp = .ok (K.smpAssign m1 t
      (Operand.container { storageOrder := (TmpType SO SO2).storageOrder SO } tmp)) := by
  unfold DMatSMatSubExpr.smpAssignSparse
  rw [asserts_ok _ _ _ _ _ (by rw [hrows]; exact beq_self_eq_true _)
    (by rw [hcols]; exact beq_self_eq_true _), h1]
  rfl

/-- Construction of the temporary through the serial assignment. -/
theorem construct_serial [Sub α] (m : Memory α) (tmp : Addr) (L R : Operand α)
    (hL : L.disjointFrom tmp) :
    constructTemporary DMatSMatSubExpr.assign m tmp { lhs_ := L, rhs_ := R } =
      .ok (subAssign (assign (m.store tmp
        { rows := L.rows m, columns := L.columns m, elem := (m tmp).elem }) tmp L) tmp R) := by
  unfold constructTemporary
  rw [assign_ok _ tmp { lhs_ := L, rhs_ := R }
    (by rw [store_same]; exact ((hL.2 m _).1).symm)
    (by rw [store_same]; exact ((hL.2 m _).2.1).symm)]
  simp only [isSame_of_disjoint L tmp hL, Bool.and_false]
  rfl

/-- Construction of the temporary through the expression specific SMP assignment. -/
theorem construct_smp (K : SmpKernels α) (m : Memory α) (tmp : Addr) (L R : Operand α)
    (hL : L.disjointFrom tmp) :
    constructTemporary (DMatSMatSubExpr.smpAssign K) m tmp { lhs_ := L, rhs_ := R } =
      .ok (K.smpSubAssign (K.smpAssign (m.store tmp
        { rows := L.rows m, columns := L.columns m, elem := (m tmp).elem }) tmp L) tmp R) := by
  unfold constructTemporary
  rw [smpAssign_ok K _ tmp { lhs_ := L, rhs_ := R }
    (by rw [store_same]; exact ((hL.2 m _).1).symm)
    (by rw [store_same]; exact ((hL.2 m _).2.1).symm)]
  simp only [isSame_of_disjoint L tmp hL, Bool.and_false]
  rfl

theorem tmpType_storageOrder (SO SO2 : Bool) : (TmpType SO SO2).storageOrder SO = SO2 := by
  cases SO <;> cases SO2 <;> rfl

theorem inTriangle_swap (uplo : Char) (h : uplo = 'L' ∨ uplo = 'U') (n i j : Nat) :
    inTriangle (if uplo = 'L' then 'U' else 'L') n i j ↔ inTriangle uplo n j i := by
  rcases h with rfl | rfl
  · simp only [inTriangle, ↓reduceIte]
    constructor
    · rintro ⟨h1, h2, h3⟩
      exact ⟨h2, h1, by simpa using h3⟩
    · rintro ⟨h1, h2, h3⟩
      exact ⟨h2, h1, by simpa using h3⟩
  · have hne : ¬ ('U' = 'L') := by decide
    simp only [inTriangle, hne, ↓reduceIte]
    constructor
    · rintro ⟨h1, h2, h3⟩
      exact ⟨h2, h1, h3⟩
    · rintro ⟨h1, h2, h3⟩
      exact ⟨h2, h1, h3⟩

theorem heev_not_square {CT BT : Type} (kernel : Kernel CT BT) (s : HeevState CT BT)
    (jobz uplo : Char) (h : s.A.rows ≠ s.A.columns) :
    heev kernel s jobz uplo =
      { exception := some (.invalid_argument "Invalid non-square matrix provided"),
        state := s } := by
  simp [heev, isSquare, h]

theorem heev_bad_jobz {CT BT : Type} (kernel : Kernel CT BT) (s : HeevState CT BT)
    (jobz uplo : Char) (hsq : s.A.rows = s.A.columns) (h : jobz ≠ 'V' ∧ jobz ≠ 'N') :
    heev kernel s jobz uplo =
      { exception := some (.invalid_argument "Invalid jobz argument provided"),
        state := s } := by
  simp [heev, isSquare, hsq, h]

theorem heev_bad_uplo {CT BT : Type} (kernel : Kernel CT BT) (s : HeevState CT BT)
    (jobz uplo : Char) (hsq : s.A.rows = s.A.columns) (hjobz : ¬ (jobz ≠ 'V' ∧ jobz ≠ 'N'))
    (h : uplo ≠ 'L' ∧ uplo ≠ 'U') :
    heev kernel s jobz uplo =
      { exception := some (.invalid_argument "Invalid uplo argument provided"),
        state := s } := by
  unfold heev
  rw [if_neg (by simp [isSquare, hsq]), if_neg hjobz, if_pos h]

/-- Outcome of `heev` for every argument rejected by one of the three checks. -/
theorem heev_rejected {CT BT : Type} (kernel : Kernel CT BT) (s : HeevState CT BT)
    (jobz uplo : Char)
    (h : s.A.rows ≠ s.A.columns ∨ (jobz ≠ 'V' ∧ jobz ≠ 'N') ∨ (uplo ≠ 'L' ∧ uplo ≠ 'U')) :
    (∃ msg, (heev kernel s jobz uplo).exception = some (.invalid_argument msg)) ∧
      (heev kernel s jobz uplo).state = s := by
  by_cases hsq : s.A.rows = s.A.columns
  · by_cases hj : jobz ≠ 'V' ∧ jobz ≠ 'N'
    · rw [heev_bad_jobz kernel s jobz uplo hsq hj]
      exact ⟨⟨_, rfl⟩, rfl⟩
    · have hu : uplo ≠ 'L' ∧ uplo ≠ 'U' := by
        rcases h with h | h | h
        · exact absurd hsq h
        · exact absurd h hj
        · exact h
      rw [heev_bad_uplo kernel s jobz uplo hsq hj hu]
      exact ⟨⟨_, rfl⟩, rfl⟩
  · rw [heev_not_square kernel s jobz uplo hsq]
    exact ⟨⟨_, rfl⟩, rfl⟩

theorem heev_resize_fails {CT BT : Type} (kernel : Kernel CT BT) (s : HeevState CT BT)
    (jobz uplo : Char) (hsq : s.A.rows = s.A.columns) (hjobz : jobz = 'V' ∨ jobz = 'N')
    (huplo : uplo = 'L' ∨ uplo = 'U') (hfix : s.w.resizable = false)
    (hsize : s.w.size ≠ s.A.rows) :
    heev kernel s jobz uplo =
      { exception := some (.invalid_argument "Vector cannot be resized"), state := s } := by
  have hj : ¬ (jobz ≠ 'V' ∧ jobz ≠ 'N') := by rcases hjobz with rfl | rfl <;> simp
  have hu : ¬ (uplo ≠ 'L' ∧ uplo ≠ 'U') := by rcases huplo with rfl | rfl <;> simp
  unfold heev
  rw [if_neg (by simp [isSquare, hsq]), if_neg hj, if_neg hu]
  simp [resize, hfix, hsize]

/-- Outcome of `heev` for valid arguments of order at least 1. -/
theorem heev_valid {CT BT : Type} (kernel : Kernel CT BT) (s : HeevState CT BT)
    (jobz uplo : Char) (hsq : s.A.rows = s.A.columns) (hn1 : 1 ≤ s.A.rows)
    (hjobz : jobz = 'V' ∨ jobz = 'N') (huplo : uplo = 'L' ∨ uplo = 'U')
    (hw : s.w.resizable = true ∨ s.w.size = s.A.rows)
    (hn : s.A.rows ≤ 2147483647) (hlda : s.A.spacing ≤ 2147483647) :
    heev kernel s jobz uplo =
      if (kernel (heevKernelCall s.A jobz uplo) s.A.data s.w.data).info < 0 then
        { exception := some (.assertion "Invalid argument for eigenvalue computation"),
          state := heevFinalState kernel s jobz uplo }
      else if (kernel (heevKernelCall s.A jobz uplo) s.A.data s.w.data).info > 0 then
        { exception := some (.runtime_error "Eigenvalue computation failed"),
          state := heevFinalState kernel s jobz uplo }
      else
        { exception := none, state := heevFinalState kernel s jobz uplo } := by
  have hj : ¬ (jobz ≠ 'V' ∧ jobz ≠ 'N') := by rcases hjobz with rfl | rfl <;> simp
  have hu : ¬ (uplo ≠ 'L' ∧ uplo ≠ 'U') := by rcases huplo with rfl | rfl <;> simp
  have hn0 : ¬ ((s.A.rows : Int) = 0) := by omega
  have hres : resize s.w s.A.rows = .ok { s.w with size := s.A.rows } := by
    rcases hw with hw | hw
    · simp [resize, hw]
    · by_cases hr : s.w.resizable = true
      · simp [resize, hr]
      · have hr' : s.w.resizable = false := by simpa using hr
        have heq : ({ s.w with size := s.A.rows } : HeevVector BT) = s.w := by
          rw [← hw]
        rw [heq]
        simp [resize, hr', hw]
  unfold heev
  rw [if_neg (by simp [isSquare, hsq]), if_neg hj, if_neg hu]
  simp only [hres, numeric_cast, hn, hlda, ↓reduceIte, hn0]
  rfl

theorem operatorPlusDense_error [Add α] (m : Memory α) (L X : Operand α)
    (h : L.rows m ≠ X.rows m ∨ L.columns m ≠ X.columns m) :
    operatorPlusDense m L X = .error (.invalid_argument "Matrix sizes do not match") := by
  simp [operatorPlusDense, h]

theorem operatorMinusDense_error [Sub α] (m : Memory α) (L X : Operand α)
    (h : L.rows m ≠ X.rows m ∨ L.columns m ≠ X.columns m) :
    operatorMinusDense m L X = .error (.invalid_argument "Matrix sizes do not match") := by
  simp [operatorMinusDense, h]

theorem wrapInt32_of_range (x : Int) (h0 : -2147483648 ≤ x) (h1 : x ≤ 2147483647) :
    wrapInt32 x = x := by
  unfold wrapInt32
  omega

/-- Outcome of `heev` for valid arguments of order 0. -/
theorem heev_zero {CT BT : Type} (kernel : Kernel CT BT) (s : HeevState CT BT)
    (jobz uplo : Char) (hsq : s.A.rows = s.A.columns) (hn0 : s.A.rows = 0)
    (hjobz : jobz = 'V' ∨ jobz = 'N') (huplo : uplo = 'L' ∨ uplo = 'U')
    (hw : s.w.resizable = true ∨ s.w.size = s.A.rows) (hlda : s.A.spacing ≤ 2147483647) :
    heev kernel s jobz uplo =
      { exception := none,
        state := { s with w := { s.w with size := 0 }, trace := s.trace ++ [.resize 0] } } := by
  have hj : ¬ (jobz ≠ 'V' ∧ jobz ≠ 'N') := by rcases hjobz with rfl | rfl <;> simp
  have hu : ¬ (uplo ≠ 'L' ∧ uplo ≠ 'U') := by rcases huplo with rfl | rfl <;> simp
  have hres : resize s.w s.A.rows = .ok { s.w with size := s.A.rows } := by
    rcases hw with hw | hw
    · simp [resize, hw]
    · by_cases hr : s.w.resizable = true
      · simp [resize, hr]
      · have hr' : s.w.resizable = false := by simpa using hr
        have heq : ({ s.w with size := s.A.rows } : HeevVector BT) = s.w := by
          rw [← hw]
        rw [heq]
        simp [resize, hr', hw]
  have hn : s.A.rows ≤ 2147483647 := by omega
  have hz : ((s.A.rows : Nat) : Int) = 0 := by omega
  unfold heev
  rw [if_neg (by simp [isSquare, hsq]), if_neg hj, if_neg hu]
  simp only [hres, numeric_cast, hn, hlda, ↓reduceIte, hz]
  rw [hn0]

theorem memory_ext (m1 m2 : Memory α) (h : ∀ a, m1 a = m2 a) : m1 = m2 := by
  cases m1 with
  | mk f =>
    cases m2 with
    | mk g =>
      simp only [Memory.mk.injEq]
      funext a
      exact h a

/-- Two memories obtained from `m` by changing only the container at `t` are
equal as soon as they hold the same container at `t`. -/
theorem eq_of_changesOnly (t : Addr) (m m1 m2 : Memory α) (h1 : changesOnly t m m1)
    (h2 : changesOnly t m m2) (ht : m1 t = m2 t) : m1 = m2 := by
  apply memory_ext
  intro a
  by_cases ha : a = t
  · rw [ha]; exact ht
  · rw [h1.1 a ha, h2.1 a ha]

/-- Two kernels with the same contract compute the same memory for an operand
that is disjoint from the target or is the target itself. -/
theorem kernelSpec_unique (op : α → α → α) (k1 k2 : Memory α → Addr → Operand α → Memory α)
    (h1 : KernelSpec op k1) (h2 : KernelSpec op k2) (m : Memory α) (t : Addr) (rhs : Operand α)
    (hr : rhs.disjointFrom t ∨ ∃ tr, rhs = Operand.container tr t) :
    k1 m t rhs = k2 m t rhs := by
  apply eq_of_changesOnly t m _ _ (h1 m t rhs).1 (h2 m t rhs).1
  have e1 := (h1 m t rhs).2 hr
  have e2 := (h2 m t rhs).2 hr
  have r1 := (h1 m t rhs).1.2
  have r2 := (h2 m t rhs).1.2
  cases hc1 : (k1 m t rhs) t with
  | mk rows1 cols1 el1 =>
    cases hc2 : (k2 m t rhs) t with
    | mk rows2 cols2 el2 =>
      rw [hc1] at e1 r1
      rw [hc2] at e2 r2
      simp only [Container.mk.injEq]
      refine ⟨r1.1.trans r2.1.symm, r1.2.trans r2.2.symm, ?_⟩
      funext i j
      exact (e1 i j).trans (e2 i j).symm

theorem sameTarget_eq [Add α] [Sub α] (K : SmpKernels α) (hK : K.sameTargetAsSerial)
    (m : Memory α) (t : Addr) (op : Operand α) :
    K.smpAssign m t op = assign m t op ∧ K.smpAddAssign m t op = addAssign m t op ∧
      K.smpSubAssign m t op = subAssign m t op := by
  obtain ⟨⟨a1, a2⟩, ⟨b1, b2⟩, ⟨c1, c2⟩⟩ := hK m t op
  exact ⟨eq_of_changesOnly t m _ _ a1 (assign_spec m t op).1 a2,
    eq_of_changesOnly t m _ _ b1 (addAssign_spec m t op).1 b2,
    eq_of_changesOnly t m _ _ c1 (subAssign_spec m t op).1 c2⟩

theorem smp_serialKernels [Add α] [Sub α] (m : Memory α) (t : Addr) (e : DMatSMatSubExpr α) :
    e.smpAssign serialKernels m t = e.assign m t ∧
      e.smpAddAssign serialKernels m t = e.addAssign m t ∧
      e.smpSubAssign serialKernels m t = e.subAssign m t :=
  ⟨rfl, rfl, rfl⟩

theorem sameTarget_eq_serial [Add α] [Sub α] (K : SmpKernels α) (hK : K.sameTargetAsSerial) :
    K = serialKernels := by
  cases K with
  | mk k1 k2 k3 =>
    simp only [serialKernels, SmpKernels.mk.injEq]
    refine ⟨?_, ?_, ?_⟩
    · funext m t op; exact (sameTarget_eq _ hK m t op).1
    · funext m t op; exact (sameTarget_eq _ hK m t op).2.1
    · funext m t op; exact (sameTarget_eq _ hK m t op).2.2

theorem decay_unqualified (T : CxxType) :
    IsConst (Decay_ T) = false ∧ IsVolatile (Decay_ T) = false ∧
      IsReference (Decay_ T) = false := by
  simp [IsConst, IsVolatile, IsReference, Decay_]

theorem declSymTrait_unqualified (depth : Nat) (U : CxxType)
    (h : (IsConst U || IsVolatile U || IsReference U) = false) :
    DeclSymTrait (depth + 1) U =
      some (if IsMatrix U then .valid { MT := U } else .INVALID_TYPE) := by
  rw [DeclSymTrait]
  simp only [h, Bool.false_eq_true, ↓reduceIte]
  split <;> rfl

theorem decay_of_unqualified (U : CxxType)
    (h : (IsConst U || IsVolatile U || IsReference U) = false) : Decay_ U = U := by
  obtain ⟨b, c, v, r⟩ := U
  cases r <;> cases c <;> cases v <;> simp_all [IsConst, IsVolatile, IsReference, Decay_]

theorem declSymTrait_decay (depth : Nat) (MT : CxxType) :
    DeclSymTrait (depth + 2) MT =
      some (if IsMatrix (Decay_ MT) then .valid { MT := Decay_ MT } else .INVALID_TYPE) := by
  have hd : (IsConst (Decay_ MT) || IsVolatile (Decay_ MT) || IsReference (Decay_ MT)) = false := by
    simp [decay_unqualified MT]
  by_cases h : (IsConst MT || IsVolatile MT || IsReference MT) = true
  · rw [DeclSymTrait]
    simp only [h, ↓reduceIte]
    exact declSymTrait_unqualified depth (Decay_ MT) hd
  · have h' : (IsConst MT || IsVolatile MT || IsReference MT) = false := by simpa using h
    rw [declSymTrait_unqualified (depth + 1) MT h', decay_of_unqualified MT h']

theorem Container.isStrictlyLower_iff {α : Type} [Zero α] [DecidableEq α] (M : Container α) :
    M.isStrictlyLower = true ↔
      M.rows = M.columns ∧
        ∀ i, i < M.rows → ∀ j, j < M.columns → i ≤ j → M.elem i j = 0 := by
  simp [Container.isStrictlyLower]

theorem StrictlyLowerMatrix.restricted_ok_iff {α : Type} [Zero α] [DecidableEq α]
    (M : Container α) (what : String) :
    (∃ r, StrictlyLowerMatrix.restricted M what = .ok r) ↔ M.isStrictlyLower = true := by
  unfold StrictlyLowerMatrix.restricted
  by_cases h : M.isStrictlyLower = true
  · simp [h]
  · simp [h]

theorem StrictlyLowerMatrix.restricted_inv {α : Type} [Zero α] [DecidableEq α]
    (M : Container α) (what : String) (r : StrictlyLowerMatrix α)
    (h : StrictlyLowerMatrix.restricted M what = .ok r) :
    r.matrix_ = M ∧ M.isStrictlyLower = true := by
  unfold StrictlyLowerMatrix.restricted at h
  by_cases hs : M.isStrictlyLower = true
  · rw [if_pos hs] at h
    cases h
    exact ⟨rfl, hs⟩
  · rw [if_neg hs] at h
    cases h

theorem StrictlyLowerMatrix.restricted_error {α : Type} [Zero α] [DecidableEq α]
    (M : Container α) (what : String) (h : ¬ M.isStrictlyLower = true) :
    StrictlyLowerMatrix.restricted M what = .error (.invalid_argument what) := by
  unfold StrictlyLowerMatrix.restricted
  rw [if_neg h]

end Lemmas

/-! ## Properties of the subtraction expression, of `heev` and of the traits -/

section Claims

variable {α : Type}

/-- C1: for a dense `L` and a sparse `R` of equal shape (the subtraction
operator builds the expression `e`) and every index pair with `i < rows` and
`j < columns`, element access on the expression returns `L(i,j) - R(i,j)`.
Nothing is cached: in every later memory state the access returns the
difference of the then current operand elements. -/
theorem access_eq_difference [Sub α] (m : Memory α) (L R : Operand α) (e : DMatSMatSubExpr α)
    (he : operatorMinus m L R = .ok e) (i j : Nat) (hi : i < e.rows m) (hj : j < e.columns m) :
    e.access m i j = .ok (L.access m i j - R.access m i j) ∧
      ∀ m' : Memory α, i < e.rows m' → j < e.columns m' →
        e.access m' i j = .ok (L.access m' i j - R.access m' i j) := by
  obtain ⟨rfl, -, -⟩ := operatorMinus_inv m L R e he
  exact ⟨access_ok _ m i j hi hj, fun m' hi' hj' => access_ok _ m' i j hi' hj'⟩

/-- Witness of C1: element (1,0) of the 3x3 sample expression is `-4 - 2`. -/
theorem access_eq_difference_witness :
    operatorMinus sampleMemory sampleL sampleR = .ok sampleSub ∧
      sampleSub.access sampleMemory 1 0 = .ok (-4 - 2) :=
  ⟨rfl, (access_eq_difference sampleMemory sampleL sampleR sampleSub rfl 1 0
    (by decide) (by decide)).1⟩

/-- C2: the subtraction operator `L - R` fails with the invalid-argument error
exactly when the rows or the columns of the operands differ; it then yields no
expression object, and its outcome depends on the shapes only (no element is
read). Otherwise it returns the expression over exactly `L` and `R`, whose
`rows()` and `columns()` equal those of both operands. -/
theorem operatorMinus_spec (m : Memory α) (L R : Operand α) :
    ((L.rows m ≠ R.rows m ∨ L.columns m ≠ R.columns m) ↔
        operatorMinus m L R = .error (.invalid_argument "Matrix sizes do not match")) ∧
      ((L.rows m ≠ R.rows m ∨ L.columns m ≠ R.columns m) ↔
        ∀ e, operatorMinus m L R ≠ .ok e) ∧
      (¬ (L.rows m ≠ R.rows m ∨ L.columns m ≠ R.columns m) →
        ∃ e, operatorMinus m L R = .ok e ∧ e.leftOperand = L ∧ e.rightOperand = R ∧
          e.rows m = L.rows m ∧ e.rows m = R.rows m ∧
          e.columns m = L.columns m ∧ e.columns m = R.columns m) ∧
      (∀ m' : Memory α, L.rows m' = L.rows m → L.columns m' = L.columns m →
        R.rows m' = R.rows m → R.columns m' = R.columns m →
        operatorMinus m' L R = operatorMinus m L R) := by
  refine ⟨⟨operatorMinus_error m L R, ?_⟩, ⟨?_, ?_⟩, ?_, ?_⟩
  · intro h
    by_contra hn
    push_neg at hn
    rw [operatorMinus_ok m L R hn.1 hn.2] at h
    cases h
  · intro h e he
    rw [operatorMinus_error m L R h] at he
    cases he
  · intro h
    by_contra hn
    push_neg at hn
    exact h _ (operatorMinus_ok m L R hn.1 hn.2)
  · intro h
    push_neg at h
    exact ⟨_, operatorMinus_ok m L R h.1 h.2, rfl, rfl, rfl, h.1, rfl, h.2⟩
  · intro m' h1 h2 h3 h4
    by_cases h : L.rows m ≠ R.rows m ∨ L.columns m ≠ R.columns m
    · rw [operatorMinus_error m L R h, operatorMinus_error m' L R (by rw [h1, h2, h3, h4]; exact h)]
    · push_neg at h
      rw [operatorMinus_ok m L R h.1 h.2,
        operatorMinus_ok m' L R (by rw [h1, h3]; exact h.1) (by rw [h2, h4]; exact h.2)]

/-- Witness of C2: a 3x3 minus a 2x2 operand raises the invalid-argument error. -/
theorem operatorMinus_spec_witness :
    operatorMinus sampleMemory sampleL sampleSmall =
      .error (.invalid_argument "Matrix sizes do not match") :=
  (operatorMinus_spec sampleMemory sampleL sampleSmall).1.mp (Or.inl (by decide))

/-- C3: for a dense target `T` (at address `t`) of the shape of `Sub(L,R)`
whose storage is disjoint from both operands, the serial dense assignment
succeeds, keeps the shape of `T` and leaves `T(i,j) = L(i,j) - R(i,j)` for
every `(i,j)`; the result is the same whatever `T` contained before. -/
theorem assign_disjoint [Sub α] (m : Memory α) (t : Addr) (L R : Operand α)
    (e : DMatSMatSubExpr α) (he : operatorMinus m L R = .ok e)
    (hrows : (m t).rows = e.rows m) (hcols : (m t).columns = e.columns m)
    (hL : L.disjointFrom t) (hR : R.disjointFrom t) :
    (∃ m', e.assign m t = .ok m' ∧
        (m' t).rows = (m t).rows ∧ (m' t).columns = (m t).columns ∧
        ∀ i j, i < (m t).rows → j < (m t).columns →
          (m' t).elem i j = L.access m i j - R.access m i j) ∧
      (∀ c : Container α, c.rows = (m t).rows → c.columns = (m t).columns →
        ∃ m', e.assign (m.store t c) t = .ok m' ∧
          ∀ i j, i < (m t).rows → j < (m t).columns →
            (m' t).elem i j = L.access m i j - R.access m i j) := by
  obtain ⟨rfl, -, -⟩ := operatorMinus_inv m L R e he
  have hsame : (!L.traits.isExpression && isSame t L) = false := by
    have : isSame t L = false := by
      simp only [isSame, beq_eq_false_iff_ne]
      exact hL.1
    simp [this]
  have key : ∀ m0 : Memory α, (m0 t).rows = L.rows m0 → (m0 t).columns = L.columns m0 →
      ∃ m', DMatSMatSubExpr.assign m0 t { lhs_ := L, rhs_ := R } = .ok m' ∧
        (m' t).rows = (m0 t).rows ∧ (m' t).columns = (m0 t).columns ∧
        ∀ i j, i < (m0 t).rows → j < (m0 t).columns →
          (m' t).elem i j = L.access m0 i j - R.access m0 i j := by
    intro m0 h1 h2
    refine ⟨_, assign_ok m0 t _ h1 h2, ?_, ?_, ?_⟩
    · simp only [hsame]
      exact ((compoundAssign_frame _ _ t R).2.1).trans (compoundAssign_frame _ _ t L).2.1
    · simp only [hsame]
      exact ((compoundAssign_frame _ _ t R).2.2).trans (compoundAssign_frame _ _ t L).2.2
    · intro i j hi hj
      simp only [hsame]
      rw [if_neg (by simp), assign_then_subAssign m0 t L R hL hR i j, if_pos ⟨hi, hj⟩]
  refine ⟨key m hrows hcols, ?_⟩
  intro c hcr hcc
  have hLs := hL.2 m c
  have hRs := hR.2 m c
  have hst : (m.store t c) t = c := store_same m t c
  obtain ⟨m', h1, -, -, h4⟩ := key (m.store t c)
    (by rw [hst, hcr, hLs.1]; exact hrows) (by rw [hst, hcc, hLs.2.1]; exact hcols)
  refine ⟨m', h1, ?_⟩
  intro i j hi hj
  rw [h4 i j (by rw [hst, hcr]; exact hi) (by rw [hst, hcc]; exact hj), hLs.2.2, hRs.2.2]

/-- Witness of C3: assigning the sample expression to the disjoint 3x3 target at address 4. -/
theorem assign_disjoint_witness :
    ∃ m', sampleSub.assign sampleTargetMemory 4 = .ok m' ∧ (m' 4).elem 1 0 = -4 - 2 := by
  obtain ⟨m', h1, -, -, h4⟩ := (assign_disjoint sampleTargetMemory 4 sampleL sampleR sampleSub
    rfl rfl rfl (container_disjoint _ 1 4 (by decide)) (container_disjoint _ 2 4 (by decide))).1
  exact ⟨m', h1, h4 1 0 (by decide) (by decide)⟩

/-- C4 (alias safety): when the dense target `T` (at address `t`) is the very
same concrete container as the left operand and `R` is a sparse matrix of the
same shape, `assign(T, Sub(T,R))` is the single in-place `subAssign(T, R)`: no
other address is written, `T(i,j)` becomes `T_old(i,j) - R(i,j)`, and `T` ends
up element by element equal to what evaluating `Sub(T,R)` into a disjoint
temporary (at address `tmp`) and copying it into `T` gives. -/
theorem assign_aliased_left [Sub α] (m : Memory α) (t tmp : Addr) (tr : TypeTraits)
    (R : Operand α) (e : DMatSMatSubExpr α)
    (he : operatorMinus m (Operand.container tr t) R = .ok e)
    (hR : R.disjointFrom t) (hRtmp : R.disjointFrom tmp) (htmp : tmp ≠ t) :
    e.assign m t = .ok (subAssign m t R) ∧
      (∀ a, a ≠ t → (subAssign m t R) a = m a) ∧
      (∀ i j, i < (m t).rows → j < (m t).columns →
        ((subAssign m t R) t).elem i j = (m t).elem i j - R.access m i j) ∧
      ∃ m2, assignViaTemporary m t tmp e = .ok m2 ∧
        (m2 t).rows = ((subAssign m t R) t).rows ∧
        (m2 t).columns = ((subAssign m t R) t).columns ∧
        ∀ i j, (m2 t).elem i j = ((subAssign m t R) t).elem i j := by
  obtain ⟨rfl, -, -⟩ := operatorMinus_inv m _ R e he
  have hplace : ∀ i j, ((subAssign m t R) t).elem i j =
      if i < (m t).rows ∧ j < (m t).columns then (m t).elem i j - R.access m i j
      else (m t).elem i j := fun i j => subAssign_elem m t R hR i j
  have hfr := subAssign_frame m t R
  refine ⟨?_, hfr.1, ?_, ?_⟩
  · rw [assign_ok m t { lhs_ := Operand.container tr t, rhs_ := R } rfl rfl]
    simp [Operand.container, isSame]
  · intro i j hi hj
    rw [hplace, if_pos ⟨hi, hj⟩]
  · -- evaluation through the temporary
    have hne : t ≠ tmp := fun h => htmp h.symm
    have hLtmp : (Operand.container tr t : Operand α).disjointFrom tmp :=
      container_disjoint tr t tmp hne
    have hTmp : (Operand.container {} tmp : Operand α).disjointFrom t :=
      container_disjoint {} tmp t htmp
    obtain ⟨c0, hc0⟩ : ∃ c0 : Container α,
        c0 = { rows := (m t).rows, columns := (m t).columns, elem := (m tmp).elem } := ⟨_, rfl⟩
    have hc0r : c0.rows = (m t).rows := by rw [hc0]
    have hc0c : c0.columns = (m t).columns := by rw [hc0]
    have hc0e : c0.elem = (m tmp).elem := by rw [hc0]
    obtain ⟨m0, hm0def⟩ : ∃ m0 : Memory α, m0 = m.store tmp c0 := ⟨_, rfl⟩
    have hm0 : m0 tmp = c0 := by rw [hm0def]; exact store_same m tmp c0
    have hm0t : m0 t = m t := by rw [hm0def]; exact store_other m tmp t c0 hne
    have hRm0 : ∀ i j, R.access m0 i j = R.access m i j := by
      rw [hm0def]; exact (hRtmp.2 m c0).2.2
    obtain ⟨m1, hm1def⟩ : ∃ m1 : Memory α,
        m1 = subAssign (assign m0 tmp (Operand.container tr t)) tmp R := ⟨_, rfl⟩
    have hassign : DMatSMatSubExpr.assign m0 tmp
        { lhs_ := Operand.container tr t, rhs_ := R } = .ok m1 := by
      rw [assign_ok m0 tmp { lhs_ := Operand.container tr t, rhs_ := R }
        (by rw [hm0, hc0r]; exact (congrArg Container.rows hm0t).symm)
        (by rw [hm0, hc0c]; exact (congrArg Container.columns hm0t).symm), hm1def]
      simp [Operand.container, isSame, hne]
    have hrun : assignViaTemporary m t tmp { lhs_ := Operand.container tr t, rhs_ := R } =
        .ok (assign m1 t (Operand.container {} tmp)) := by
      have hunf : assignViaTemporary m t tmp { lhs_ := Operand.container tr t, rhs_ := R } =
          (DMatSMatSubExpr.assign m0 tmp { lhs_ := Operand.container tr t, rhs_ := R }).bind
            (fun m1 => .ok (assign m1 t (Operand.container {} tmp))) := by
        rw [hm0def, hc0]; rfl
      rw [hunf, hassign]; rfl
    -- the memory after evaluating into the temporary
    have hf1 := assign_frame m0 tmp (Operand.container tr t : Operand α)
    have hf2 := subAssign_frame (assign m0 tmp (Operand.container tr t)) tmp R
    have hm1t : m1 t = m t := by
      rw [hm1def, hf2.1 t hne, hf1.1 t hne, hm0t]
    have hm1tmp : ∀ i j, (m1 tmp).elem i j =
          if i < (m t).rows ∧ j < (m t).columns then (m t).elem i j - R.access m i j
          else (m tmp).elem i j := by
      intro i j
      rw [hm1def, assign_then_subAssign m0 tmp _ R hLtmp hRtmp i j, hm0, hRm0 i j,
        container_access, hm0t, hc0r, hc0c, hc0e]
    have hf3 := assign_frame m1 t (Operand.container {} tmp : Operand α)
    refine ⟨_, hrun, ?_, ?_, ?_⟩
    · rw [hf3.2.1, hm1t, hfr.2.1]
    · rw [hf3.2.2, hm1t, hfr.2.2]
    · intro i j
      rw [assign_elem m1 t _ hTmp i j, hplace i j, container_access, hm1tmp i j, hm1t]
      by_cases hin : i < (m t).rows ∧ j < (m t).columns
      · simp [hin]
      · simp [hin]

/-- Witness of C4: `T = T - R` for the 3x3 sample matrices, with `T` at address 1. -/
theorem assign_aliased_left_witness :
    sampleSub.assign sampleMemory 1 = .ok (subAssign sampleMemory 1 sampleR) ∧
      ((subAssign sampleMemory 1 sampleR) 1).elem 2 0 = 7 - 3 := by
  have h := assign_aliased_left sampleMemory 1 5
    { smpAssignable := true, IsLower := true, IsStrictlyLower := true } sampleR sampleSub rfl
    (container_disjoint _ 2 1 (by decide)) (container_disjoint _ 2 5 (by decide)) (by decide)
  exact ⟨h.1, h.2.2.1 2 0 (by decide) (by decide)⟩

/-- C5 (restructuring equivalence): for `L`, `R`, `X` of equal shape the
restructuring operators build `(L - R) + X` as `Sub(Add(L,X), R)` and
`(L - R) - X` as `Sub(Sub(L,X), R)`, and every element of the rewritten
expression is the element of the unrewritten one:
`(L(i,j) + X(i,j)) - R(i,j) = (L(i,j) - R(i,j)) + X(i,j)` and
`(L(i,j) - X(i,j)) - R(i,j) = (L(i,j) - R(i,j)) - X(i,j)`, over exact ring
arithmetic. -/
theorem restructuring_equivalence [Ring α] (m : Memory α) (L R X : Operand α)
    (e : DMatSMatSubExpr α) (he : operatorMinus m L R = .ok e)
    (hXr : X.rows m = L.rows m) (hXc : X.columns m = L.columns m) :
    e.operatorPlus m X = .ok { lhs_ := DMatDMatAddExpr L X, rhs_ := R } ∧
      e.operatorMinus m X = .ok { lhs_ := DMatDMatSubExpr L X, rhs_ := R } ∧
      ∀ i j, i < L.rows m → j < L.columns m →
        (DMatSMatSubExpr.mk (DMatDMatAddExpr L X) R).access m i j =
            .ok ((L.access m i j + X.access m i j) - R.access m i j) ∧
          (DMatSMatSubExpr.mk (DMatDMatAddExpr L X) R).access m i j =
            (e.access m i j).map (fun v => v + X.access m i j) ∧
          (DMatSMatSubExpr.mk (DMatDMatSubExpr L X) R).access m i j =
            .ok ((L.access m i j - X.access m i j) - R.access m i j) ∧
          (DMatSMatSubExpr.mk (DMatDMatSubExpr L X) R).access m i j =
            (e.access m i j).map (fun v => v - X.access m i j) := by
  obtain ⟨rfl, hr, hc⟩ := operatorMinus_inv m L R e he
  refine ⟨?_, ?_, ?_⟩
  · have h1 := operatorPlusDense_ok m L X hXr.symm hXc.symm
    have h2 := operatorMinus_ok m (DMatDMatAddExpr L X) R hr hc
    simp only [DMatSMatSubExpr.operatorPlus, DMatSMatSubExpr.leftOperand,
      DMatSMatSubExpr.rightOperand, h1, bind, Except.bind]
    exact h2
  · have h1 := operatorMinusDense_ok m L X hXr.symm hXc.symm
    have h2 := operatorMinus_ok m (DMatDMatSubExpr L X) R hr hc
    simp only [DMatSMatSubExpr.operatorMinus, DMatSMatSubExpr.leftOperand,
      DMatSMatSubExpr.rightOperand, h1, bind, Except.bind]
    exact h2
  · intro i j hi hj
    have ha := access_ok (DMatSMatSubExpr.mk (DMatDMatAddExpr L X) R) m i j hi hj
    have hs := access_ok (DMatSMatSubExpr.mk (DMatDMatSubExpr L X) R) m i j hi hj
    have he' := access_ok (DMatSMatSubExpr.mk L R) m i j hi hj
    refine ⟨ha, ?_, hs, ?_⟩
    · rw [ha, he']
      simp only [Except.map, DMatDMatAddExpr]
      rw [add_sub_right_comm]
    · rw [hs, he']
      simp only [Except.map, DMatDMatSubExpr]
      rw [sub_right_comm]

/-- Witness of C5: `(L - R) + L` and `(L - R) - L` for the 3x3 sample matrices. -/
theorem restructuring_equivalence_witness :
    sampleSub.operatorPlus sampleMemory sampleL =
        .ok { lhs_ := DMatDMatAddExpr sampleL sampleL, rhs_ := sampleR } ∧
      (DMatSMatSubExpr.mk (DMatDMatAddExpr sampleL sampleL) sampleR).access sampleMemory 1 0 =
        .ok ((-4 + -4) - 2) := by
  have h := restructuring_equivalence sampleMemory sampleL sampleR sampleL sampleSub rfl rfl rfl
  exact ⟨h.1, (h.2.2 1 0 (by decide) (by decide)).1⟩

/-- C6 (soundness of the triangular traits): for square `L` and `R` of equal
order `n`, if both are lower triangular then the matrix with the elements
`Sub(L,R)(i,j)` is lower triangular; likewise for upper, strictly lower and
strictly upper. Hence whenever the flag `IsLower` / `IsUpper` /
`IsStrictlyLower` / `IsStrictlyUpper` of `Sub(L,R)` is true and the flags of
the operands are truthful, the flag of the result is truthful. -/
theorem triangular_traits_sound [Ring α] (m : Memory α) (L R : Operand α) (n : Nat)
    (e : DMatSMatSubExpr α) (he : operatorMinus m L R = .ok e)
    (hr : L.rows m = n) (hc : L.columns m = n) :
    (isLower n (L.elements m) → isLower n (R.elements m) → isLower n (e.access m)) ∧
      (isUpper n (L.elements m) → isUpper n (R.elements m) → isUpper n (e.access m)) ∧
      (isStrictlyLower n (L.elements m) → isStrictlyLower n (R.elements m) →
        isStrictlyLower n (e.access m)) ∧
      (isStrictlyUpper n (L.elements m) → isStrictlyUpper n (R.elements m) →
        isStrictlyUpper n (e.access m)) ∧
      ((L.traits.IsLower = true → isLower n (L.elements m)) →
        (R.traits.IsLower = true → isLower n (R.elements m)) →
        DMatSMatSubExpr.IsLower L.traits R.traits = true → isLower n (e.access m)) ∧
      ((L.traits.IsUpper = true → isUpper n (L.elements m)) →
        (R.traits.IsUpper = true → isUpper n (R.elements m)) →
        DMatSMatSubExpr.IsUpper L.traits R.traits = true → isUpper n (e.access m)) ∧
      ((L.traits.IsStrictlyLower = true → isStrictlyLower n (L.elements m)) →
        (R.traits.IsStrictlyLower = true → isStrictlyLower n (R.elements m)) →
        DMatSMatSubExpr.IsStrictlyLower L.traits R.traits = true →
        isStrictlyLower n (e.access m)) ∧
      ((L.traits.IsStrictlyUpper = true → isStrictlyUpper n (L.elements m)) →
        (R.traits.IsStrictlyUpper = true → isStrictlyUpper n (R.elements m)) →
        DMatSMatSubExpr.IsStrictlyUpper L.traits R.traits = true →
        isStrictlyUpper n (e.access m)) := by
  obtain ⟨rfl, -, -⟩ := operatorMinus_inv m L R e he
  have hlow := sub_zero_pattern (fun i j => i < j) m L R n hr hc
  have hupp := sub_zero_pattern (fun i j => j < i) m L R n hr hc
  have hsl := sub_zero_pattern (fun i j => i ≤ j) m L R n hr hc
  have hsu := sub_zero_pattern (fun i j => j ≤ i) m L R n hr hc
  refine ⟨hlow, hupp, hsl, hsu, ?_, ?_, ?_, ?_⟩
  · intro tL tR hf
    simp only [DMatSMatSubExpr.IsLower, Bool.and_eq_true] at hf
    exact hlow (tL hf.1) (tR hf.2)
  · intro tL tR hf
    simp only [DMatSMatSubExpr.IsUpper, Bool.and_eq_true] at hf
    exact hupp (tL hf.1) (tR hf.2)
  · intro tL tR hf
    simp only [DMatSMatSubExpr.IsStrictlyLower, Bool.and_eq_true] at hf
    exact hsl (tL hf.1) (tR hf.2)
  · intro tL tR hf
    simp only [DMatSMatSubExpr.IsStrictlyUpper, Bool.and_eq_true] at hf
    exact hsu (tL hf.1) (tR hf.2)

/-- Witness of C6: `L = [[0,0,0],[-4,0,0],[7,0,0]]`, `R = [[0,0,0],[2,0,0],[3,0,0]]`
give `[[0,0,0],[-6,0,0],[4,0,0]]`, strictly lower, with `IsStrictlyLower` true. -/
theorem triangular_traits_sound_witness :
    isStrictlyLower 3 (sampleSub.access sampleMemory) ∧
      sampleSub.access sampleMemory 1 0 = .ok (-6) ∧
      sampleSub.access sampleMemory 2 0 = .ok 4 ∧
      DMatSMatSubExpr.IsStrictlyLower sampleL.traits sampleR.traits = true :=
  ⟨(triangular_traits_sound sampleMemory sampleL sampleR 3 sampleSub rfl rfl rfl).2.2.2.2.2.2.1
      (fun _ => sampleL_isStrictlyLower) (fun _ => sampleR_isStrictlyLower) rfl,
    rfl, rfl, rfl⟩

/-- C7 (soundness of the unit-triangular traits): for square `L` and `R` of
equal order `n`, if `L` is unit lower triangular and `R` is strictly lower
triangular then the matrix with the elements `Sub(L,R)(i,j)` is unit lower
triangular; symmetrically for unit upper / strictly upper. Hence whenever
`IsUniLower` (`IsUniUpper`) of `Sub(L,R)` is true and the flags of the
operands are truthful, the result has a unit diagonal and zeros on the other
side. -/
theorem unitriangular_traits_sound [Ring α] (m : Memory α) (L R : Operand α) (n : Nat)
    (e : DMatSMatSubExpr α) (he : operatorMinus m L R = .ok e)
    (hr : L.rows m = n) (hc : L.columns m = n) :
    (isUniLower n (L.elements m) → isStrictlyLower n (R.elements m) →
        isUniLower n (e.access m)) ∧
      (isUniUpper n (L.elements m) → isStrictlyUpper n (R.elements m) →
        isUniUpper n (e.access m)) ∧
      ((L.traits.IsUniLower = true → isUniLower n (L.elements m)) →
        (R.traits.IsStrictlyLower = true → isStrictlyLower n (R.elements m)) →
        DMatSMatSubExpr.IsUniLower L.traits R.traits = true → isUniLower n (e.access m)) ∧
      ((L.traits.IsUniUpper = true → isUniUpper n (L.elements m)) →
        (R.traits.IsStrictlyUpper = true → isStrictlyUpper n (R.elements m)) →
        DMatSMatSubExpr.IsUniUpper L.traits R.traits = true → isUniUpper n (e.access m)) := by
  obtain ⟨rfl, -, -⟩ := operatorMinus_inv m L R e he
  have hlow : isUniLower n (L.elements m) → isStrictlyLower n (R.elements m) →
      isUniLower n ((DMatSMatSubExpr.mk L R).access m) := by
    intro hL hR
    exact ⟨sub_zero_pattern (fun i j => i < j) m L R n hr hc hL.1
        (fun i hi j hj hij => hR i hi j hj (Nat.le_of_lt hij)),
      sub_unit_diagonal m L R n hr hc hL.2 (fun i hi => hR i hi i hi (Nat.le_refl i))⟩
  have hupp : isUniUpper n (L.elements m) → isStrictlyUpper n (R.elements m) →
      isUniUpper n ((DMatSMatSubExpr.mk L R).access m) := by
    intro hL hR
    exact ⟨sub_zero_pattern (fun i j => j < i) m L R n hr hc hL.1
        (fun i hi j hj hij => hR i hi j hj (Nat.le_of_lt hij)),
      sub_unit_diagonal m L R n hr hc hL.2 (fun i hi => hR i hi i hi (Nat.le_refl i))⟩
  refine ⟨hlow, hupp, ?_, ?_⟩
  · intro tL tR hf
    simp only [DMatSMatSubExpr.IsUniLower, Bool.and_eq_true] at hf
    exact hlow (tL hf.1) (tR hf.2)
  · intro tL tR hf
    simp only [DMatSMatSubExpr.IsUniUpper, Bool.and_eq_true] at hf
    exact hupp (tL hf.1) (tR hf.2)

/-- Witness of C7: the unit lower `[[1,0,0],[5,1,0],[0,2,1]]` minus the strictly
lower `[[0,0,0],[2,0,0],[3,0,0]]` is unit lower. -/
theorem unitriangular_traits_sound_witness :
    isUniLower 3 ((DMatSMatSubExpr.mk sampleUni sampleR).access sampleMemory) ∧
      (DMatSMatSubExpr.mk sampleUni sampleR).access sampleMemory 1 0 = .ok 3 ∧
      (DMatSMatSubExpr.mk sampleUni sampleR).access sampleMemory 1 1 = .ok 1 ∧
      DMatSMatSubExpr.IsUniLower sampleUni.traits sampleR.traits = true :=
  ⟨(unitriangular_traits_sound sampleMemory sampleUni sampleR 3 _ rfl rfl rfl).1
      sampleUni_isUniLower sampleR_isStrictlyLower,
    rfl, rfl, rfl⟩

/-- C8 (soundness of the symmetry traits): for square `L` and `R` of equal
order `n`, if both are symmetric then the matrix with the elements
`Sub(L,R)(i,j)` is symmetric, and if both are Hermitian then it is Hermitian.
Hence whenever `IsSymmetric` / `IsHermitian` of `Sub(L,R)` is true and the
flags of the operands are truthful, the flag of the result is truthful. -/
theorem symmetry_traits_sound [Ring α] [StarRing α] (m : Memory α) (L R : Operand α) (n : Nat)
    (e : DMatSMatSubExpr α) (he : operatorMinus m L R = .ok e)
    (hr : L.rows m = n) (hc : L.columns m = n) :
    (isSymmetric n (L.elements m) → isSymmetric n (R.elements m) →
        isSymmetric n (e.access m)) ∧
      (isHermitian n (L.elements m) → isHermitian n (R.elements m) →
        isHermitian n (e.access m)) ∧
      ((L.traits.IsSymmetric = true → isSymmetric n (L.elements m)) →
        (R.traits.IsSymmetric = true → isSymmetric n (R.elements m)) →
        DMatSMatSubExpr.IsSymmetric L.traits R.traits = true → isSymmetric n (e.access m)) ∧
      ((L.traits.IsHermitian = true → isHermitian n (L.elements m)) →
        (R.traits.IsHermitian = true → isHermitian n (R.elements m)) →
        DMatSMatSubExpr.IsHermitian L.traits R.traits = true → isHermitian n (e.access m)) := by
  obtain ⟨rfl, -, -⟩ := operatorMinus_inv m L R e he
  have hsym : isSymmetric n (L.elements m) → isSymmetric n (R.elements m) →
      isSymmetric n ((DMatSMatSubExpr.mk L R).access m) := by
    intro hL hR i hi j hj
    obtain ⟨v, hv1, hv2⟩ := hL i hi j hj
    obtain ⟨w, hw1, hw2⟩ := hR i hi j hj
    simp only [Operand.elements, Except.ok.injEq] at hv1 hv2 hw1 hw2
    refine ⟨v - w, ?_, ?_⟩
    · rw [access_ok _ m i j (by rw [hr]; exact hi) (by rw [hc]; exact hj), hv1, hw1]
    · rw [access_ok _ m j i (by rw [hr]; exact hj) (by rw [hc]; exact hi), hv2, hw2]
  have hher : isHermitian n (L.elements m) → isHermitian n (R.elements m) →
      isHermitian n ((DMatSMatSubExpr.mk L R).access m) := by
    intro hL hR i hi j hj
    obtain ⟨v, hv1, hv2⟩ := hL i hi j hj
    obtain ⟨w, hw1, hw2⟩ := hR i hi j hj
    simp only [Operand.elements, Except.ok.injEq] at hv1 hv2 hw1 hw2
    refine ⟨v - w, ?_, ?_⟩
    · rw [access_ok _ m j i (by rw [hr]; exact hj) (by rw [hc]; exact hi), hv1, hw1]
    · rw [access_ok _ m i j (by rw [hr]; exact hi) (by rw [hc]; exact hj), hv2, hw2, star_sub]
  refine ⟨hsym, hher, ?_, ?_⟩
  · intro tL tR hf
    simp only [DMatSMatSubExpr.IsSymmetric, Bool.and_eq_true] at hf
    exact hsym (tL hf.1) (tR hf.2)
  · intro tL tR hf
    simp only [DMatSMatSubExpr.IsHermitian, Bool.and_eq_true] at hf
    exact hher (tL hf.1) (tR hf.2)

/-- Witness of C8: the symmetric matrices with elements `i + j` and `i * j`. -/
theorem symmetry_traits_sound_witness :
    isSymmetric 3 ((DMatSMatSubExpr.mk sampleSymL sampleSymR).access sampleMemory) ∧
      (DMatSMatSubExpr.mk sampleSymL sampleSymR).access sampleMemory 1 2 = .ok 1 ∧
      (DMatSMatSubExpr.mk sampleSymL sampleSymR).access sampleMemory 2 1 = .ok 1 ∧
      DMatSMatSubExpr.IsSymmetric sampleSymL.traits sampleSymR.traits = true :=
  ⟨(symmetry_traits_sound sampleMemory sampleSymL sampleSymR 3 _ rfl rfl rfl).1
      sampleSymL_isSymmetric sampleSymR_isSymmetric,
    rfl, rfl, rfl⟩

/-- C9 (trait composition table): for every combination of operand flags,
`IsSymmetric`, `IsHermitian`, `IsLower`, `IsUpper`, `IsStrictlyLower` and
`IsStrictlyUpper` of `Sub(L,R)` are each true iff the same flag is true for
both operands (so false as soon as either operand lacks it); `IsUniLower` is
true iff `L.IsUniLower` and `R.IsStrictlyLower`; `IsUniUpper` is true iff
`L.IsUniUpper` and `R.IsStrictlyUpper`. -/
theorem trait_composition_table (MT1 MT2 : TypeTraits) :
    (DMatSMatSubExpr.IsSymmetric MT1 MT2 = true ↔
        MT1.IsSymmetric = true ∧ MT2.IsSymmetric = true) ∧
      (DMatSMatSubExpr.IsHermitian MT1 MT2 = true ↔
        MT1.IsHermitian = true ∧ MT2.IsHermitian = true) ∧
      (DMatSMatSubExpr.IsLower MT1 MT2 = true ↔ MT1.IsLower = true ∧ MT2.IsLower = true) ∧
      (DMatSMatSubExpr.IsUpper MT1 MT2 = true ↔ MT1.IsUpper = true ∧ MT2.IsUpper = true) ∧
      (DMatSMatSubExpr.IsStrictlyLower MT1 MT2 = true ↔
        MT1.IsStrictlyLower = true ∧ MT2.IsStrictlyLower = true) ∧
      (DMatSMatSubExpr.IsStrictlyUpper MT1 MT2 = true ↔
        MT1.IsStrictlyUpper = true ∧ MT2.IsStrictlyUpper = true) ∧
      (DMatSMatSubExpr.IsUniLower MT1 MT2 = true ↔
        MT1.IsUniLower = true ∧ MT2.IsStrictlyLower = true) ∧
      (DMatSMatSubExpr.IsUniUpper MT1 MT2 = true ↔
        MT1.IsUniUpper = true ∧ MT2.IsStrictlyUpper = true) := by
  simp only [DMatSMatSubExpr.IsSymmetric, DMatSMatSubExpr.IsHermitian, DMatSMatSubExpr.IsLower,
    DMatSMatSubExpr.IsUpper, DMatSMatSubExpr.IsStrictlyLower, DMatSMatSubExpr.IsStrictlyUpper,
    DMatSMatSubExpr.IsUniLower, DMatSMatSubExpr.IsUniUpper, Bool.and_eq_true, and_self]

/-- C10, as stated, fails: for the sample expression `L - R` with the concrete
dense `L` at address 1, the left operand can alias address 1 (it is its own
address), yet `canAlias` of the expression answers false. -/
theorem canAlias_concrete_left_not_reported :
    operatorMinus sampleMemory sampleL sampleR = .ok sampleSub ∧
      sampleL.address = some 1 ∧ sampleL.canAlias 1 = true ∧
      sampleSub.canAlias 1 = false :=
  ⟨rfl, rfl, rfl, rfl⟩

/-- C10, amended: `canAlias` of a subtraction expression answers true whenever
the right operand can alias the address, or the left operand is itself an
expression that can alias it; for a concrete (non-expression) left operand it
answers exactly what the right operand answers. `isAliased` has no false
negatives: it answers true whenever one of the two operands is aliased. -/
theorem canAlias_isAliased_spec (e : DMatSMatSubExpr α) (a : Addr) :
    (e.rhs_.canAlias a = true → e.canAlias a = true) ∧
      (e.lhs_.traits.isExpression = true → e.lhs_.canAlias a = true → e.canAlias a = true) ∧
      (e.lhs_.traits.isExpression = false → e.canAlias a = e.rhs_.canAlias a) ∧
      (e.lhs_.isAliased a = true ∨ e.rhs_.isAliased a = true → e.isAliased a = true) := by
  refine ⟨?_, ?_, ?_, ?_⟩
  · intro h
    simp [DMatSMatSubExpr.canAlias, h]
  · intro h1 h2
    simp [DMatSMatSubExpr.canAlias, h1, h2]
  · intro h
    simp [DMatSMatSubExpr.canAlias, h]
  · intro h
    simpa [DMatSMatSubExpr.isAliased] using h

/-- C11 (compound assignment): for a dense target `T` (at address `t`) of the
shape of `Sub(L,R)`, with `R` not overlapping `T` and `L` either disjoint from
`T` or the very container `T`, `addAssign(T, Sub(L,R))` leaves
`T(i,j) = T_old(i,j) + (L(i,j) - R(i,j))` and `subAssign(T, Sub(L,R))` leaves
`T(i,j) = T_old(i,j) - (L(i,j) - R(i,j))` for every `(i,j)`, over exact ring
arithmetic; when `T` is the same container as `L` this is `2*T_old - R` and `R`. -/
theorem compound_assign_spec [Ring α] (m : Memory α) (t : Addr) (L R : Operand α)
    (e : DMatSMatSubExpr α) (he : operatorMinus m L R = .ok e)
    (hrows : (m t).rows = e.rows m) (hcols : (m t).columns = e.columns m)
    (hL : L.disjointFrom t ∨ ∃ tr, L = Operand.container tr t) (hR : R.disjointFrom t) :
    (∃ m', e.addAssign m t = .ok m' ∧ changesOnly t m m' ∧
        ∀ i j, i < (m t).rows → j < (m t).columns →
          (m' t).elem i j = (m t).elem i j + (L.access m i j - R.access m i j)) ∧
      (∃ m', e.subAssign m t = .ok m' ∧ changesOnly t m m' ∧
        ∀ i j, i < (m t).rows → j < (m t).columns →
          (m' t).elem i j = (m t).elem i j - (L.access m i j - R.access m i j)) ∧
      ((∃ tr, L = Operand.container tr t) →
        (∃ m', e.addAssign m t = .ok m' ∧
          ∀ i j, i < (m t).rows → j < (m t).columns →
            (m' t).elem i j = 2 * (m t).elem i j - R.access m i j) ∧
        (∃ m', e.subAssign m t = .ok m' ∧
          ∀ i j, i < (m t).rows → j < (m t).columns →
            (m' t).elem i j = R.access m i j)) := by
  obtain ⟨rfl, -, -⟩ := operatorMinus_inv m L R e he
  have hadd : ∀ i j, i < (m t).rows → j < (m t).columns →
      ((subAssign (addAssign m t L) t R) t).elem i j =
        (m t).elem i j + (L.access m i j - R.access m i j) := by
    intro i j hi hj
    rw [two_step_elem _ _ addAssign subAssign addAssign_spec subAssign_spec m t L R hL hR i j,
      if_pos ⟨hi, hj⟩, add_sub_assoc]
  have hsub : ∀ i j, i < (m t).rows → j < (m t).columns →
      ((addAssign (subAssign m t L) t R) t).elem i j =
        (m t).elem i j - (L.access m i j - R.access m i j) := by
    intro i j hi hj
    rw [two_step_elem _ _ subAssign addAssign subAssign_spec addAssign_spec m t L R hL hR i j,
      if_pos ⟨hi, hj⟩, sub_add]
  refine ⟨⟨_, addAssign_ok m t _ hrows hcols,
      two_step_changesOnly _ _ addAssign subAssign addAssign_spec subAssign_spec m t L R, hadd⟩,
    ⟨_, subAssign_ok m t _ hrows hcols,
      two_step_changesOnly _ _ subAssign addAssign subAssign_spec addAssign_spec m t L R, hsub⟩,
    ?_⟩
  rintro ⟨tr, rfl⟩
  refine ⟨⟨_, addAssign_ok m t _ hrows hcols, ?_⟩, ⟨_, subAssign_ok m t _ hrows hcols, ?_⟩⟩
  · intro i j hi hj
    rw [hadd i j hi hj, container_access, two_mul, add_sub_assoc]
  · intro i j hi hj
    rw [hsub i j hi hj, container_access, sub_sub_cancel]

/-- Witness of C11: `T += T - R` for the 3x3 sample matrices, with `T` at address 1. -/
theorem compound_assign_spec_witness :
    ∃ m', sampleSub.addAssign sampleMemory 1 = .ok m' ∧ (m' 1).elem 1 0 = 2 * (-4) - 2 := by
  obtain ⟨⟨m', h1, h2⟩, -⟩ := (compound_assign_spec sampleMemory 1 sampleL sampleR sampleSub
    rfl rfl rfl (Or.inr ⟨_, rfl⟩) (container_disjoint _ 2 1 (by decide))).2.2 ⟨_, rfl⟩
  exact ⟨m', h1, h2 1 0 (by decide) (by decide)⟩

/-- C13 (compile-time extents): `Rows` and `Columns` of `Sub(L,R)` are the
maximum of the compile-time extents of the operands, 0 meaning dynamic. So the
result has static extent `N` as soon as one operand has static extent `N` and
the other is dynamic or also `N`, and is dynamic only if both are dynamic. -/
theorem static_extents_max (MT1 MT2 : TypeTraits) :
    DMatSMatSubExpr.Rows MT1 MT2 = max MT1.Rows MT2.Rows ∧
      DMatSMatSubExpr.Columns MT1 MT2 = max MT1.Columns MT2.Columns ∧
      (∀ N, (MT1.Rows = N ∧ (MT2.Rows = 0 ∨ MT2.Rows = N)) ∨
          (MT2.Rows = N ∧ (MT1.Rows = 0 ∨ MT1.Rows = N)) →
        DMatSMatSubExpr.Rows MT1 MT2 = N) ∧
      (∀ N, (MT1.Columns = N ∧ (MT2.Columns = 0 ∨ MT2.Columns = N)) ∨
          (MT2.Columns = N ∧ (MT1.Columns = 0 ∨ MT1.Columns = N)) →
        DMatSMatSubExpr.Columns MT1 MT2 = N) ∧
      (DMatSMatSubExpr.Rows MT1 MT2 = 0 ↔ MT1.Rows = 0 ∧ MT2.Rows = 0) ∧
      (DMatSMatSubExpr.Columns MT1 MT2 = 0 ↔ MT1.Columns = 0 ∧ MT2.Columns = 0) := by
  refine ⟨rfl, rfl, ?_, ?_, ?_, ?_⟩
  · intro N h; simp only [DMatSMatSubExpr.Rows]; omega
  · intro N h; simp only [DMatSMatSubExpr.Columns]; omega
  · simp only [DMatSMatSubExpr.Rows]; omega
  · simp only [DMatSMatSubExpr.Columns]; omega

/-- C14 (frame): each dense-target dispatch function of `Sub(L,R)` (`assign`,
`addAssign`, `subAssign` and the SMP variants, for every order in which the
data-parallel steps write) changes only the target: every other container is
unchanged, the target keeps its shape, and every operand that is disjoint
from the target has the same shape and elements after the call as before.
The expression is an input only; no function returns a changed expression. -/
theorem dispatch_frame [Ring α] (m m' : Memory α) (t : Addr) (e : DMatSMatSubExpr α)
    (sched : List (Nat × Nat) → List (Nat × Nat)) :
    (e.assign m t = .ok m' → onlyTargetChanged t m m') ∧
      (e.addAssign m t = .ok m' → onlyTargetChanged t m m') ∧
      (e.subAssign m t = .ok m' → onlyTargetChanged t m m') ∧
      (e.smpAssign (scheduledKernels sched) m t = .ok m' → onlyTargetChanged t m m') ∧
      (e.smpAddAssign (scheduledKernels sched) m t = .ok m' → onlyTargetChanged t m m') ∧
      (e.smpSubAssign (scheduledKernels sched) m t = .ok m' → onlyTargetChanged t m m') := by
  have hs := fun (s : Memory α) (op : Operand α) => scheduled_changesOnly sched s t op
  refine ⟨?_, ?_, ?_, ?_, ?_, ?_⟩
  · intro h
    apply onlyTargetChanged_of_changesOnly
    rcases assign_inv m m' t e h with rfl | rfl
    · exact (subAssign_spec m t _).1
    · exact two_step_changesOnly _ _ assign subAssign assign_spec subAssign_spec m t _ _
  · intro h
    apply onlyTargetChanged_of_changesOnly
    rw [addAssign_inv m m' t e h]
    exact two_step_changesOnly _ _ addAssign subAssign addAssign_spec subAssign_spec m t _ _
  · intro h
    apply onlyTargetChanged_of_changesOnly
    rw [subAssign_inv m m' t e h]
    exact two_step_changesOnly _ _ subAssign addAssign subAssign_spec addAssign_spec m t _ _
  · intro h
    apply onlyTargetChanged_of_changesOnly
    rcases smpAssign_inv _ m m' t e h with rfl | rfl
    · exact (hs m _).2.2
    · exact changesOnly_trans t m _ _ (hs m _).1 (hs _ _).2.2
  · intro h
    apply onlyTargetChanged_of_changesOnly
    rw [smpAddAssign_inv _ m m' t e h]
    exact changesOnly_trans t m _ _ (hs m _).2.1 (hs _ _).2.2
  · intro h
    apply onlyTargetChanged_of_changesOnly
    rw [smpSubAssign_inv _ m m' t e h]
    exact changesOnly_trans t m _ _ (hs m _).2.2 (hs _ _).2.1

/-- Witness of C14: `T -= L - R` on the 3x3 target at address 4 leaves the
operands at addresses 1 and 2 as they were. -/
theorem dispatch_frame_witness :
    ∃ m', sampleSub.subAssign sampleTargetMemory 4 = .ok m' ∧
      m' 1 = sampleTargetMemory 1 ∧ m' 2 = sampleTargetMemory 2 ∧
      sampleL.readsSame sampleTargetMemory m' := by
  obtain ⟨m', h⟩ : ∃ m', sampleSub.subAssign sampleTargetMemory 4 = .ok m' :=
    ⟨_, subAssign_ok sampleTargetMemory 4 sampleSub rfl rfl⟩
  have hf := (dispatch_frame sampleTargetMemory m' 4 sampleSub id).2.2.1 h
  exact ⟨m', h, hf.1.1 1 (by decide), hf.1.1 2 (by decide),
    hf.2 sampleL (container_disjoint _ 1 4 (by decide))⟩

/-- C15 (operand capture rule): the expression node holds its left (right)
operand as a private by-value copy if and only if the type of that operand is
itself an expression, and as a const reference to the object of the caller if
and only if it is not (a concrete container); each operand is classified from
its own type alone. -/
theorem operand_capture_rule (MT1 MT2 : TypeTraits) :
    (DMatSMatSubExpr.LeftOperand MT1 = .byValue ↔ MT1.isExpression = true) ∧
      (DMatSMatSubExpr.LeftOperand MT1 = .byConstReference ↔ MT1.isExpression = false) ∧
      (DMatSMatSubExpr.RightOperand MT2 = .byValue ↔ MT2.isExpression = true) ∧
      (DMatSMatSubExpr.RightOperand MT2 = .byConstReference ↔ MT2.isExpression = false) ∧
      (∀ (tr : TypeTraits) (a : Addr),
        DMatSMatSubExpr.LeftOperand (Operand.container tr a : Operand Int).traits =
            .byConstReference ∧
          DMatSMatSubExpr.RightOperand (Operand.container tr a : Operand Int).traits =
            .byConstReference) := by
  refine ⟨?_, ?_, ?_, ?_, ?_⟩
  · cases h : MT1.isExpression <;> simp [DMatSMatSubExpr.LeftOperand, h]
  · cases h : MT1.isExpression <;> simp [DMatSMatSubExpr.LeftOperand, h]
  · cases h : MT2.isExpression <;> simp [DMatSMatSubExpr.RightOperand, h]
  · cases h : MT2.isExpression <;> simp [DMatSMatSubExpr.RightOperand, h]
  · intro tr a
    exact ⟨rfl, rfl⟩

/-- C12 (sparse targets go through a temporary): for every sparse target `T`
(at address `t`, either storage order `SO2`, aliasing an operand or not),
`assign(T, Sub(L,R))` and its SMP variant first evaluate the whole expression
into a dense temporary (at a fresh address `tmp`) whose storage order is that
of the target (`ResultType` exactly when the storage order `SO` of the
expression equals `SO2`, `OppositeType` otherwise) and then assign that
temporary, so that afterwards `T(i,j) = L_old(i,j) - R_old(i,j)` for every
`(i,j)`. -/
theorem assign_sparse_via_temporary [Ring α] (SO SO2 : Bool) (m : Memory α) (t tmp : Addr)
    (L R : Operand α) (e : DMatSMatSubExpr α) (he : operatorMinus m L R = .ok e)
    (hrows : (m t).rows = e.rows m) (hcols : (m t).columns = e.columns m)
    (htmp : tmp ≠ t) (hL : L.disjointFrom tmp) (hR : R.disjointFrom tmp) :
    (TmpType SO SO2).storageOrder SO = SO2 ∧
      (TmpType SO SO2 = .ResultType ↔ SO = SO2) ∧
      (∃ m1, constructTemporary DMatSMatSubExpr.assign m tmp e = .ok m1 ∧
        (m1 tmp).rows = e.rows m ∧ (m1 tmp).columns = e.columns m ∧
        (∀ i j, i < e.rows m → j < e.columns m →
          (m1 tmp).elem i j = L.access m i j - R.access m i j) ∧
        e.assignSparse SO SO2 m t tmp = .ok (assign m1 t
          (Operand.container { storageOrder := (TmpType SO SO2).storageOrder SO } tmp))) ∧
      (∃ m', e.assignSparse SO SO2 m t tmp = .ok m' ∧
        ∀ i j, i < (m t).rows → j < (m t).columns →
          (m' t).elem i j = L.access m i j - R.access m i j) ∧
      (∀ sched : List (Nat × Nat) → List (Nat × Nat), (∀ l, (sched l).Perm l) →
        ∀ exprSpecific : Bool,
          ∃ m', e.smpAssignSparse (scheduledKernels sched) exprSpecific SO SO2 m t tmp = .ok m' ∧
            ∀ i j, i < (m t).rows → j < (m t).columns →
              (m' t).elem i j = L.access m i j - R.access m i j) := by
  obtain ⟨rfl, -, -⟩ := operatorMinus_inv m L R e he
  obtain ⟨c0, hc0⟩ : ∃ c0 : Container α,
      c0 = { rows := L.rows m, columns := L.columns m, elem := (m tmp).elem } := ⟨_, rfl⟩
  have hc0r : c0.rows = (m t).rows := by rw [hc0]; exact hrows.symm
  have hc0c : c0.columns = (m t).columns := by rw [hc0]; exact hcols.symm
  have hser := construct_serial m tmp L R hL
  rw [← hc0] at hser
  have hev := tmp_eval assign subAssign assign_spec subAssign_spec m tmp L R hL hR c0
  refine ⟨tmpType_storageOrder SO SO2, ?_, ?_, ?_, ?_⟩
  · cases SO <;> cases SO2 <;> simp [TmpType]
  · refine ⟨_, hser, ?_, ?_, ?_, assignSparse_ok SO SO2 m _ t tmp _ hrows hcols hser⟩
    · rw [hev.1.2.1, store_same, hc0]; rfl
    · rw [hev.1.2.2, store_same, hc0]; rfl
    · intro i j hi hj
      have hi' : i < c0.rows := by rw [hc0]; exact hi
      have hj' : j < c0.columns := by rw [hc0]; exact hj
      rw [hev.2 i j, if_pos ⟨hi', hj'⟩]
  · exact ⟨_, assignSparse_ok SO SO2 m _ t tmp _ hrows hcols hser,
      copy_from_tmp assign assign_spec m _ t tmp _ c0 htmp hev.1 hc0r hc0c _ hev.2⟩
  · intro sched hperm exprSpecific
    have hk1 : KernelSpec (fun (_ : α) v => v) (scheduledKernels sched).smpAssign :=
      smpCompoundAssign_spec _ sched hperm
    have hk2 : KernelSpec (fun (x : α) v => x - v) (scheduledKernels sched).smpSubAssign :=
      smpCompoundAssign_spec _ sched hperm
    cases exprSpecific with
    | false =>
      exact ⟨_, smpAssignSparse_ok _ false SO SO2 m _ t tmp _ hrows hcols hser,
        copy_from_tmp _ hk1 m _ t tmp _ c0 htmp hev.1 hc0r hc0c _ hev.2⟩
    | true =>
      have hsmp := construct_smp (scheduledKernels sched) m tmp L R hL
      rw [← hc0] at hsmp
      have hev' := tmp_eval _ _ hk1 hk2 m tmp L R hL hR c0
      exact ⟨_, smpAssignSparse_ok _ true SO SO2 m _ t tmp _ hrows hcols hsmp,
        copy_from_tmp _ hk1 m _ t tmp _ c0 htmp hev'.1 hc0r hc0c _ hev'.2⟩

/-- Witness of C12: the sparse target is the right operand itself (address 2),
the temporary lives at address 5. -/
theorem assign_sparse_via_temporary_witness :
    ∃ m', sampleSub.assignSparse false true sampleMemory 2 5 = .ok m' ∧
      (m' 2).elem 1 0 = -4 - 2 := by
  obtain ⟨m', h1, h2⟩ := (assign_sparse_via_temporary false true sampleMemory 2 5
    sampleL sampleR sampleSub rfl rfl rfl (by decide)
    (container_disjoint _ 1 5 (by decide)) (container_disjoint _ 2 5 (by decide))).2.2.2.1
  exact ⟨m', h1, h2 1 0 (by decide) (by decide)⟩

/-- C16: `heev( A, w, jobz, uplo )` fails with an invalid-argument error
whenever `A` is not square, or `jobz` is neither `'V'` nor `'N'`, or `uplo` is
neither `'L'` nor `'U'`; the error is raised before `w` is resized, before any
workspace is allocated and before the LAPACK kernel is called: the state (`A`,
`w` and the recorded effects) is exactly the initial one, for every kernel. -/
theorem heev_invalid_arguments {CT BT : Type} (kernel : Kernel CT BT) (s : HeevState CT BT)
    (jobz uplo : Char)
    (h : s.A.rows ≠ s.A.columns ∨ (jobz ≠ 'V' ∧ jobz ≠ 'N') ∨ (uplo ≠ 'L' ∧ uplo ≠ 'U')) :
    (∃ msg, (heev kernel s jobz uplo).exception = some (.invalid_argument msg)) ∧
      (heev kernel s jobz uplo).state = s ∧
      (heev kernel s jobz uplo).state.trace = s.trace ∧
      ∀ kernel' : Kernel CT BT, heev kernel' s jobz uplo = heev kernel s jobz uplo := by
  obtain ⟨h1, h2⟩ := heev_rejected kernel s jobz uplo h
  refine ⟨h1, h2, by rw [h2], ?_⟩
  intro kernel'
  by_cases hsq : s.A.rows = s.A.columns
  · by_cases hj : jobz ≠ 'V' ∧ jobz ≠ 'N'
    · rw [heev_bad_jobz kernel s jobz uplo hsq hj, heev_bad_jobz kernel' s jobz uplo hsq hj]
    · have hu : uplo ≠ 'L' ∧ uplo ≠ 'U' := by
        rcases h with h | h | h
        · exact absurd hsq h
        · exact absurd h hj
        · exact h
      rw [heev_bad_uplo kernel s jobz uplo hsq hj hu, heev_bad_uplo kernel' s jobz uplo hsq hj hu]
  · rw [heev_not_square kernel s jobz uplo hsq, heev_not_square kernel' s jobz uplo hsq]

/-- Witness of C16: a 2x3 matrix is rejected and nothing has happened. -/
theorem heev_invalid_arguments_witness :
    (heev (sampleKernel 0) sampleHeevNonSquare 'V' 'L').exception =
        some (.invalid_argument "Invalid non-square matrix provided") ∧
      (heev (sampleKernel 0) sampleHeevNonSquare 'V' 'L').state.trace = [] :=
  ⟨rfl, (heev_invalid_arguments (sampleKernel 0) sampleHeevNonSquare 'V' 'L'
    (Or.inl (by decide))).2.2.1⟩

/-- C17: for valid arguments (square `A` of order `n ≥ 1` with order and
spacing representable as `int`, `jobz` in `'V'`,`'N'`, `uplo` in `'L'`,`'U'`,
`w` resizable to `n`), `heev` raises the computation-failed error if and only
if the LAPACK kernel reports `info > 0`, and returns normally when `info = 0`;
the computation-failed error is not an invalid-argument error. -/
theorem heev_computation_failure {CT BT : Type} (kernel : Kernel CT BT) (s : HeevState CT BT)
    (jobz uplo : Char) (hsq : s.A.rows = s.A.columns) (hn1 : 1 ≤ s.A.rows)
    (hjobz : jobz = 'V' ∨ jobz = 'N') (huplo : uplo = 'L' ∨ uplo = 'U')
    (hw : s.w.resizable = true ∨ s.w.size = s.A.rows)
    (hn : s.A.rows ≤ 2147483647) (hlda : s.A.spacing ≤ 2147483647) :
    ((heev kernel s jobz uplo).exception =
          some (BLAZE_THROW_LAPACK_ERROR "Eigenvalue computation failed") ↔
        0 < (kernel (heevKernelCall s.A jobz uplo) s.A.data s.w.data).info) ∧
      ((kernel (heevKernelCall s.A jobz uplo) s.A.data s.w.data).info = 0 →
        (heev kernel s jobz uplo).exception = none) ∧
      (∀ msg, (heev kernel s jobz uplo).exception ≠ some (.invalid_argument msg)) ∧
      (∀ msg msg', BLAZE_THROW_LAPACK_ERROR msg ≠ .invalid_argument msg') := by
  rw [heev_valid kernel s jobz uplo hsq hn1 hjobz huplo hw hn hlda]
  refine ⟨?_, ?_, ?_, ?_⟩
  · by_cases hneg : (kernel (heevKernelCall s.A jobz uplo) s.A.data s.w.data).info < 0
    · rw [if_pos hneg]
      constructor
      · intro h; cases h
      · intro h; omega
    · rw [if_neg hneg]
      by_cases hpos : (kernel (heevKernelCall s.A jobz uplo) s.A.data s.w.data).info > 0
      · rw [if_pos hpos]
        exact ⟨fun _ => hpos, fun _ => rfl⟩
      · rw [if_neg hpos]
        constructor
        · intro h; cases h
        · intro h; exact absurd h hpos
  · intro h0
    rw [if_neg (by omega), if_neg (by omega)]
  · intro msg
    split
    · intro h; cases h
    · split
      · intro h; cases h
      · intro h; cases h
  · intro msg msg' h
    cases h

/-- Witness of C17: a kernel reporting `info = 1` on the 2x2 sample matrix. -/
theorem heev_computation_failure_witness :
    (heev (sampleKernel 1) sampleHeevState 'V' 'U').exception =
      some (.runtime_error "Eigenvalue computation failed") :=
  (heev_computation_failure (sampleKernel 1) sampleHeevState 'V' 'U' rfl (by decide)
    (Or.inl rfl) (Or.inr rfl) (Or.inl rfl) (by decide) (by decide)).1.mpr (by decide)

/-- C18, as stated, fails: when the kernel reports `info = 1` for the valid 2x2
sample arguments, `heev` fails with the computation-failed error
(`std::runtime_error`), which is not an invalid-argument error. -/
theorem heev_failure_not_invalid_argument :
    (heev (sampleKernel 1) sampleHeevState 'V' 'U').exception =
        some (.runtime_error "Eigenvalue computation failed") ∧
      ¬ ∃ msg, (heev (sampleKernel 1) sampleHeevState 'V' 'U').exception =
        some (.invalid_argument msg) := by
  refine ⟨rfl, ?_⟩
  rintro ⟨msg, h⟩
  cases h

/-- C18, amended: every argument failure of `heev` (`A` not square; `w` a fixed
size vector of non-matching size; `jobz` neither `'V'` nor `'N'`; `uplo`
neither `'L'` nor `'U'`) is reported as an invalid-argument error, and a
failed eigenvalue computation (`info > 0` for valid arguments) is reported as
the computation-failed error `std::runtime_error`. -/
theorem heev_failure_kinds {CT BT : Type} (kernel : Kernel CT BT) (s : HeevState CT BT)
    (jobz uplo : Char) :
    ((s.A.rows ≠ s.A.columns ∨ (jobz ≠ 'V' ∧ jobz ≠ 'N') ∨ (uplo ≠ 'L' ∧ uplo ≠ 'U')) →
        ∃ msg, (heev kernel s jobz uplo).exception = some (.invalid_argument msg)) ∧
      (s.A.rows = s.A.columns → (jobz = 'V' ∨ jobz = 'N') → (uplo = 'L' ∨ uplo = 'U') →
        s.w.resizable = false → s.w.size ≠ s.A.rows →
        (heev kernel s jobz uplo).exception =
          some (.invalid_argument "Vector cannot be resized")) ∧
      (s.A.rows = s.A.columns → 1 ≤ s.A.rows → (jobz = 'V' ∨ jobz = 'N') →
        (uplo = 'L' ∨ uplo = 'U') → (s.w.resizable = true ∨ s.w.size = s.A.rows) →
        s.A.rows ≤ 2147483647 → s.A.spacing ≤ 2147483647 →
        0 < (kernel (heevKernelCall s.A jobz uplo) s.A.data s.w.data).info →
        (heev kernel s jobz uplo).exception =
          some (.runtime_error "Eigenvalue computation failed")) := by
  refine ⟨fun h => (heev_rejected kernel s jobz uplo h).1, ?_, ?_⟩
  · intro hsq hjobz huplo hfix hsize
    rw [heev_resize_fails kernel s jobz uplo hsq hjobz huplo hfix hsize]
  · intro hsq hn1 hjobz huplo hw hn hlda hinfo
    rw [heev_valid kernel s jobz uplo hsq hn1 hjobz huplo hw hn hlda,
      if_neg (by omega), if_pos hinfo]

/-- Witness of C18 (amended): an invalid `jobz` on the 2x2 sample arguments. -/
theorem heev_failure_kinds_witness :
    ∃ msg, (heev (sampleKernel 0) sampleHeevState 'X' 'U').exception =
      some (.invalid_argument msg) :=
  (heev_failure_kinds (sampleKernel 0) sampleHeevState 'X' 'U').1
    (Or.inr (Or.inl (by decide)))

/-- C19: `heev` uses the triangle of `A` that the caller names. For valid
arguments the kernel is called once, with `jobz` unchanged, with `uplo`
unchanged for a column-major `A` and with the opposite flag for a row-major
`A`; and for every leading dimension the storage offsets the column-major
kernel reads under that flag are exactly the offsets of the requested triangle
of `A` in the storage order of `A`. -/
theorem heev_uses_named_triangle {CT BT : Type} (kernel : Kernel CT BT) (s : HeevState CT BT)
    (jobz uplo : Char) (hsq : s.A.rows = s.A.columns) (hn1 : 1 ≤ s.A.rows)
    (hjobz : jobz = 'V' ∨ jobz = 'N') (huplo : uplo = 'L' ∨ uplo = 'U')
    (hw : s.w.resizable = true ∨ s.w.size = s.A.rows)
    (hn : s.A.rows ≤ 2147483647) (hlda : s.A.spacing ≤ 2147483647) :
    (heev kernel s jobz uplo).state.trace =
        s.trace ++ [.resize s.A.rows] ++
          [.allocate (wrapInt32 (10 * (s.A.rows : Int) + 2)),
           .allocate (wrapInt32 (3 * (s.A.rows : Int) - 2))] ++
          [.kernel (heevKernelCall s.A jobz uplo)] ∧
      (heevKernelCall s.A jobz uplo).jobz = jobz ∧
      (s.A.rowMajor = false → (heevKernelCall s.A jobz uplo).uplo = uplo) ∧
      (s.A.rowMajor = true →
        (heevKernelCall s.A jobz uplo).uplo = if uplo = 'L' then 'U' else 'L') ∧
      (∀ lda off, kernelReads (heevKernelCall s.A jobz uplo).uplo s.A.rows lda off ↔
        requestedTriangle s.A.rowMajor uplo s.A.rows lda off) := by
  refine ⟨?_, rfl, ?_, ?_, ?_⟩
  · rw [heev_valid kernel s jobz uplo hsq hn1 hjobz huplo hw hn hlda]
    split
    · rfl
    · split <;> rfl
  · intro h
    simp [heevKernelCall, h]
  · intro h
    simp [heevKernelCall, h]
  · intro lda off
    cases hrm : s.A.rowMajor with
    | false =>
      simp only [heevKernelCall, hrm, kernelReads, requestedTriangle]
      rfl
    | true =>
      simp only [heevKernelCall, hrm, kernelReads, requestedTriangle, ↓reduceIte]
      constructor
      · rintro ⟨r, c, h1, h2⟩
        refine ⟨c, r, (inTriangle_swap uplo huplo _ r c).mp h1, ?_⟩
        rw [h2, columnMajorOffset, rowMajorOffset, Nat.add_comm]
      · rintro ⟨i, j, h1, h2⟩
        refine ⟨j, i, (inTriangle_swap uplo huplo _ j i).mpr h1, ?_⟩
        rw [h2, columnMajorOffset, rowMajorOffset, Nat.add_comm]

/-- Witness of C19: the row-major 2x2 sample matrix with `uplo = 'L'`; the
kernel is called with `'U'`. -/
theorem heev_uses_named_triangle_witness :
    (heev (sampleKernel 0) sampleHeevState 'N' 'L').state.trace =
      [.resize 2, .allocate 22, .allocate 4,
       .kernel { jobz := 'N', uplo := 'U', n := 2, lda := 2, lwork := 22 }] :=
  (heev_uses_named_triangle (sampleKernel 0) sampleHeevState 'N' 'L' rfl (by decide)
    (Or.inr rfl) (Or.inl rfl) (Or.inl rfl) (by decide) (by decide)).1

/-- C20, as stated, fails: for two row vector types neither operand is a column
vector, yet `CrossExprTrait<T1,T2>::Type` is the type of the cross product
expression and not `INVALID_TYPE`. -/
theorem crossExprTrait_row_vectors :
    sampleRowVector.IsColumnVector = false ∧
      CrossExprTrait "T1 % T2" sampleRowVector sampleRowVector = .valid "T1 % T2" ∧
      CrossExprTrait "T1 % T2" sampleRowVector sampleRowVector ≠ .INVALID_TYPE := by
  decide

/-- C20, amended: `CrossExprTrait<T1,T2>::Type` is the type of the cross product
expression `T1 % T2` exactly when `T1` and `T2` (references removed) are both
column vectors or both row vectors; in every other case it is `INVALID_TYPE`. -/
theorem crossExprTrait_spec {τ : Type} (Result : τ) (T1 T2 : CrossOperand) :
    (CrossExprTrait Result T1 T2 = .valid Result ↔
        (T1.IsColumnVector = true ∧ T2.IsColumnVector = true) ∨
          (T1.IsRowVector = true ∧ T2.IsRowVector = true)) ∧
      (CrossExprTrait Result T1 T2 = .INVALID_TYPE ↔
        ¬ ((T1.IsColumnVector = true ∧ T2.IsColumnVector = true) ∨
          (T1.IsRowVector = true ∧ T2.IsRowVector = true))) := by
  unfold CrossExprTrait
  by_cases h : ((T1.IsColumnVector && T2.IsColumnVector) || (T1.IsRowVector && T2.IsRowVector))
      = true
  · rw [if_pos h]
    simp only [Bool.or_eq_true, Bool.and_eq_true] at h
    simp [h]
  · rw [if_neg h]
    simp only [Bool.or_eq_true, Bool.and_eq_true] at h
    simp [h]

/-- C27 (trait hierarchy): if for both operand types `IsStrictlyLower` implies
`IsLower`, `IsUniLower` implies `IsLower`, and `IsUniLower` and
`IsStrictlyLower` are never both true (and the same for the upper variants),
then the flags computed for `Sub(L,R)` satisfy the same implications. -/
theorem triangular_hierarchy_preserved (MT1 MT2 : TypeTraits) (SO : Bool)
    (h1 : MT1.triangularConsistent) (h2 : MT2.triangularConsistent) :
    (DMatSMatSubExpr.traits MT1 MT2 SO).triangularConsistent := by
  obtain ⟨a1, a2, a3, a4, a5, a6⟩ := h1
  obtain ⟨b1, b2, b3, b4, b5, b6⟩ := h2
  simp only [TypeTraits.triangularConsistent, DMatSMatSubExpr.traits, DMatSMatSubExpr.IsLower,
    DMatSMatSubExpr.IsUniLower, DMatSMatSubExpr.IsStrictlyLower, DMatSMatSubExpr.IsUpper,
    DMatSMatSubExpr.IsUniUpper, DMatSMatSubExpr.IsStrictlyUpper, Bool.and_eq_true]
  refine ⟨?_, ?_, ?_, ?_, ?_, ?_⟩
  · rintro ⟨x, y⟩; exact ⟨a1 x, b1 y⟩
  · rintro ⟨x, y⟩; exact ⟨a2 x, b1 y⟩
  · rintro ⟨⟨x, -⟩, ⟨y, -⟩⟩; exact a3 ⟨x, y⟩
  · rintro ⟨x, y⟩; exact ⟨a4 x, b4 y⟩
  · rintro ⟨x, y⟩; exact ⟨a5 x, b4 y⟩
  · rintro ⟨⟨x, -⟩, ⟨y, -⟩⟩; exact a6 ⟨x, y⟩

/-- Witness of C27: a unit lower left operand type and a strictly lower right
operand type. -/
theorem triangular_hierarchy_preserved_witness :
    (DMatSMatSubExpr.traits sampleUni.traits sampleR.traits false).triangularConsistent ∧
      (DMatSMatSubExpr.traits sampleUni.traits sampleR.traits false).IsUniLower = true ∧
      (DMatSMatSubExpr.traits sampleUni.traits sampleR.traits false).IsLower = true :=
  ⟨triangular_hierarchy_preserved sampleUni.traits sampleR.traits false
      (by unfold TypeTraits.triangularConsistent; decide)
      (by unfold TypeTraits.triangularConsistent; decide),
    rfl, rfl⟩

/-- C28 (shape errors survive restructuring): for a successfully built
`Sub(L,R)` and a dense `X`, the restructured `(L - R) + X` and `(L - R) - X`
raise the invalid-argument (size mismatch) error if and only if the rows or
the columns of `X` differ from those of `L`. The restructuring operators make
no check of their own: the error is the one of the inner dense/dense operator,
and once that operator succeeds the check of the outer subtraction passes. -/
theorem restructuring_shape_errors [Ring α] (m : Memory α) (L R X : Operand α)
    (e : DMatSMatSubExpr α) (he : operatorMinus m L R = .ok e) :
    (e.operatorPlus m X = .error (.invalid_argument "Matrix sizes do not match") ↔
        (X.rows m ≠ L.rows m ∨ X.columns m ≠ L.columns m)) ∧
      (e.operatorMinus m X = .error (.invalid_argument "Matrix sizes do not match") ↔
        (X.rows m ≠ L.rows m ∨ X.columns m ≠ L.columns m)) ∧
      (e.operatorPlus m X =
        (operatorPlusDense m L X).bind (fun s => operatorMinus m s R)) ∧
      (e.operatorMinus m X =
        (operatorMinusDense m L X).bind (fun s => operatorMinus m s R)) ∧
      ((X.rows m ≠ L.rows m ∨ X.columns m ≠ L.columns m) →
        operatorPlusDense m L X = .error (.invalid_argument "Matrix sizes do not match") ∧
        operatorMinusDense m L X = .error (.invalid_argument "Matrix sizes do not match")) ∧
      (∀ s, operatorPlusDense m L X = .ok s → ∃ e', operatorMinus m s R = .ok e') ∧
      (∀ s, operatorMinusDense m L X = .ok s → ∃ e', operatorMinus m s R = .ok e') := by
  obtain ⟨rfl, hr, hc⟩ := operatorMinus_inv m L R e he
  have hmis : (X.rows m ≠ L.rows m ∨ X.columns m ≠ L.columns m) →
      (L.rows m ≠ X.rows m ∨ L.columns m ≠ X.columns m) := by
    rintro (h | h)
    · exact Or.inl (Ne.symm h)
    · exact Or.inr (Ne.symm h)
  have hplus : DMatSMatSubExpr.operatorPlus m { lhs_ := L, rhs_ := R } X =
      (operatorPlusDense m L X).bind (fun s => operatorMinus m s R) := rfl
  have hminus : DMatSMatSubExpr.operatorMinus m { lhs_ := L, rhs_ := R } X =
      (operatorMinusDense m L X).bind (fun s => operatorMinus m s R) := rfl
  refine ⟨?_, ?_, hplus, hminus, ?_, ?_, ?_⟩
  · constructor
    · intro h
      by_contra hn
      push_neg at hn
      rw [hplus, operatorPlusDense_ok m L X hn.1.symm hn.2.symm] at h
      have h2 := operatorMinus_ok m (DMatDMatAddExpr L X) R hr hc
      simp only [Except.bind] at h
      rw [h2] at h
      cases h
    · intro h
      rw [hplus, operatorPlusDense_error m L X (hmis h)]
      rfl
  · constructor
    · intro h
      by_contra hn
      push_neg at hn
      rw [hminus, operatorMinusDense_ok m L X hn.1.symm hn.2.symm] at h
      have h2 := operatorMinus_ok m (DMatDMatSubExpr L X) R hr hc
      simp only [Except.bind] at h
      rw [h2] at h
      cases h
    · intro h
      rw [hminus, operatorMinusDense_error m L X (hmis h)]
      rfl
  · intro h
    exact ⟨operatorPlusDense_error m L X (hmis h), operatorMinusDense_error m L X (hmis h)⟩
  · intro s hs
    by_cases hn : L.rows m ≠ X.rows m ∨ L.columns m ≠ X.columns m
    · rw [operatorPlusDense_error m L X hn] at hs
      cases hs
    · push_neg at hn
      rw [operatorPlusDense_ok m L X hn.1 hn.2] at hs
      cases hs
      exact ⟨_, operatorMinus_ok m (DMatDMatAddExpr L X) R hr hc⟩
  · intro s hs
    by_cases hn : L.rows m ≠ X.rows m ∨ L.columns m ≠ X.columns m
    · rw [operatorMinusDense_error m L X hn] at hs
      cases hs
    · push_neg at hn
      rw [operatorMinusDense_ok m L X hn.1 hn.2] at hs
      cases hs
      exact ⟨_, operatorMinus_ok m (DMatDMatSubExpr L X) R hr hc⟩

/-- Witness of C28: adding the 2x2 sample matrix to the 3x3 sample expression. -/
theorem restructuring_shape_errors_witness :
    sampleSub.operatorPlus sampleMemory sampleSmall =
        .error (.invalid_argument "Matrix sizes do not match") ∧
      sampleSub.operatorMinus sampleMemory sampleSmall =
        .error (.invalid_argument "Matrix sizes do not match") := by
  have h := restructuring_shape_errors sampleMemory sampleL sampleR sampleSmall sampleSub rfl
  exact ⟨h.1.mpr (Or.inl (by decide)), h.2.1.mpr (Or.inl (by decide))⟩

/-- C29 (workspaces of `heev`): for order 0 `heev` returns right after resizing
`w` to length 0, without allocating a workspace or calling the kernel; for
every order `n ≥ 1` with `10*n + 2` representable as a 32-bit signed `int`,
the complex workspace has length `lwork = 10*n + 2 ≥ max(1, 2*n - 1)`, the
real workspace has length `3*n - 2 = max(1, 3*n - 2) ≥ 1`, and `lwork` is the
length passed to the kernel. -/
theorem heev_workspace {CT BT : Type} (kernel : Kernel CT BT) (s : HeevState CT BT)
    (jobz uplo : Char) (hsq : s.A.rows = s.A.columns)
    (hjobz : jobz = 'V' ∨ jobz = 'N') (huplo : uplo = 'L' ∨ uplo = 'U')
    (hw : s.w.resizable = true ∨ s.w.size = s.A.rows) (hlda : s.A.spacing ≤ 2147483647) :
    (s.A.rows = 0 →
        heev kernel s jobz uplo =
          { exception := none,
            state := { s with w := { s.w with size := 0 },
                              trace := s.trace ++ [.resize 0] } }) ∧
      (1 ≤ s.A.rows → 10 * (s.A.rows : Int) + 2 ≤ 2147483647 →
        (heev kernel s jobz uplo).state.trace =
            s.trace ++ [.resize s.A.rows] ++
              [.allocate (10 * (s.A.rows : Int) + 2), .allocate (3 * (s.A.rows : Int) - 2)] ++
              [.kernel { jobz := jobz,
                         uplo := if s.A.rowMajor then (if uplo = 'L' then 'U' else 'L') else uplo,
                         n := (s.A.rows : Int), lda := (s.A.spacing : Int),
                         lwork := 10 * (s.A.rows : Int) + 2 }] ∧
          max 1 (2 * (s.A.rows : Int) - 1) ≤ 10 * (s.A.rows : Int) + 2 ∧
          3 * (s.A.rows : Int) - 2 = max 1 (3 * (s.A.rows : Int) - 2) ∧
          1 ≤ 3 * (s.A.rows : Int) - 2) := by
  refine ⟨fun hn0 => heev_zero kernel s jobz uplo hsq hn0 hjobz huplo hw hlda, ?_⟩
  intro hn1 hrep
  have hn : s.A.rows ≤ 2147483647 := by omega
  have hl : wrapInt32 (10 * (s.A.rows : Int) + 2) = 10 * (s.A.rows : Int) + 2 :=
    wrapInt32_of_range _ (by omega) hrep
  have hr : wrapInt32 (3 * (s.A.rows : Int) - 2) = 3 * (s.A.rows : Int) - 2 :=
    wrapInt32_of_range _ (by omega) (by omega)
  refine ⟨?_, ?_, ?_, ?_⟩
  · rw [heev_valid kernel s jobz uplo hsq hn1 hjobz huplo hw hn hlda]
    have htr : (heevFinalState kernel s jobz uplo).trace =
        s.trace ++ [.resize s.A.rows] ++
          [.allocate (10 * (s.A.rows : Int) + 2), .allocate (3 * (s.A.rows : Int) - 2)] ++
          [.kernel { jobz := jobz,
                     uplo := if s.A.rowMajor then (if uplo = 'L' then 'U' else 'L') else uplo,
                     n := (s.A.rows : Int), lda := (s.A.spacing : Int),
                     lwork := 10 * (s.A.rows : Int) + 2 }] := by
      simp only [heevFinalState, heevKernelCall, hl, hr]
    split
    · exact htr
    · split <;> exact htr
  · omega
  · omega
  · omega

/-- Witness of C29: the 2x2 sample arguments give workspaces of length 22 and 4. -/
theorem heev_workspace_witness :
    (heev (sampleKernel 0) sampleHeevState 'N' 'L').state.trace =
      [.resize 2, .allocate 22, .allocate 4,
       .kernel { jobz := 'N', uplo := 'U', n := 2, lda := 2, lwork := 22 }] :=
  ((heev_workspace (sampleKernel 0) sampleHeevState 'N' 'L' rfl (Or.inr rfl) (Or.inl rfl)
    (Or.inl rfl) (by decide)).2 (by decide) (by decide)).1

/-- C25, as stated, fails: for a dense and a sparse operand type that both
report `SmpAssignable`, the expression `Sub(L,R)` does not report
`SmpAssignable`, and its expression specific SMP functions are not selected. -/
theorem smp_eligibility_not_operand_check :
    sampleSmpDense.smpAssignable = true ∧ sampleSmpSparse.smpAssignable = true ∧
      (DMatSMatSubExpr.traits sampleSmpDense sampleSmpSparse false).smpAssignable = false ∧
      DMatSMatSubExpr.UseSMPAssign sampleSmpDense sampleSmpSparse = false := by
  decide

/-- C25, amended: `Sub(L,R)` itself never reports `SmpAssignable`, whatever its
operands report. Its expression specific SMP functions are selected exactly
when at least one operand reports `SmpAssignable = false`, and the default
strategy exactly when both operands report `SmpAssignable`. The selected
expression specific `smpAssign` evaluates operand by operand through the SMP
kernels: `smpSubAssign` of the right operand alone when the left operand is the
target itself, `smpAssign` of the left operand followed by `smpSubAssign` of
the right operand otherwise. -/
theorem smp_selection_spec [Sub α] (MT1 MT2 : TypeTraits) (SO : Bool) (K : SmpKernels α)
    (m : Memory α) (t : Addr) (e : DMatSMatSubExpr α)
    (fallback : Except Exception (Memory α)) :
    (DMatSMatSubExpr.traits MT1 MT2 SO).smpAssignable = false ∧
      (DMatSMatSubExpr.UseSMPAssign MT1 MT2 = true ↔
        (MT1.smpAssignable = false ∨ MT2.smpAssignable = false)) ∧
      ((MT1.smpAssignable = false ∨ MT2.smpAssignable = false) →
        DMatSMatSubExpr.selectSMP MT1 MT2 (e.smpAssign K m t) fallback = e.smpAssign K m t) ∧
      ((MT1.smpAssignable = true ∧ MT2.smpAssignable = true) →
        DMatSMatSubExpr.selectSMP MT1 MT2 (e.smpAssign K m t) fallback = fallback) ∧
      ((m t).rows = e.rows m → (m t).columns = e.columns m →
        e.smpAssign K m t = .ok
          (if (!e.lhs_.traits.isExpression && isSame t e.lhs_) = true then
            K.smpSubAssign m t e.rhs_
          else K.smpSubAssign (K.smpAssign m t e.lhs_) t e.rhs_)) := by
  refine ⟨rfl, ?_, ?_, ?_, fun h1 h2 => smpAssign_ok K m t e h1 h2⟩
  · cases h1 : MT1.smpAssignable <;> cases h2 : MT2.smpAssignable <;>
      simp [DMatSMatSubExpr.UseSMPAssign, h1, h2]
  · intro h
    have : DMatSMatSubExpr.UseSMPAssign MT1 MT2 = true := by
      rcases h with h | h <;> simp [DMatSMatSubExpr.UseSMPAssign, h]
    simp [DMatSMatSubExpr.selectSMP, this]
  · intro h
    have : DMatSMatSubExpr.UseSMPAssign MT1 MT2 = false := by
      simp [DMatSMatSubExpr.UseSMPAssign, h.1, h.2]
    simp [DMatSMatSubExpr.selectSMP, this]

/-- Witness of C25 (amended): the sample operands, of which the right one does
not report `SmpAssignable`, select the expression specific `smpAssign`. -/
theorem smp_selection_spec_witness :
    DMatSMatSubExpr.selectSMP sampleL.traits sampleR.traits
        (sampleSub.smpAssign serialKernels sampleTargetMemory 4)
        (.error (.runtime_error "default strategy")) =
      sampleSub.smpAssign serialKernels sampleTargetMemory 4 :=
  (smp_selection_spec sampleL.traits sampleR.traits false serialKernels sampleTargetMemory 4
    sampleSub (.error (.runtime_error "default strategy"))).2.2.1 (Or.inr rfl)

/-- C26 (the SMP dispatch refines the serial one): `smpAssign`, `smpAddAssign`
and `smpSubAssign` are the serial `assign`, `addAssign` and `subAssign` with
each kernel replaced by its SMP counterpart (same steps, same in-place
shortcut condition): instantiated with the serial kernels they are the serial
functions. Hence, if every SMP kernel computes the same target as its serial
kernel, the SMP and the serial dispatch give identical outcomes; this is the
case for the data-parallel kernels, in every write order, when the right
operand is disjoint from the target and the left operand is disjoint from it
or is the target itself. -/
theorem smp_dispatch_refines_serial [Ring α] (m : Memory α) (t : Addr)
    (e : DMatSMatSubExpr α) :
    (e.smpAssign serialKernels m t = e.assign m t ∧
        e.smpAddAssign serialKernels m t = e.addAssign m t ∧
        e.smpSubAssign serialKernels m t = e.subAssign m t) ∧
      (∀ K : SmpKernels α, K.sameTargetAsSerial →
        e.smpAssign K m t = e.assign m t ∧ e.smpAddAssign K m t = e.addAssign m t ∧
          e.smpSubAssign K m t = e.subAssign m t) ∧
      (∀ sched : List (Nat × Nat) → List (Nat × Nat), (∀ l, (sched l).Perm l) →
        (e.lhs_.disjointFrom t ∨ ∃ tr, e.lhs_ = Operand.container tr t) →
        e.rhs_.disjointFrom t →
        e.smpAssign (scheduledKernels sched) m t = e.assign m t ∧
          e.smpAddAssign (scheduledKernels sched) m t = e.addAssign m t ∧
          e.smpSubAssign (scheduledKernels sched) m t = e.subAssign m t) := by
  refine ⟨smp_serialKernels m t e, ?_, ?_⟩
  · intro K hK
    rw [sameTarget_eq_serial K hK]
    exact smp_serialKernels m t e
  · intro sched hperm hL hR
    have hk1 : KernelSpec (fun (_ : α) v => v) (scheduledKernels sched).smpAssign :=
      smpCompoundAssign_spec _ sched hperm
    have hk2 : KernelSpec (fun (x : α) v => x + v) (scheduledKernels sched).smpAddAssign :=
      smpCompoundAssign_spec _ sched hperm
    have hk3 : KernelSpec (fun (x : α) v => x - v) (scheduledKernels sched).smpSubAssign :=
      smpCompoundAssign_spec _ sched hperm
    have eL1 : (scheduledKernels sched).smpAssign m t e.lhs_ = assign m t e.lhs_ :=
      kernelSpec_unique _ _ _ hk1 assign_spec m t _ hL
    have eL2 : (scheduledKernels sched).smpAddAssign m t e.lhs_ = addAssign m t e.lhs_ :=
      kernelSpec_unique _ _ _ hk2 addAssign_spec m t _ hL
    have eL3 : (scheduledKernels sched).smpSubAssign m t e.lhs_ = subAssign m t e.lhs_ :=
      kernelSpec_unique _ _ _ hk3 subAssign_spec m t _ hL
    have eR2 : ∀ m', (scheduledKernels sched).smpAddAssign m' t e.rhs_ = addAssign m' t e.rhs_ :=
      fun m' => kernelSpec_unique _ _ _ hk2 addAssign_spec m' t _ (Or.inl hR)
    have eR3 : ∀ m', (scheduledKernels sched).smpSubAssign m' t e.rhs_ = subAssign m' t e.rhs_ :=
      fun m' => kernelSpec_unique _ _ _ hk3 subAssign_spec m' t _ (Or.inl hR)
    refine ⟨?_, ?_, ?_⟩
    · unfold DMatSMatSubExpr.smpAssign DMatSMatSubExpr.assign
      rw [eL1, eR3, eR3]
    · unfold DMatSMatSubExpr.smpAddAssign DMatSMatSubExpr.addAssign
      rw [eL2, eR3]
    · unfold DMatSMatSubExpr.smpSubAssign DMatSMatSubExpr.subAssign
      rw [eL3, eR2]

/-- Witness of C26: the SMP assignment with the data-parallel kernels in
reverse write order leaves the 3x3 target at address 4 as the serial one does. -/
theorem smp_dispatch_refines_serial_witness :
    sampleSub.smpAssign (scheduledKernels List.reverse) sampleTargetMemory 4 =
      sampleSub.assign sampleTargetMemory 4 :=
  ((smp_dispatch_refines_serial sampleTargetMemory 4 sampleSub).2.2 List.reverse
    (fun l => List.reverse_perm l) (Or.inl (container_disjoint _ 1 4 (by decide)))
    (container_disjoint _ 2 4 (by decide))).1

/-- C21: `DeclSymTrait` ignores `const`, `volatile` and reference qualifiers and
accepts exactly the matrix types. For every type `MT` with decayed type `U`
the trait gives for `MT` what it gives for `U`; for an unqualified `U` this is
`SymmetricMatrix<U>` if `U` is a matrix type and `INVALID_TYPE` otherwise. The
self-reference through `Decay` ends after at most one step (two nested
instantiations always suffice, one for an unqualified type), because the
decayed type carries none of the qualifiers that trigger it. -/
theorem declSymTrait_spec (MT : CxxType) :
    DeclSymTrait 2 MT = DeclSymTrait 1 (Decay_ MT) ∧
      DeclSymTrait 1 (Decay_ MT) =
        some (if IsMatrix (Decay_ MT) then .valid { MT := Decay_ MT } else .INVALID_TYPE) ∧
      ((IsConst MT || IsVolatile MT || IsReference MT) = false →
        DeclSymTrait 1 MT =
          some (if IsMatrix MT then .valid { MT := MT } else .INVALID_TYPE)) ∧
      (IsConst (Decay_ MT) = false ∧ IsVolatile (Decay_ MT) = false ∧
        IsReference (Decay_ MT) = false) ∧
      (∀ depth, DeclSymTrait (depth + 2) MT = DeclSymTrait 2 MT) ∧
      (((IsConst MT || IsVolatile MT || IsReference MT) = true) → DeclSymTrait 1 MT = none) := by
  have hd : (IsConst (Decay_ MT) || IsVolatile (Decay_ MT) || IsReference (Decay_ MT)) = false := by
    simp [decay_unqualified MT]
  refine ⟨?_, declSymTrait_unqualified 0 _ hd, declSymTrait_unqualified 0 MT,
    decay_unqualified MT, ?_, ?_⟩
  · rw [declSymTrait_decay 0 MT, declSymTrait_unqualified 0 _ hd]
  · intro depth
    rw [declSymTrait_decay depth MT, declSymTrait_decay 0 MT]
  · intro h
    rw [DeclSymTrait]
    simp only [h, ↓reduceIte]
    rfl

/-- Witness of C21: `const DynamicMatrix<int,rowMajor>&` gives the symmetric
adaptor of `DynamicMatrix<int,rowMajor>`, `volatile int` gives `INVALID_TYPE`. -/
theorem declSymTrait_spec_witness :
    DeclSymTrait 2 sampleConstRefMatrix =
        some (.valid { MT := { base := .matrix "DynamicMatrix<int,rowMajor>" } }) ∧
      DeclSymTrait 2 sampleVolatileInt = some .INVALID_TYPE :=
  ⟨((declSymTrait_spec sampleConstRefMatrix).1).trans (declSymTrait_spec sampleConstRefMatrix).2.1,
    ((declSymTrait_spec sampleVolatileInt).1).trans (declSymTrait_spec sampleVolatileInt).2.1⟩

/-- C22 (content of a `StrictlyLowerMatrix`): for a square matrix `M`,
construction from `M` and assignment of `M` succeed if and only if
`M(i,j) = 0` for every `j ≥ i`; on success the adaptor holds exactly `M`
(its size and its elements); otherwise an invalid-argument error is raised. -/
theorem strictlyLower_content {α : Type} [Zero α] [DecidableEq α]
    (lower : StrictlyLowerMatrix α) (M : Container α) (hsq : M.rows = M.columns) :
    ((∃ r, StrictlyLowerMatrix.construct M = .ok r) ↔
        ∀ i, i < M.rows → ∀ j, j < M.columns → i ≤ j → M.elem i j = 0) ∧
      ((∃ r, lower.assignMatrix M = .ok r) ↔
        ∀ i, i < M.rows → ∀ j, j < M.columns → i ≤ j → M.elem i j = 0) ∧
      (∀ r, StrictlyLowerMatrix.construct M = .ok r ∨ lower.assignMatrix M = .ok r →
        r.matrix_ = M) ∧
      (¬ (∀ i, i < M.rows → ∀ j, j < M.columns → i ≤ j → M.elem i j = 0) →
        (∃ what, StrictlyLowerMatrix.construct M = .error (.invalid_argument what)) ∧
          ∃ what, lower.assignMatrix M = .error (.invalid_argument what)) := by
  have hiff : M.isStrictlyLower = true ↔
      ∀ i, i < M.rows → ∀ j, j < M.columns → i ≤ j → M.elem i j = 0 := by
    rw [Container.isStrictlyLower_iff]
    exact ⟨fun h => h.2, fun h => ⟨hsq, h⟩⟩
  refine ⟨?_, ?_, ?_, ?_⟩
  · rw [← hiff]
    exact StrictlyLowerMatrix.restricted_ok_iff M _
  · rw [← hiff]
    exact StrictlyLowerMatrix.restricted_ok_iff M _
  · intro r h
    rcases h with h | h
    · exact (StrictlyLowerMatrix.restricted_inv M _ r h).1
    · exact (StrictlyLowerMatrix.restricted_inv M _ r h).1
  · intro hn
    rw [← hiff] at hn
    exact ⟨⟨_, StrictlyLowerMatrix.restricted_error M _ hn⟩,
      ⟨_, StrictlyLowerMatrix.restricted_error M _ hn⟩⟩

/-- Witness of C22: the 3x3 matrix with `M(1,0) = -4`, `M(2,0) = 7` is accepted
by construction and by assignment, the same matrix with `M(0,2) = 5` is
rejected by both with an invalid-argument error. -/
theorem strictlyLower_content_witness :
    sampleLowerContent.rows = sampleLowerContent.columns ∧
      sampleNonLowerContent.rows = sampleNonLowerContent.columns ∧
      (∃ r, StrictlyLowerMatrix.construct sampleLowerContent = .ok r ∧
        r.matrix_ = sampleLowerContent) ∧
      (∃ r, sampleLower.assignMatrix sampleLowerContent = .ok r ∧
        r.matrix_ = sampleLowerContent) ∧
      (∃ what, StrictlyLowerMatrix.construct sampleNonLowerContent =
        .error (.invalid_argument what)) ∧
      (∃ what, sampleLower.assignMatrix sampleNonLowerContent =
        .error (.invalid_argument what)) := by
  have h := strictlyLower_content sampleLower sampleLowerContent rfl
  have h' := strictlyLower_content sampleLower sampleNonLowerContent rfl
  have hz : ∀ i, i < sampleLowerContent.rows → ∀ j, j < sampleLowerContent.columns → i ≤ j →
      sampleLowerContent.elem i j = 0 := by decide
  have hnz : ¬ ∀ i, i < sampleNonLowerContent.rows → ∀ j, j < sampleNonLowerContent.columns →
      i ≤ j → sampleNonLowerContent.elem i j = 0 := by decide
  obtain ⟨r1, hr1⟩ := h.1.mpr hz
  obtain ⟨r2, hr2⟩ := h.2.1.mpr hz
  exact ⟨rfl, rfl, ⟨r1, hr1, h.2.2.1 r1 (Or.inl hr1)⟩, ⟨r2, hr2, h.2.2.1 r2 (Or.inr hr2)⟩,
    (h'.2.2.2 hnz).1, (h'.2.2.2 hnz).2⟩

/-- C23 (assignment to a row of a `StrictlyLowerMatrix`): for an `n x n` strictly
lower matrix, a row index `i < n` and a vector `v` of length `n`,
`row( lower, i ) = v` succeeds if and only if `v[j] = 0` for every `j ≥ i`; on
success the size is unchanged, row `i` equals `v`, every other row is unchanged
and the matrix is still strictly lower; otherwise an invalid-argument error is
raised. -/
theorem strictlyLower_row_assign {α : Type} [Zero α] [DecidableEq α]
    (lower : StrictlyLowerMatrix α) (i : Nat) (v : RowVector α)
    (hl : lower.matrix_.isStrictlyLower = true) (hi : i < lower.matrix_.rows)
    (hv : v.size = lower.matrix_.columns) :
    ((∃ r, lower.assignRow i v = .ok r) ↔ ∀ j, j < v.size → i ≤ j → v.elem j = 0) ∧
      (∀ r, lower.assignRow i v = .ok r →
        r.matrix_.rows = lower.matrix_.rows ∧ r.matrix_.columns = lower.matrix_.columns ∧
          (∀ j, r.matrix_.elem i j = v.elem j) ∧
          (∀ a j, a ≠ i → r.matrix_.elem a j = lower.matrix_.elem a j) ∧
          r.matrix_.isStrictlyLower = true) ∧
      (¬ (∀ j, j < v.size → i ≤ j → v.elem j = 0) →
        ∃ what, lower.assignRow i v = .error (.invalid_argument what)) := by
  obtain ⟨hsq, hz⟩ := (Container.isStrictlyLower_iff _).mp hl
  have hdef : lower.assignRow i v =
      StrictlyLowerMatrix.restricted
        { lower.matrix_ with
          elem := fun a b => if a = i then v.elem b else lower.matrix_.elem a b }
        "Invalid assignment to restricted matrix" := by
    unfold StrictlyLowerMatrix.assignRow
    rw [if_neg (by omega), if_neg (by simp [hv])]
  have hiff : (Container.isStrictlyLower
        { lower.matrix_ with
          elem := fun a b => if a = i then v.elem b else lower.matrix_.elem a b }) = true ↔
      ∀ j, j < v.size → i ≤ j → v.elem j = 0 := by
    rw [Container.isStrictlyLower_iff]
    constructor
    · rintro ⟨-, h⟩ j hj hij
      have := h i hi j (by rw [← hv]; exact hj) hij
      simpa using this
    · intro h
      refine ⟨hsq, ?_⟩
      intro a ha b hb hab
      by_cases hai : a = i
      · subst hai
        simpa using h b (by rw [hv]; exact hb) hab
      · simpa [hai] using hz a ha b hb hab
  refine ⟨?_, ?_, ?_⟩
  · rw [hdef, ← hiff]
    exact StrictlyLowerMatrix.restricted_ok_iff _ _
  · intro r hr
    rw [hdef] at hr
    obtain ⟨hm, hs⟩ := StrictlyLowerMatrix.restricted_inv _ _ r hr
    rw [hm]
    refine ⟨rfl, rfl, ?_, ?_, hs⟩
    · intro j
      simp
    · intro a j ha
      simp [ha]
  · intro hn
    rw [← hiff] at hn
    rw [hdef]
    exact ⟨_, StrictlyLowerMatrix.restricted_error _ _ hn⟩

/-- Witness of C23: on row 1 of `[[0,0,0],[-4,0,0],[7,0,0]]` the vector `(2,0,0)`
is accepted and gives `[[0,0,0],[2,0,0],[7,0,0]]`; the vectors `(2,1,0)` and
`(2,0,9)` are rejected with an invalid-argument error. -/
theorem strictlyLower_row_assign_witness :
    sampleLower.matrix_.isStrictlyLower = true ∧
      (∃ r, sampleLower.assignRow 1 sampleRow200 = .ok r ∧
        r.matrix_.rows = 3 ∧ r.matrix_.columns = 3 ∧
        r.matrix_.elem 0 0 = 0 ∧ r.matrix_.elem 0 1 = 0 ∧ r.matrix_.elem 0 2 = 0 ∧
        r.matrix_.elem 1 0 = 2 ∧ r.matrix_.elem 1 1 = 0 ∧ r.matrix_.elem 1 2 = 0 ∧
        r.matrix_.elem 2 0 = 7 ∧ r.matrix_.elem 2 1 = 0 ∧ r.matrix_.elem 2 2 = 0) ∧
      (∃ what, sampleLower.assignRow 1 sampleRow210 = .error (.invalid_argument what)) ∧
      (∃ what, sampleLower.assignRow 1 sampleRow209 = .error (.invalid_argument what)) := by
  have hl : sampleLower.matrix_.isStrictlyLower = true := by decide
  have h := strictlyLower_row_assign sampleLower 1 sampleRow200 hl (by decide) rfl
  have h1 := strictlyLower_row_assign sampleLower 1 sampleRow210 hl (by decide) rfl
  have h2 := strictlyLower_row_assign sampleLower 1 sampleRow209 hl (by decide) rfl
  obtain ⟨r, hr⟩ := h.1.mpr (by decide)
  obtain ⟨hrows, hcols, hrow, hother, -⟩ := h.2.1 r hr
  refine ⟨hl, ⟨r, hr, hrows, hcols, ?_, ?_, ?_, ?_, ?_, ?_, ?_, ?_, ?_⟩,
    h1.2.2 (by decide), h2.2.2 (by decide)⟩
  · rw [hother 0 0 (by decide)]; rfl
  · rw [hother 0 1 (by decide)]; rfl
  · rw [hother 0 2 (by decide)]; rfl
  · rw [hrow 0]; rfl
  · rw [hrow 1]; rfl
  · rw [hrow 2]; rfl
  · rw [hother 2 0 (by decide)]; rfl
  · rw [hother 2 1 (by decide)]; rfl
  · rw [hother 2 2 (by decide)]; rfl

/-- C24 (addition and subtraction assignment to a `StrictlyLowerMatrix`): for an
`n x n` strictly lower matrix `lower` and an `n x n` matrix `M`, `lower += M`
(resp. `lower -= M`) succeeds if and only if `M(i,j) = 0` for every `j ≥ i`; on
success the size is unchanged, every element is `lower(i,j) + M(i,j)` (resp.
`lower(i,j) - M(i,j)`) and the result is strictly lower; otherwise an
invalid-argument error is raised. -/
theorem strictlyLower_compound_assign {α : Type} [AddGroup α] [DecidableEq α]
    (lower : StrictlyLowerMatrix α) (M : Container α)
    (hl : lower.matrix_.isStrictlyLower = true)
    (hr : M.rows = lower.matrix_.rows) (hc : M.columns = lower.matrix_.columns) :
    ((∃ r, lower.addAssignMatrix M = .ok r) ↔
        ∀ i, i < M.rows → ∀ j, j < M.columns → i ≤ j → M.elem i j = 0) ∧
      ((∃ r, lower.subAssignMatrix M = .ok r) ↔
        ∀ i, i < M.rows → ∀ j, j < M.columns → i ≤ j → M.elem i j = 0) ∧
      (∀ r, lower.addAssignMatrix M = .ok r →
        r.matrix_.rows = lower.matrix_.rows ∧ r.matrix_.columns = lower.matrix_.columns ∧
          (∀ i j, r.matrix_.elem i j = lower.matrix_.elem i j + M.elem i j) ∧
          r.matrix_.isStrictlyLower = true) ∧
      (∀ r, lower.subAssignMatrix M = .ok r →
        r.matrix_.rows = lower.matrix_.rows ∧ r.matrix_.columns = lower.matrix_.columns ∧
          (∀ i j, r.matrix_.elem i j = lower.matrix_.elem i j - M.elem i j) ∧
          r.matrix_.isStrictlyLower = true) ∧
      (¬ (∀ i, i < M.rows → ∀ j, j < M.columns → i ≤ j → M.elem i j = 0) →
        (∃ what, lower.addAssignMatrix M = .error (.invalid_argument what)) ∧
          ∃ what, lower.subAssignMatrix M = .error (.invalid_argument what)) := by
  obtain ⟨hsq, hz⟩ := (Container.isStrictlyLower_iff _).mp hl
  have hadd : lower.addAssignMatrix M =
      StrictlyLowerMatrix.restricted
        { lower.matrix_ with elem := fun i j => lower.matrix_.elem i j + M.elem i j }
        "Invalid assignment to strictly lower matrix" := by
    unfold StrictlyLowerMatrix.addAssignMatrix
    rw [if_neg (by simp [hr, hc])]
  have hsub : lower.subAssignMatrix M =
      StrictlyLowerMatrix.restricted
        { lower.matrix_ with elem := fun i j => lower.matrix_.elem i j - M.elem i j }
        "Invalid assignment to strictly lower matrix" := by
    unfold StrictlyLowerMatrix.subAssignMatrix
    rw [if_neg (by simp [hr, hc])]
  have haddiff : (Container.isStrictlyLower
        { lower.matrix_ with elem := fun i j => lower.matrix_.elem i j + M.elem i j }) = true ↔
      ∀ i, i < M.rows → ∀ j, j < M.columns → i ≤ j → M.elem i j = 0 := by
    rw [Container.isStrictlyLower_iff]
    constructor
    · rintro ⟨-, h⟩ i hi j hj hij
      have h1 := h i (by rw [← hr]; exact hi) j (by rw [← hc]; exact hj) hij
      have h2 := hz i (by rw [← hr]; exact hi) j (by rw [← hc]; exact hj) hij
      simpa [h2] using h1
    · intro h
      refine ⟨hsq, ?_⟩
      intro i hi j hj hij
      have h1 := h i (by rw [hr]; exact hi) j (by rw [hc]; exact hj) hij
      have h2 := hz i hi j hj hij
      simp [h1, h2]
  have hsubiff : (Container.isStrictlyLower
        { lower.matrix_ with elem := fun i j => lower.matrix_.elem i j - M.elem i j }) = true ↔
      ∀ i, i < M.rows → ∀ j, j < M.columns → i ≤ j → M.elem i j = 0 := by
    rw [Container.isStrictlyLower_iff]
    constructor
    · rintro ⟨-, h⟩ i hi j hj hij
      have h1 := h i (by rw [← hr]; exact hi) j (by rw [← hc]; exact hj) hij
      have h2 := hz i (by rw [← hr]; exact hi) j (by rw [← hc]; exact hj) hij
      simpa [h2] using h1
    · intro h
      refine ⟨hsq, ?_⟩
      intro i hi j hj hij
      have h1 := h i (by rw [hr]; exact hi) j (by rw [hc]; exact hj) hij
      have h2 := hz i hi j hj hij
      simp [h1, h2]
  refine ⟨?_, ?_, ?_, ?_, ?_⟩
  · rw [hadd, ← haddiff]
    exact StrictlyLowerMatrix.restricted_ok_iff _ _
  · rw [hsub, ← hsubiff]
    exact StrictlyLowerMatrix.restricted_ok_iff _ _
  · intro r h
    rw [hadd] at h
    obtain ⟨hm, hs⟩ := StrictlyLowerMatrix.restricted_inv _ _ r h
    rw [hm]
    exact ⟨rfl, rfl, fun _ _ => rfl, hs⟩
  · intro r h
    rw [hsub] at h
    obtain ⟨hm, hs⟩ := StrictlyLowerMatrix.restricted_inv _ _ r h
    rw [hm]
    exact ⟨rfl, rfl, fun _ _ => rfl, hs⟩
  · intro hn
    refine ⟨?_, ?_⟩
    · rw [hadd]
      exact ⟨_, StrictlyLowerMatrix.restricted_error _ _ (fun h => hn (haddiff.mp h))⟩
    · rw [hsub]
      exact ⟨_, StrictlyLowerMatrix.restricted_error _ _ (fun h => hn (hsubiff.mp h))⟩

/-- Witness of C24: with `lower = [[0,0,0],[-4,0,0],[7,0,0]]`, adding
`[[0,0,0],[2,0,0],[-7,5,0]]` gives `[[0,0,0],[-2,0,0],[0,5,0]]`, subtracting
`[[0,0,0],[-2,0,0],[7,5,0]]` gives `[[0,0,0],[-2,0,0],[0,-5,0]]`, and the
matrix whose only non-zero element is `M(2,2) = 6` is rejected by both
operations with an invalid-argument error. -/
theorem strictlyLower_compound_assign_witness :
    sampleLower.matrix_.isStrictlyLower = true ∧
      (∃ r, sampleLower.addAssignMatrix sampleAddend = .ok r ∧
        r.matrix_.elem 1 0 = -2 ∧ r.matrix_.elem 2 0 = 0 ∧ r.matrix_.elem 2 1 = 5 ∧
        r.matrix_.elem 2 2 = 0 ∧ r.matrix_.isStrictlyLower = true) ∧
      (∃ r, sampleLower.subAssignMatrix sampleSubtrahend = .ok r ∧
        r.matrix_.elem 1 0 = -2 ∧ r.matrix_.elem 2 0 = 0 ∧ r.matrix_.elem 2 1 = -5 ∧
        r.matrix_.elem 2 2 = 0 ∧ r.matrix_.isStrictlyLower = true) ∧
      (∃ what, sampleLower.addAssignMatrix sampleDiagonalAddend =
        .error (.invalid_argument what)) ∧
      (∃ what, sampleLower.subAssignMatrix sampleDiagonalAddend =
        .error (.invalid_argument what)) := by
  have hl : sampleLower.matrix_.isStrictlyLower = true := by decide
  have ha := strictlyLower_compound_assign sampleLower sampleAddend hl rfl rfl
  have hs := strictlyLower_compound_assign sampleLower sampleSubtrahend hl rfl rfl
  have hd := strictlyLower_compound_assign sampleLower sampleDiagonalAddend hl rfl rfl
  obtain ⟨r1, hr1⟩ := ha.1.mpr (by decide)
  obtain ⟨r2, hr2⟩ := hs.2.1.mpr (by decide)
  obtain ⟨-, -, he1, hs1⟩ := ha.2.2.1 r1 hr1
  obtain ⟨-, -, he2, hs2⟩ := hs.2.2.2.1 r2 hr2
  have hn : ¬ ∀ i, i < sampleDiagonalAddend.rows → ∀ j, j < sampleDiagonalAddend.columns →
      i ≤ j → sampleDiagonalAddend.elem i j = 0 := by decide
  refine ⟨hl, ⟨r1, hr1, ?_, ?_, ?_, ?_, hs1⟩, ⟨r2, hr2, ?_, ?_, ?_, ?_, hs2⟩,
    (hd.2.2.2.2 hn).1, (hd.2.2.2.2 hn).2⟩
  · rw [he1]; rfl
  · rw [he1]; rfl
  · rw [he1]; rfl
  · rw [he1]; rfl
  · rw [he2]; rfl
  · rw [he2]; rfl
  · rw [he2]; rfl
  · rw [he2]; rfl

end Claims


end Blaze
